import Mathlib

/-!
# Verification of the tabular persistence and reconciliation layer

A shallow embedding, in Lean, of the record-store code in `app.py` and
`ui_components.py`: the comma-joined list-field encoding, the two
participation-update operations (`update_employee_event_status`,
`update_cohort_membership`), the identifier resolver
(`_parse_employee_identifiers`), the CSV schema repair in `load_table` /
`save_table`, and the migration driver `run_migrations`.

Tables are modelled in memory: each logical table is a list of typed rows whose
cells are strings, exactly as the code reads them (`dtype=str`).  Python sets
of strings are modelled as duplicate-free `List String` values; `sorted` is
modelled by an insertion sort over the code-point order on strings, which is
the order Python's `sorted` uses on `str`.
-/

/-! ## Python string primitives -/

/-- `s.split(sep)` for a one-character separator: split at every occurrence,
keeping empty pieces; the split of the empty string is `[""]`. -/
def pySplitCharAux (sep : Char) : List Char → List Char → List String
  | [], acc => [String.mk acc.reverse]
  | c :: cs, acc =>
    if c = sep then String.mk acc.reverse :: pySplitCharAux sep cs []
    else pySplitCharAux sep cs (c :: acc)

/-- Python `s.split(sep)` for a one-character separator `sep`. -/
def pySplitChar (sep : Char) (s : String) : List String :=
  pySplitCharAux sep s.data []

/-- Python `sep.join(l)`. -/
def pyJoinSep (sep : String) : List String → String
  | [] => ""
  | [x] => x
  | x :: y :: ys => x ++ sep ++ pyJoinSep sep (y :: ys)

/-- Python `str.strip()` (with no argument): drop leading and trailing
whitespace. -/
def pyStrip (s : String) : String :=
  String.mk (((s.data.dropWhile Char.isWhitespace).reverse.dropWhile
    Char.isWhitespace).reverse)

/-- Python `c in s` for a single character. -/
def pyHasChar (c : Char) (s : String) : Bool := s.data.contains c

/-- `needle` occurs in `hay` starting at the first position. -/
def charsHavePre : List Char → List Char → Bool
  | [], _ => true
  | _ :: _, [] => false
  | a :: as, b :: bs => a = b && charsHavePre as bs

/-- `needle` occurs somewhere in `hay` (Python `needle in hay` on strings). -/
def charsHaveSub (needle : List Char) : List Char → Bool
  | [] => charsHavePre needle []
  | b :: bs => charsHavePre needle (b :: bs) || charsHaveSub needle bs

/-- Python substring test `needle in hay`. -/
def pyInStr (needle hay : String) : Bool := charsHaveSub needle.data hay.data

/-- Code-point comparison of character lists, as Python compares `str`
values. -/
def charsLe : List Char → List Char → Bool
  | [], _ => true
  | _ :: _, [] => false
  | a :: as, b :: bs =>
    if a.val < b.val then true
    else if b.val < a.val then false
    else charsLe as bs

/-- Python's `<=` on strings (lexicographic by code point). -/
def strLe (a b : String) : Bool := charsLe a.data b.data

/-! ## The list-field cell encoding

A list-valued cell is a single string; the code reads it with
`set(cell.split(',') if cell else [])` and writes it with
`",".join(sorted(list(filter(None, someset))))`. -/

/-- The entries of a list-valued cell:
`cell.split(',') if cell else []`. -/
def cellToList (s : String) : List String :=
  if s = "" then [] else pySplitChar ',' s

/-- `set(...)` of the entries of a cell, modelled as a duplicate-free list. -/
def pySetOfCell (s : String) : List String := (cellToList s).dedup

/-- Python set difference `s - t`. -/
def pyDiff (s t : List String) : List String := s.filter (fun x => x ∉ t)

/-- Python `s.add(x)` on a duplicate-free list model of a set. -/
def pyAdd (s : List String) (x : String) : List String :=
  if x ∈ s then s else s ++ [x]

/-- Python `s.update(l)` (union with the elements of `l`). -/
def pyUnion (s l : List String) : List String := l.foldl pyAdd s

/-- A string containing no comma; only such strings survive a round trip
through the comma-joined cell encoding. -/
def commaFree (s : String) : Prop := ','  ∉ s.data

instance (s : String) : Decidable (commaFree s) := by
  unfold commaFree; infer_instance


/-- `strLe` as a proposition: the order `sorted` sorts by. -/
def SLe (a b : String) : Prop := strLe a b = true

instance : DecidableRel SLe := fun a b => instDecidableEqBool (strLe a b) true

/-- Python `sorted` on a list of strings (code-point order, duplicates
kept). -/
def pySortedList (l : List String) : List String := List.insertionSort SLe l


/-- Serialize a set back into a cell:
`",".join(sorted(list(filter(None, s))))`. -/
def cellOfSet (s : List String) : String :=
  pyJoinSep "," (pySortedList (s.filter (fun x => x ≠ "")))

/-! ## Rows and tables

One structure per logical table, one field per canonical column, every cell a
string read with `dtype=str` (`FILES` in `app.py`).  `AppState` is the on-disk
state: the five tables, the `could_not_find.csv` audit log, and the ordered
record of `save_table` writes performed so far. -/

structure EmployeeRow where
  standardID : String
  email : String := ""
deriving DecidableEq

structure WorkshopRow where
  workshopNumber : String
  series : String := ""
  skill : String := ""
  goal : String := ""
  instances : String := ""
  registered : String := ""
  participated : String := ""
deriving DecidableEq

structure CohortRow where
  name : String
  dateStarted : String := ""
  nominated : String := ""
  invited : String := ""
  joined : String := ""
deriving DecidableEq

structure EventRow where
  eventID : String
  name : String := ""
  date : String := ""
  category : String := ""
  workshop : String := ""
  hosted : String := ""
  registrations : String := ""
  participantsCell : String := ""
deriving DecidableEq

structure ParticipantRow where
  standardID : String
  email : String := ""
  eventsRegistered : String := ""
  eventsParticipated : String := ""
  eventsHosted : String := ""
  waitlist : String := ""
  cohortsNominated : String := ""
  cohortsInvited : String := ""
  cohortsJoined : String := ""
  nominatedBy : String := ""
  notes : String := ""
  tags : String := ""
  lastUpdated : String := ""
deriving DecidableEq

structure AppState where
  employees : List EmployeeRow
  workshops : List WorkshopRow
  cohorts : List CohortRow
  events : List EventRow
  participants : List ParticipantRow
  couldNotFind : List (String × String)
  saves : List String
deriving DecidableEq

/-- Update the first element satisfying `p` (pandas `.loc[idx]` on the first
matching index), leaving the rest of the list unchanged. -/
def updateFirst (p : α → Bool) (f : α → α) : List α → List α
  | [] => []
  | x :: xs => if p x then f x :: xs else x :: updateFirst p f xs

/-- First row of `events` with the given `Event ID`
(`events_df[events_df["Event ID"] == event_id]`, row at `.index[0]`). -/
def findEvent (s : AppState) (v : String) : Option EventRow :=
  s.events.find? (fun r => decide (r.eventID = v))

/-- First row of `participants` with the given `Standard ID`. -/
def findParticipant (s : AppState) (e : String) : Option ParticipantRow :=
  s.participants.find? (fun p => decide (p.standardID = e))

/-- First row of `cohorts` with the given `Name`. -/
def findCohort (s : AppState) (c : String) : Option CohortRow :=
  s.cohorts.find? (fun r => decide (r.name = c))

/-! ## `update_employee_event_status` (app.py lines 659-775) -/

/-- The `events.csv` side of `update_employee_event_status`: union the
employee keys into each requested list field of the event row, rewrite all
three fields normalized, and compute the three newly-added counts exactly as
the code does (`final_len - initial_len`, where the initial length is
`len(set(...) - {''})` and the final length is
`len(set(filter(None, new_cell.split(','))))`). -/
def eventRowApply (empIds : List String)
    (markReg markPart markHost : Option Bool) (r : EventRow) :
    EventRow × Int × Int × Int :=
  let regs := pySetOfCell r.registrations
  let parts := pySetOfCell r.participantsCell
  let hosts := pySetOfCell r.hosted
  let initReg : Int := (pyDiff regs [""]).length
  let initPart : Int := (pyDiff parts [""]).length
  let initHost : Int := (pyDiff hosts [""]).length
  let regs1 := if markReg = some true then pyUnion regs empIds else regs
  let parts1 := if markPart = some true then pyUnion parts empIds else parts
  let hosts1 := if markHost = some true then pyUnion hosts empIds else hosts
  let r' := { r with
    registrations := cellOfSet regs1
    participantsCell := cellOfSet parts1
    hosted := cellOfSet hosts1 }
  let finalReg : Int :=
    ((pySplitChar ',' r'.registrations).filter (fun x => x ≠ "")).dedup.length
  let finalPart : Int :=
    ((pySplitChar ',' r'.participantsCell).filter (fun x => x ≠ "")).dedup.length
  let finalHost : Int :=
    ((pySplitChar ',' r'.hosted).filter (fun x => x ≠ "")).dedup.length
  (r',
    if markReg = some true then finalReg - initReg else 0,
    if markPart = some true then finalPart - initPart else 0,
    if markHost = some true then finalHost - initHost else 0)

/-- Email chosen for a freshly created participant row: the key itself when it
contains `@`; otherwise the employee's email when the key resolves in the
employees table; otherwise the empty string. -/
def newParticipantEmail (employees : List EmployeeRow) (empId : String) :
    String :=
  if pyHasChar '@' empId then empId
  else
    match employees.find? (fun e => decide (e.standardID = empId)) with
    | some e => e.email
    | none => ""

/-- A freshly created participant row (`new_row_data`): every column empty
except `Standard ID`, `Email` and `Waitlist = "No"`. -/
def blankParticipantRow (employees : List EmployeeRow) (empId : String) :
    ParticipantRow :=
  { standardID := empId
    email := newParticipantEmail employees empId
    waitlist := "No" }

/-- The per-participant-row update of `update_employee_event_status`: add the
event key to each requested list field when absent, rewrite all three fields
normalized, and stamp `Last Updated` only when some field actually gained the
event key. -/
def participantEventApply (eventId : String)
    (markReg markPart markHost : Option Bool) (now : String)
    (p : ParticipantRow) : ParticipantRow :=
  let regs := pySetOfCell p.eventsRegistered
  let parts := pySetOfCell p.eventsParticipated
  let hosts := pySetOfCell p.eventsHosted
  let regs1 := if markReg = some true ∧ eventId ∉ regs
    then pyAdd regs eventId else regs
  let parts1 := if markPart = some true ∧ eventId ∉ parts
    then pyAdd parts eventId else parts
  let hosts1 := if markHost = some true ∧ eventId ∉ hosts
    then pyAdd hosts eventId else hosts
  let changed := (markReg = some true ∧ eventId ∉ regs) ∨
    (markPart = some true ∧ eventId ∉ parts) ∨
    (markHost = some true ∧ eventId ∉ hosts)
  { p with
    eventsRegistered := cellOfSet regs1
    eventsParticipated := cellOfSet parts1
    eventsHosted := cellOfSet hosts1
    lastUpdated := if changed then now else p.lastUpdated }

/-- One iteration of the participant loop of `update_employee_event_status`:
log the key if unresolved, create the participant row if missing, then update
the (first) row with that key. -/
def eventParticipantStep (employees : List EmployeeRow)
    (absentIds : List String) (eventId : String)
    (markReg markPart markHost : Option Bool) (now : String)
    (acc : List ParticipantRow × List (String × String)) (empId : String) :
    List ParticipantRow × List (String × String) :=
  let log := if empId ∈ absentIds then acc.2 ++ [(empId, now)] else acc.2
  let ps := if acc.1.any (fun p => decide (p.standardID = empId)) then acc.1
    else acc.1 ++ [blankParticipantRow employees empId]
  (updateFirst (fun p => decide (p.standardID = empId))
    (participantEventApply eventId markReg markPart markHost now) ps, log)

/-- `update_employee_event_status`: returns the new on-disk state and the
three newly-added counts. -/
def updateEmployeeEventStatus (s : AppState) (empIds : List String)
    (absentIds : List String) (eventId : String)
    (markReg markPart markHost : Option Bool) (now : String) :
    AppState × Int × Int × Int :=
  if eventId = "" ∨ empIds = [] then (s, 0, 0, 0)
  else
    match findEvent s eventId with
    | none => (s, 0, 0, 0)
    | some ev =>
      let upd := eventRowApply empIds markReg markPart markHost ev
      let events1 := updateFirst (fun r => decide (r.eventID = eventId))
        (fun _ => upd.1) s.events
      let folded := empIds.foldl
        (eventParticipantStep s.employees absentIds eventId
          markReg markPart markHost now)
        (s.participants, s.couldNotFind)
      ({ s with
          events := events1
          participants := folded.1
          couldNotFind := folded.2
          saves := s.saves ++ ["events", "participants"] },
        upd.2.1, upd.2.2.1, upd.2.2.2)

/-! ## `update_cohort_membership` (app.py lines 778-969) -/

/-- One dimension of the `cohorts.csv` side: union (for `"add"`) or subtract
(for any other action) the employee keys, rewrite the cell normalized, and
compute the delta the code reports (post-size minus pre-size of the in-memory
set for adds, pre minus post otherwise). -/
def cohortDimApply (empIds : List String) (actionType : String)
    (cell : String) : String × Int :=
  let cur := pySetOfCell cell
  let initLen : Int := (pyDiff cur [""]).length
  let cur1 := if actionType = "add" then pyUnion cur empIds
    else pyDiff cur empIds
  let newLen : Int := (cur1.filter (fun x => x ≠ "")).dedup.length
  (cellOfSet cur1,
    if actionType = "add" then newLen - initLen else initLen - newLen)

/-- The `cohorts.csv` side of `update_cohort_membership`: each flagged
dimension is updated via `cohortDimApply`; unflagged dimensions are left
untouched and report a zero delta. -/
def cohortRowApply (empIds : List String)
    (markNom markInv markJoin : Bool) (actionType : String) (c : CohortRow) :
    CohortRow × Int × Int × Int :=
  let n := if markNom then cohortDimApply empIds actionType c.nominated
    else (c.nominated, 0)
  let i := if markInv then cohortDimApply empIds actionType c.invited
    else (c.invited, 0)
  let j := if markJoin then cohortDimApply empIds actionType c.joined
    else (c.joined, 0)
  ({ c with nominated := n.1, invited := i.1, joined := j.1 },
    n.2, i.2, j.2)

/-- One dimension of an existing participant row in
`update_cohort_membership`: the cell is rewritten only when the membership
actually changes (on `"add"` when the cohort is absent, on `"remove"` when it
is present); the boolean reports whether an assignment happened. -/
def participantCohortDim (cohortName : String) (actionType : String)
    (cell : String) : String × Bool :=
  let cur := pySetOfCell cell
  if actionType = "add" ∧ cohortName ∉ cur then
    (cellOfSet (pyAdd cur cohortName), true)
  else if actionType = "remove" ∧ cohortName ∈ cur then
    (cellOfSet (cur.erase cohortName), true)
  else (cell, false)

/-- The per-row update of `update_cohort_membership` for an existing
participant row: flagged cohort dimensions, then `Nominated By` and `Notes`
(strictly on `"add"`), then the `Last Updated` stamp when anything was
assigned.  Returns the updated row and the `participant_row_changed` flag. -/
def participantCohortApply (cohortName : String)
    (markNom markInv markJoin : Bool)
    (actionType nominatedByDetails notesDetails now : String)
    (p : ParticipantRow) : ParticipantRow × Bool :=
  let n := if markNom then participantCohortDim cohortName actionType p.cohortsNominated
    else (p.cohortsNominated, false)
  let i := if markInv then participantCohortDim cohortName actionType p.cohortsInvited
    else (p.cohortsInvited, false)
  let j := if markJoin then participantCohortDim cohortName actionType p.cohortsJoined
    else (p.cohortsJoined, false)
  let actionTaken := markNom || markInv || markJoin
  let nb :=
    if actionTaken ∧ nominatedByDetails ≠ "" ∧ actionType = "add" then
      let nbList := ((pySplitChar ',' p.nominatedBy).map pyStrip).filter
        (fun x => x ≠ "")
      if nominatedByDetails ∉ nbList then
        (pyJoinSep ", " (pySortedList
          ((nbList ++ [nominatedByDetails]).filter (fun x => x ≠ ""))), true)
      else (p.nominatedBy, false)
    else (p.nominatedBy, false)
  let notesPair :=
    if actionTaken ∧ notesDetails ≠ "" ∧ actionType = "add" then
      if pyInStr notesDetails p.notes = false then
        ((if p.notes ≠ "" then pyStrip (p.notes ++ "\n" ++ notesDetails)
          else notesDetails), true)
      else (p.notes, false)
    else (p.notes, false)
  let rowChanged := n.2 || i.2 || j.2 || nb.2 || notesPair.2
  ({ p with
      cohortsNominated := n.1
      cohortsInvited := i.1
      cohortsJoined := j.1
      nominatedBy := nb.1
      notes := notesPair.1
      lastUpdated := if rowChanged then now else p.lastUpdated },
    rowChanged)

/-- A participant row freshly created by `update_cohort_membership` in
`"add"` mode for a key with no existing row. -/
def newCohortParticipantRow (employees : List EmployeeRow)
    (cohortName : String) (markNom markInv markJoin : Bool)
    (nominatedByDetails notesDetails now : String) (empId : String) :
    ParticipantRow :=
  let nomSet : List String := if markNom then pyAdd [] cohortName else []
  let invSet : List String := if markInv then pyAdd [] cohortName else []
  let joinSet : List String := if markJoin then pyAdd [] cohortName else []
  let taken := markNom || markInv || markJoin
  let nbList : List String :=
    if taken ∧ nominatedByDetails ≠ "" then [nominatedByDetails] else []
  { standardID := empId
    email := newParticipantEmail employees empId
    waitlist := "No"
    cohortsNominated := cellOfSet nomSet
    cohortsInvited := cellOfSet invSet
    cohortsJoined := cellOfSet joinSet
    nominatedBy := pyJoinSep ", " (pySortedList
      (nbList.filter (fun x => x ≠ "")))
    notes := if taken ∧ notesDetails ≠ "" then notesDetails else ""
    lastUpdated := now }

/-- One iteration of the participant loop of `update_cohort_membership`:
log the key if unresolved; update the (first) existing row with that key, or
— only in `"add"` mode — append a fresh row.  The third component is the
`participants_file_updated` flag. -/
def cohortParticipantStep (employees : List EmployeeRow)
    (absentIds : List String) (cohortName : String)
    (markNom markInv markJoin : Bool)
    (actionType nominatedByDetails notesDetails now : String)
    (acc : List ParticipantRow × List (String × String) × Bool)
    (empId : String) :
    List ParticipantRow × List (String × String) × Bool :=
  let log := if empId ∈ absentIds then acc.2.1 ++ [(empId, now)] else acc.2.1
  match acc.1.find? (fun p => decide (p.standardID = empId)) with
  | some p0 =>
    let pr := participantCohortApply cohortName markNom markInv markJoin
      actionType nominatedByDetails notesDetails now
    (updateFirst (fun p => decide (p.standardID = empId))
        (fun p => (pr p).1) acc.1,
      log, acc.2.2 || (pr p0).2)
  | none =>
    if actionType = "add" then
      (acc.1 ++ [newCohortParticipantRow employees cohortName
          markNom markInv markJoin nominatedByDetails notesDetails now empId],
        log, true)
    else (acc.1, log, acc.2.2)

/-- `update_cohort_membership`: returns the new on-disk state and the three
per-dimension deltas.  `participants.csv` is written back only when the
`participants_file_updated` flag was set. -/
def updateCohortMembership (s : AppState) (cohortName : String)
    (empIds : List String) (absentIds : List String)
    (markNom markInv markJoin : Bool)
    (nominatedByDetails notesDetails actionType now : String) :
    AppState × Int × Int × Int :=
  if cohortName = "" ∨ empIds = [] ∨
      (markNom = false ∧ markInv = false ∧ markJoin = false) then
    (s, 0, 0, 0)
  else
    match findCohort s cohortName with
    | none => (s, 0, 0, 0)
    | some c =>
      let upd := cohortRowApply empIds markNom markInv markJoin actionType c
      let cohorts1 := updateFirst (fun r => decide (r.name = cohortName))
        (fun _ => upd.1) s.cohorts
      let folded := empIds.foldl
        (cohortParticipantStep s.employees absentIds cohortName
          markNom markInv markJoin actionType nominatedByDetails
          notesDetails now)
        (s.participants, s.couldNotFind, false)
      ({ s with
          cohorts := cohorts1
          participants := if folded.2.2 then folded.1 else s.participants
          couldNotFind := folded.2.1
          saves := s.saves ++ ["cohorts"] ++
            (if folded.2.2 then ["participants"] else []) },
        upd.2.1, upd.2.2.1, upd.2.2.2)

/-! ## `run_migrations` (app.py lines 56-86) and the version marker -/

/-- The keys of the migration dictionary in `run_migrations`. -/
def migrationKeys : List String :=
  ["0.0.0->1.0.0", "1.0.0->1.1.0", "1.1.0->1.2.0",
   "1.2.0->1.2.1", "1.2.1->1.2.2", "1.2.2->1.2.3"]

/-- The persisted `version.json` marker (`update_schema_version` /
`get_current_schema_version`). -/
structure VersionMarker where
  schemaVersion : String
deriving DecidableEq

/-- `run_migrations`, with the transform bodies abstracted as a function from
migration keys to either a raised exception message or success (none of the
registered transforms writes the version marker).  Returns the marker after
the call paired with the outcome: an exception propagated out of the
transform, or the boolean `run_migrations` returns.  `update_schema_version`
is the assignment of `toV` into the marker, and it is reached only after the
transform returns normally. -/
def runMigrations (transform : String → Except String Unit)
    (fromV toV : String) (marker : VersionMarker) :
    VersionMarker × Except String Bool :=
  let migrationKey := fromV ++ "->" ++ toV
  if migrationKey ∈ migrationKeys then
    match transform migrationKey with
    | Except.error e => (marker, Except.error e)
    | Except.ok _ => ({ schemaVersion := toV }, Except.ok true)
  else if fromV = "0.0.0" then ({ schemaVersion := toV }, Except.ok true)
  else (marker, Except.ok false)

/-! ## `_parse_employee_identifiers` (ui_components.py lines 7-49) -/

/-- The tokenization: strip the whole text, split on newlines, split each
line on commas, strip each item, drop empties. -/
def resolverTokens (rawText : String) : List String :=
  ((pySplitChar '\n' (pyStrip rawText)).flatMap
    (fun line => (pySplitChar ',' line).map pyStrip)).filter
    (fun x => x ≠ "")

/-- `email_to_id.get(identifier)` followed by the code's `if std_id:`
truthiness test: the Standard ID of the first employee row carrying the
email, provided that ID is nonempty.  (The embedding assumes employee emails
are unique, as the `set_index("Email")` lookup does.) -/
def emailLookup (employees : List EmployeeRow) (email : String) :
    Option String :=
  match employees.find? (fun e => decide (e.email = email)) with
  | some e => if e.standardID ≠ "" then some e.standardID else none
  | none => none

/-- Membership of a candidate Standard ID in the employee key set
(`set(employees_df["Standard ID"])`). -/
def idSetContains (employees : List EmployeeRow) (x : String) : Bool :=
  employees.any (fun e => decide (e.standardID = x))

/-- One token of `_parse_employee_identifiers`: emails resolve through the
email index (falling back to the raw token, also flagged unresolved);
non-email tokens are always emitted and flagged unresolved when absent from
the key set. -/
def parseStep (employees : List EmployeeRow)
    (acc : List String × List String) (ident : String) :
    List String × List String :=
  if pyHasChar '@' ident then
    match emailLookup employees ident with
    | some sid => (acc.1 ++ [sid], acc.2)
    | none => (acc.1 ++ [ident], acc.2 ++ [ident])
  else
    (acc.1 ++ [ident],
      if idSetContains employees ident then acc.2 else acc.2 ++ [ident])

/-- `_parse_employee_identifiers`: returns the identifiers-for-processing
list and the not-found-in-employees list. -/
def parseEmployeeIdentifiers (rawText : String)
    (employees : List EmployeeRow) : List String × List String :=
  (resolverTokens rawText).foldl (parseStep employees) ([], [])

/-! ## The CSV schema layer: `validate_and_fix_csv_schema`, `load_table`,
`save_table` (app.py lines 438-633) -/

/-- A delimited file in memory: the header and the rows, each row listing its
cell values in header order. -/
structure RawTable where
  cols : List String
  rows : List (List String)
deriving DecidableEq

/-- `row[c]`: the value under the first column labelled `c`. -/
def cellOf (cols : List String) (row : List String) (c : String) : String :=
  match cols, row with
  | [], _ => ""
  | _ :: _, [] => ""
  | c0 :: cs, v :: vs => if c0 = c then v else cellOf cs vs c

/-- Every row has exactly one value per header column. -/
def RawTableWF (t : RawTable) : Prop :=
  ∀ r ∈ t.rows, r.length = t.cols.length

instance (t : RawTable) : Decidable (RawTableWF t) := by
  unfold RawTableWF; infer_instance

/-- `df[c] = ""`: append a column populated with the empty string. -/
def addEmptyCol (t : RawTable) (c : String) : RawTable :=
  { cols := t.cols ++ [c], rows := t.rows.map (fun r => r ++ [""]) }

/-- `df.rename(columns={old: new})`: relabel every matching column, keeping
all values. -/
def renameCol (t : RawTable) (old new : String) : RawTable :=
  { t with cols := t.cols.map (fun c => if c = old then new else c) }

/-- Apply `f` to the values under every column labelled `c` in one row. -/
def mapRowAt (c : String) (f : String → String) :
    List String → List String → List String
  | [], r => r
  | _ :: _, [] => []
  | c0 :: cs, v :: vs => (if c0 = c then f v else v) :: mapRowAt c f cs vs

/-- Apply `f` to column `c` of every row. -/
def mapCol (t : RawTable) (c : String) (f : String → String) : RawTable :=
  { t with rows := t.rows.map (fun r => mapRowAt c f t.cols r) }

/-- `df[cs]`: reorder/select columns. -/
def selectCols (t : RawTable) (cs : List String) : RawTable :=
  { cols := cs, rows := t.rows.map (fun r => cs.map (cellOf t.cols r)) }

/-- The schema registry `FILES`: table key, file name, canonical columns. -/
def FILES : List (String × String × List String) := [
  ("employees", "employees.csv", ["Standard ID", "Email"]),
  ("workshops", "workshops.csv",
    ["Workshop #", "Series", "Skill", "Goal", "Instances",
     "Registered", "Participated"]),
  ("cohorts", "cohorts.csv",
    ["Name", "Date Started", "Nominated", "Invited", "Joined"]),
  ("events", "events.csv",
    ["Event ID", "Name", "Date", "Category", "Workshop", "Hosted",
     "Registrations", "Participants"]),
  ("participants", "participants.csv",
    ["Standard ID", "Email", "Events Registered", "Events Participated",
     "Events Hosted", "Waitlist", "Cohorts Nominated", "Cohorts Invited",
     "Cohorts Joined", "Nominated By", "Notes", "Tags", "Last Updated"])]

/-- The logical table keys. -/
def tableKeys : List String := FILES.map (fun f => f.1)

/-- The canonical column list for a table key. -/
def canonicalCols (key : String) : List String :=
  match FILES.find? (fun f => decide (f.1 = key)) with
  | some f => f.2.2
  | none => []

/-- `validate_and_fix_csv_schema`: add every missing canonical column as an
empty-string column; the boolean reports whether anything was added. -/
def validateAndFixSchema (key : String) (t : RawTable) : RawTable × Bool :=
  (canonicalCols key).foldl
    (fun acc c => if c ∈ acc.1.cols then acc else (addEmptyCol acc.1 c, true))
    (t, false)

/-- `pd.to_datetime(col, errors='coerce')` at the level of CSV-serialized
cells: an empty (NA) cell coerces to `NaT`, which serializes back to the
empty string.  The theorems below only ever apply this map to empty cells,
so the representation of a nonempty cell is kept verbatim instead of
modelling the date parser. -/
def pdToDatetime (s : String) : String := if s = "" then "" else s

/-- The employees-specific preprocessing of `load_table` (lines 558-569):
rename `Work Email Address` to `Email`, then materialize `Standard ID` and
`Email` if still missing. -/
def loadEmployeesPre (t : RawTable) : RawTable :=
  let t1 := if "Work Email Address" ∈ t.cols then
    renameCol t "Work Email Address" "Email" else t
  let t2 := if "Standard ID" ∈ t1.cols then t1 else addEmptyCol t1 "Standard ID"
  if "Email" ∈ t2.cols then t2 else addEmptyCol t2 "Email"

/-- The effective column list of a load: the canonical columns, extended for
the employees table by every extra column discovered in the (preprocessed)
file. -/
def effectiveCols (key : String) (t : RawTable) : List String :=
  if key = "employees" then
    canonicalCols key ++ t.cols.filter (fun c => c ∉ canonicalCols key)
  else canonicalCols key

/-- The result of `load_table` on an existing file: the returned table, the
on-disk contents after the call, and whether the file was rewritten. -/
structure LoadResult where
  table : RawTable
  disk : RawTable
  rewrote : Bool
deriving DecidableEq

/-- Stage one of `load_table` on an existing file (lines 558-581): the
employees preprocessing, or the date coercion for the events / cohorts
table. -/
def loadPre (key : String) (file : RawTable) : RawTable :=
  if key = "employees" then loadEmployeesPre file
  else if key = "events" ∧ "Date" ∈ file.cols then
    mapCol file "Date" pdToDatetime
  else if key = "cohorts" ∧ "Date Started" ∈ file.cols then
    mapCol file "Date Started" pdToDatetime
  else file

/-- Stage two (lines 583-584): the schema repair and its fixed flag. -/
def loadFixed (key : String) (file : RawTable) : RawTable × Bool :=
  validateAndFixSchema key (loadPre key file)

/-- Stage three (lines 609-613): ensure every effective column exists. -/
def loadEnsured (key : String) (file : RawTable) : RawTable :=
  (effectiveCols key (loadPre key file)).foldl
    (fun t c => if c ∈ t.cols then t else addEmptyCol t c)
    (loadFixed key file).1

/-- Stage four (lines 615-619): re-coerce a date column that was re-added as
strings (its dtype is only `object` when the first coercion did not run). -/
def loadRecoerced (key : String) (file : RawTable) : RawTable :=
  if key = "events" ∧ "Date" ∈ (loadEnsured key file).cols ∧
      "Date" ∉ file.cols then
    mapCol (loadEnsured key file) "Date" pdToDatetime
  else if key = "cohorts" ∧ "Date Started" ∈ (loadEnsured key file).cols ∧
      "Date Started" ∉ file.cols then
    mapCol (loadEnsured key file) "Date Started" pdToDatetime
  else loadEnsured key file

/-- `load_table(key)` when the backing file exists with contents `file`
(lines 549-621): preprocessing and date coercion, schema repair with an
immediate rewrite when anything was added (undoing the employees email
rename first), the ensure-columns loop, the second date coercion, and the
final column-order enforcement. -/
def loadTableExisting (key : String) (file : RawTable) : LoadResult :=
  { table := selectCols (loadRecoerced key file)
      (effectiveCols key (loadPre key file))
    disk :=
      if (loadFixed key file).2 then
        (if key = "employees" then
          renameCol (loadFixed key file).1 "Email" "Work Email Address"
         else (loadFixed key file).1)
      else file
    rewrote := (loadFixed key file).2 }

/-- `save_table`: the file contents written back for table `key` (lines
624-633): the employees table has its internal `Email` column renamed back to
`Work Email Address`. -/
def saveTable (key : String) (t : RawTable) : RawTable :=
  if key = "employees" ∧ "Email" ∈ t.cols then
    renameCol t "Email" "Work Email Address"
  else t

/-! ## Cross-table consistency -/

/-- Employee `e` occurs in the `Registrations` cell of the (first) event row
keyed `v`. -/
def evRegB (s : AppState) (v e : String) : Bool :=
  match findEvent s v with
  | some r => decide (e ∈ pySetOfCell r.registrations)
  | none => false

/-- Employee `e` occurs in the `Participants` cell of event `v`. -/
def evPartB (s : AppState) (v e : String) : Bool :=
  match findEvent s v with
  | some r => decide (e ∈ pySetOfCell r.participantsCell)
  | none => false

/-- Employee `e` occurs in the `Hosted` cell of event `v`. -/
def evHostB (s : AppState) (v e : String) : Bool :=
  match findEvent s v with
  | some r => decide (e ∈ pySetOfCell r.hosted)
  | none => false

/-- Event `v` occurs in the `Events Registered` cell of the (first)
participant row keyed `e`. -/
def paRegB (s : AppState) (e v : String) : Bool :=
  match findParticipant s e with
  | some p => decide (v ∈ pySetOfCell p.eventsRegistered)
  | none => false

/-- Event `v` occurs in the `Events Participated` cell of participant `e`. -/
def paPartB (s : AppState) (e v : String) : Bool :=
  match findParticipant s e with
  | some p => decide (v ∈ pySetOfCell p.eventsParticipated)
  | none => false

/-- Event `v` occurs in the `Events Hosted` cell of participant `e`. -/
def paHostB (s : AppState) (e v : String) : Bool :=
  match findParticipant s e with
  | some p => decide (v ∈ pySetOfCell p.eventsHosted)
  | none => false

/-- Employee `e` occurs in the `Nominated` cell of the (first) cohort row
named `c`. -/
def coNomB (s : AppState) (c e : String) : Bool :=
  match findCohort s c with
  | some r => decide (e ∈ pySetOfCell r.nominated)
  | none => false

/-- Employee `e` occurs in the `Invited` cell of cohort `c`. -/
def coInvB (s : AppState) (c e : String) : Bool :=
  match findCohort s c with
  | some r => decide (e ∈ pySetOfCell r.invited)
  | none => false

/-- Employee `e` occurs in the `Joined` cell of cohort `c`. -/
def coJoinB (s : AppState) (c e : String) : Bool :=
  match findCohort s c with
  | some r => decide (e ∈ pySetOfCell r.joined)
  | none => false

/-- Cohort `c` occurs in the `Cohorts Nominated` cell of participant `e`. -/
def paNomB (s : AppState) (e c : String) : Bool :=
  match findParticipant s e with
  | some p => decide (c ∈ pySetOfCell p.cohortsNominated)
  | none => false

/-- Cohort `c` occurs in the `Cohorts Invited` cell of participant `e`. -/
def paInvB (s : AppState) (e c : String) : Bool :=
  match findParticipant s e with
  | some p => decide (c ∈ pySetOfCell p.cohortsInvited)
  | none => false

/-- Cohort `c` occurs in the `Cohorts Joined` cell of participant `e`. -/
def paJoinB (s : AppState) (e c : String) : Bool :=
  match findParticipant s e with
  | some p => decide (c ∈ pySetOfCell p.cohortsJoined)
  | none => false

/-- The cross-table consistency invariant: for every employee key and event
key (cohort name), membership recorded on the owning row and on the
participant rollup agree, in all six denormalized dimensions. -/
def Consistent (s : AppState) : Prop :=
  (∀ v e, evRegB s v e = paRegB s e v) ∧
  (∀ v e, evPartB s v e = paPartB s e v) ∧
  (∀ v e, evHostB s v e = paHostB s e v) ∧
  (∀ c e, coNomB s c e = paNomB s e c) ∧
  (∀ c e, coInvB s c e = paInvB s e c) ∧
  (∀ c e, coJoinB s c e = paJoinB s e c)

/-- A list-valued cell with no empty entries (the data-model invariant for
list fields; every cell the update engine writes satisfies it). -/
def CellWF (cell : String) : Prop := "" ∉ cellToList cell

instance (cell : String) : Decidable (CellWF cell) := by
  unfold CellWF; infer_instance

/-- Every list-valued cell of the state satisfies `CellWF`. -/
def StateCellsWF (s : AppState) : Prop :=
  (∀ r ∈ s.events,
    CellWF r.registrations ∧ CellWF r.participantsCell ∧ CellWF r.hosted) ∧
  (∀ p ∈ s.participants,
    CellWF p.eventsRegistered ∧ CellWF p.eventsParticipated ∧
    CellWF p.eventsHosted ∧ CellWF p.cohortsNominated ∧
    CellWF p.cohortsInvited ∧ CellWF p.cohortsJoined) ∧
  (∀ c ∈ s.cohorts, CellWF c.nominated ∧ CellWF c.invited ∧ CellWF c.joined)

instance (s : AppState) : Decidable (StateCellsWF s) := by
  unfold StateCellsWF; infer_instance

/-- An add-mode update operation: an event-status update, or a
cohort-membership update with `actionType = "add"`. -/
inductive AddOp where
  | eventUpd (empIds absentIds : List String) (eventId : String)
      (markReg markPart markHost : Option Bool) (now : String)
  | cohortAdd (cohortName : String) (empIds absentIds : List String)
      (markNom markInv markJoin : Bool)
      (nominatedByDetails notesDetails now : String)

/-- Apply an add-mode operation to the state. -/
def applyAddOp (s : AppState) : AddOp → AppState
  | AddOp.eventUpd empIds absentIds eventId mr mp mh now =>
    (updateEmployeeEventStatus s empIds absentIds eventId mr mp mh now).1
  | AddOp.cohortAdd cohortName empIds absentIds mn mi mj nb nd now =>
    (updateCohortMembership s cohortName empIds absentIds mn mi mj
      nb nd "add" now).1

/-- Well-formed arguments for an add-mode operation: every employee key is
nonempty and comma-free (which is what the identifier resolver produces,
since it splits its input on commas and drops empties), and the targeted
event key / cohort name is comma-free. -/
def AddOpWF : AddOp → Prop
  | AddOp.eventUpd empIds _ eventId _ _ _ _ =>
    (∀ k ∈ empIds, k ≠ "" ∧ commaFree k) ∧ commaFree eventId
  | AddOp.cohortAdd cohortName empIds _ _ _ _ _ _ _ =>
    (∀ k ∈ empIds, k ≠ "" ∧ commaFree k) ∧ commaFree cohortName

instance (op : AddOp) : Decidable (AddOpWF op) := by
  cases op with
  | eventUpd empIds absentIds eventId mr mp mh now =>
    unfold AddOpWF; infer_instance
  | cohortAdd cohortName empIds absentIds mn mi mj nb nd now =>
    unfold AddOpWF; infer_instance

/-- Apply a sequence of add-mode operations in order. -/
def applyAddOps (s : AppState) (ops : List AddOp) : AppState :=
  ops.foldl applyAddOp s

/-- What `update_cohort_membership` in `"remove"` mode may do to one
participant row: the key, email, `Nominated By`, `Notes`, `Waitlist`, `Tags`
and the three event list fields are untouched, and a cohort list field may
change only when its flag was requested. -/
def CohortRemoveFrame (markNom markInv markJoin : Bool)
    (p q : ParticipantRow) : Prop :=
  q.standardID = p.standardID ∧ q.email = p.email ∧
  q.nominatedBy = p.nominatedBy ∧ q.notes = p.notes ∧
  q.waitlist = p.waitlist ∧ q.tags = p.tags ∧
  q.eventsRegistered = p.eventsRegistered ∧
  q.eventsParticipated = p.eventsParticipated ∧
  q.eventsHosted = p.eventsHosted ∧
  (markNom = false → q.cohortsNominated = p.cohortsNominated) ∧
  (markInv = false → q.cohortsInvited = p.cohortsInvited) ∧
  (markJoin = false → q.cohortsJoined = p.cohortsJoined)

/-! ## Concrete states and files used below -/

/-- One employee, `E1` with email `alice@x.com`. -/
def exEmployees : List EmployeeRow :=
  [{ standardID := "E1", email := "alice@x.com" }]

/-- A state with one Demo event and no participants (Scenario A start). -/
def exEventState : AppState :=
  { employees := exEmployees, workshops := [], cohorts := [],
    events := [{ eventID := "D20240101-01", name := "Demo day",
                 category := "Demo" }],
    participants := [], couldNotFind := [], saves := [] }

/-- A state with no rows at all. -/
def exEmptyState : AppState :=
  { employees := [], workshops := [], cohorts := [], events := [],
    participants := [], couldNotFind := [], saves := [] }

/-- Scenario D of the spec: cohort `Cohort1` with `Nominated = "E1,E2"` and a
participant row for `E2`. -/
def exCohortState : AppState :=
  { employees := exEmployees, workshops := [],
    cohorts := [{ name := "Cohort1", nominated := "E1,E2" }], events := [],
    participants := [{ standardID := "E2", cohortsNominated := "Cohort1" }],
    couldNotFind := [], saves := [] }

/-- A consistent state with empty list cells: an ordinary event, an event
whose key contains a comma, and a cohort whose name contains a comma. -/
def exMixedState : AppState :=
  { employees := [], workshops := [],
    cohorts := [{ name := "X,Y" }],
    events := [{ eventID := "D1" }, { eventID := "E,1" }],
    participants := [], couldNotFind := [], saves := [] }

/-- A single empty cohort, used for the comma-key count example. -/
def exCohortOnlyState : AppState :=
  { employees := [], workshops := [], cohorts := [{ name := "C1" }],
    events := [], participants := [], couldNotFind := [], saves := [] }

/-- An employees file missing its email column entirely. -/
def exEmployeesFileNoEmail : RawTable :=
  { cols := ["Standard ID"], rows := [["E1"]] }

/-- An events file missing the canonical `Registrations` column. -/
def exEventsFileNoRegs : RawTable :=
  { cols := ["Event ID", "Name", "Date", "Category", "Workshop", "Hosted",
             "Participants"],
    rows := [["D1", "Demo", "2024-01-01", "Demo", "", "", ""]] }

/-- An employees file with the on-disk `Work Email Address` header and one
extra organizational column. -/
def exEmployeesFileWEA : RawTable :=
  { cols := ["Standard ID", "Work Email Address", "Org"],
    rows := [["E1", "alice@x.com", "Sales"]] }

/-- A transform table whose every step raises. -/
def exFailingTransform : String → Except String Unit :=
  fun _ => Except.error "boom"

/-- `t'` is `t` with some all-empty columns appended on the right (the shape
`validate_and_fix_csv_schema` and the ensure-columns loop produce). -/
def ExtendsBlank (t t' : RawTable) : Prop :=
  ∃ ds : List String, t'.cols = t.cols ++ ds ∧
    t'.rows = t.rows.map (fun r => r ++ List.replicate ds.length "")

/-- Every row of the table holds the empty string under column `c`. -/
def ColAllEmpty (t : RawTable) (c : String) : Prop :=
  ∀ row ∈ t.rows, cellOf t.cols row c = ""

/-- The size of a list-valued cell as the spec measures it: the number of
distinct nonempty entries. -/
def cellCard (cell : String) : Nat :=
  ((cellToList cell).filter (fun x => x ≠ "")).dedup.length

/-- A state holding both an event row and a cohort row (so that both update
operations have a target), with one existing participant. -/
def exEventCohortState : AppState :=
  { employees := exEmployees, workshops := [],
    cohorts := [{ name := "Cohort1", nominated := "E2" }],
    events := [{ eventID := "D20240101-01", name := "Demo day",
                 category := "Demo" }],
    participants := [{ standardID := "E2", cohortsNominated := "Cohort1" }],
    couldNotFind := [], saves := [] }

/-- The entry set of a list cell of an optional pre-existing participant row
(the empty set when the row does not exist). -/
def basePaSet (f : ParticipantRow → String) :
    Option ParticipantRow → List String
  | some p => pySetOfCell (f p)
  | none => []

/-- A cell of an optional pre-existing participant row (the empty string when
the row does not exist, matching the defaults of a freshly created row). -/
def basePaCell (f : ParticipantRow → String) : Option ParticipantRow → String
  | some p => f p
  | none => ""

/-- Membership in an event list cell after the participant loop of
`update_employee_event_status` touched the row: the old nonempty entries,
plus the event key when the corresponding flag was set. -/
def evPostMem (mark : Option Bool) (eventId : String) (base : List String)
    (x : String) : Prop :=
  (x ∈ base ∧ x ≠ "") ∨ (mark = some true ∧ x = eventId)

/-- How a participant row keyed `k` looks after the participant loop of
`update_employee_event_status` touched it at least once, relative to the row
`o` (if any) that held key `k` before the loop: the key is unchanged, each
event list cell holds exactly the entries `evPostMem` describes, and the
cohort list cells are carried over from `o` (empty for a fresh row). -/
def EvRowGood (k eventId : String) (mr mp mh : Option Bool)
    (o : Option ParticipantRow) (q : ParticipantRow) : Prop :=
  q.standardID = k ∧
  (∀ x, x ∈ pySetOfCell q.eventsRegistered ↔
    evPostMem mr eventId (basePaSet (fun p => p.eventsRegistered) o) x) ∧
  (∀ x, x ∈ pySetOfCell q.eventsParticipated ↔
    evPostMem mp eventId (basePaSet (fun p => p.eventsParticipated) o) x) ∧
  (∀ x, x ∈ pySetOfCell q.eventsHosted ↔
    evPostMem mh eventId (basePaSet (fun p => p.eventsHosted) o) x) ∧
  q.cohortsNominated = basePaCell (fun p => p.cohortsNominated) o ∧
  q.cohortsInvited = basePaCell (fun p => p.cohortsInvited) o ∧
  q.cohortsJoined = basePaCell (fun p => p.cohortsJoined) o

/-- Membership in a cohort list cell after the participant loop of
`update_cohort_membership` in `"add"` mode touched the row. -/
def coPostMem (mark : Bool) (cohortName : String) (base : List String)
    (x : String) : Prop :=
  x ∈ base ∨ (mark = true ∧ x = cohortName)

/-- How a participant row keyed `k` looks after the participant loop of
`update_cohort_membership` in `"add"` mode touched it at least once, relative
to the row `o` (if any) that held key `k` before the loop: each cohort list
cell holds exactly the entries `coPostMem` describes and stays free of empty
entries, and the event list cells are carried over from `o`. -/
def CoRowGood (k cohortName : String) (mn mi mj : Bool)
    (o : Option ParticipantRow) (q : ParticipantRow) : Prop :=
  q.standardID = k ∧
  (∀ x, x ∈ pySetOfCell q.cohortsNominated ↔
    coPostMem mn cohortName (basePaSet (fun p => p.cohortsNominated) o) x) ∧
  (∀ x, x ∈ pySetOfCell q.cohortsInvited ↔
    coPostMem mi cohortName (basePaSet (fun p => p.cohortsInvited) o) x) ∧
  (∀ x, x ∈ pySetOfCell q.cohortsJoined ↔
    coPostMem mj cohortName (basePaSet (fun p => p.cohortsJoined) o) x) ∧
  CellWF q.cohortsNominated ∧ CellWF q.cohortsInvited ∧
  CellWF q.cohortsJoined ∧
  q.eventsRegistered = basePaCell (fun p => p.eventsRegistered) o ∧
  q.eventsParticipated = basePaCell (fun p => p.eventsParticipated) o ∧
  q.eventsHosted = basePaCell (fun p => p.eventsHosted) o

/-! ## Round-trip lemmas for the cell encoding -/

theorem pySplitCharAux_sepFree (sep : Char) (a : List Char) (ha : sep ∉ a) :
    ∀ acc, pySplitCharAux sep a acc = [String.mk (acc.reverse ++ a)] := by
  induction a with
  | nil => intro acc; simp [pySplitCharAux]
  | cons c cs ih =>
    intro acc
    have hc : c ≠ sep := fun h => ha (h ▸ List.mem_cons_self c cs)
    have hcs : sep ∉ cs := fun h => ha (List.mem_cons_of_mem _ h)
    simp [pySplitCharAux, hc, ih hcs]

theorem pySplitCharAux_append (sep : Char) (a : List Char) (ha : sep ∉ a)
    (rest : List Char) :
    ∀ acc, pySplitCharAux sep (a ++ sep :: rest) acc =
      String.mk (acc.reverse ++ a) :: pySplitCharAux sep rest [] := by
  induction a with
  | nil => intro acc; simp [pySplitCharAux]
  | cons c cs ih =>
    intro acc
    have hc : c ≠ sep := fun h => ha (h ▸ List.mem_cons_self c cs)
    have hcs : sep ∉ cs := fun h => ha (List.mem_cons_of_mem _ h)
    simp [pySplitCharAux, hc, ih hcs]

theorem data_append (a b : String) : (a ++ b).data = a.data ++ b.data := rfl

theorem mk_data (s : String) : String.mk s.data = s := rfl

/-- Splitting the join of a nonempty list of separator-free strings recovers
the list. -/
theorem pySplitChar_pyJoinSep (sep : Char) (l : List String) (hl : l ≠ [])
    (hfree : ∀ x ∈ l, sep ∉ x.data) :
    pySplitChar sep (pyJoinSep (String.mk [sep]) l) = l := by
  induction l with
  | nil => exact absurd rfl hl
  | cons x xs ih =>
    match xs, ih with
    | [], _ =>
      have hx : sep ∉ x.data := hfree x (List.mem_cons_self x [])
      simp [pyJoinSep, pySplitChar, pySplitCharAux_sepFree sep x.data hx]
    | y :: ys, ih =>
      have hx : sep ∉ x.data := hfree x (List.mem_cons_self _ _)
      have hrest : ∀ z ∈ y :: ys, sep ∉ z.data :=
        fun z hz => hfree z (List.mem_cons_of_mem _ hz)
      have hjoin := ih (by simp) hrest
      show pySplitChar sep (x ++ String.mk [sep] ++ pyJoinSep (String.mk [sep]) (y :: ys)) = _
      unfold pySplitChar
      rw [data_append, data_append, List.append_assoc]
      show pySplitCharAux sep (x.data ++ sep :: (pyJoinSep (String.mk [sep]) (y :: ys)).data) [] = _
      rw [pySplitCharAux_append sep x.data hx]
      unfold pySplitChar at hjoin
      simp [hjoin]

theorem pyJoinSep_ne_empty (sep : String) (x : String) (xs : List String)
    (hx : x ≠ "") : pyJoinSep sep (x :: xs) ≠ "" := by
  have hxd : x.data ≠ [] := fun h => hx (by cases x; simp_all)
  match xs with
  | [] => exact hx
  | y :: ys =>
    show x ++ sep ++ pyJoinSep sep (y :: ys) ≠ ""
    intro h
    have : (x ++ sep ++ pyJoinSep sep (y :: ys)).data = [] := by rw [h]
    rw [data_append, data_append] at this
    simp [hxd] at this

/-- The comma string used by the code is the one-character string on `','`. -/
theorem comma_eq : ("," : String) = String.mk [','] := rfl

/-- Reading back a cell written from a nonempty sorted list of nonempty
comma-free entries recovers the entries. -/
theorem cellToList_pyJoinSep (l : List String) (hne : l ≠ [])
    (hfree : ∀ x ∈ l, commaFree x) (hnempty : ∀ x ∈ l, x ≠ "") :
    cellToList (pyJoinSep "," l) = l := by
  match l, hne with
  | x :: xs, _ =>
    have h1 : pyJoinSep "," (x :: xs) ≠ "" :=
      pyJoinSep_ne_empty "," x xs (hnempty x (List.mem_cons_self _ _))
    unfold cellToList
    rw [if_neg h1, comma_eq]
    exact pySplitChar_pyJoinSep ',' (x :: xs) (by simp) hfree

/-! ## The code-point order on strings -/

theorem charsLe_cons (a b : Char) (as bs : List Char) :
    charsLe (a :: as) (b :: bs) =
      if a.val < b.val then true
      else if b.val < a.val then false
      else charsLe as bs := rfl

theorem charsLe_cons_of_lt {a b : Char} (as bs : List Char)
    (h : a.val.toNat < b.val.toNat) : charsLe (a :: as) (b :: bs) = true := by
  have h' : a.val < b.val := h
  rw [charsLe_cons, if_pos h']

theorem charsLe_cons_of_eq {a b : Char} {as bs : List Char}
    (h : a.val.toNat = b.val.toNat) (hr : charsLe as bs = true) :
    charsLe (a :: as) (b :: bs) = true := by
  have h1 : ¬ a.val < b.val := fun hc => by
    have : a.val.toNat < b.val.toNat := hc; omega
  have h2 : ¬ b.val < a.val := fun hc => by
    have : b.val.toNat < a.val.toNat := hc; omega
  rw [charsLe_cons, if_neg h1, if_neg h2]; exact hr

theorem charsLe_cons_elim {a b : Char} {as bs : List Char}
    (h : charsLe (a :: as) (b :: bs) = true) :
    a.val.toNat < b.val.toNat ∨ (a.val.toNat = b.val.toNat ∧ charsLe as bs = true) := by
  rw [charsLe_cons] at h
  by_cases h1 : a.val < b.val
  · exact Or.inl h1
  · rw [if_neg h1] at h
    by_cases h2 : b.val < a.val
    · rw [if_pos h2] at h; exact absurd h Bool.false_ne_true
    · rw [if_neg h2] at h
      have h1n : ¬ a.val.toNat < b.val.toNat := h1
      have h2n : ¬ b.val.toNat < a.val.toNat := h2
      exact Or.inr ⟨by omega, h⟩

theorem charsLe_total : ∀ a b : List Char, charsLe a b = true ∨ charsLe b a = true
  | [], _ => Or.inl rfl
  | _ :: _, [] => Or.inr rfl
  | a :: as, b :: bs => by
    rcases lt_trichotomy a.val.toNat b.val.toNat with h | h | h
    · exact Or.inl (charsLe_cons_of_lt as bs h)
    · rcases charsLe_total as bs with ih | ih
      · exact Or.inl (charsLe_cons_of_eq h ih)
      · exact Or.inr (charsLe_cons_of_eq h.symm ih)
    · exact Or.inr (charsLe_cons_of_lt bs as h)

theorem charsLe_trans : ∀ a b c : List Char,
    charsLe a b = true → charsLe b c = true → charsLe a c = true
  | [], _, _, _, _ => rfl
  | _ :: _, [], _, h, _ => by simp [charsLe] at h
  | _ :: _, _ :: _, [], _, h => by simp [charsLe] at h
  | a :: as, b :: bs, c :: cs, h1, h2 => by
    rcases charsLe_cons_elim h1 with hab | ⟨hab, hr1⟩ <;>
      rcases charsLe_cons_elim h2 with hbc | ⟨hbc, hr2⟩
    · exact charsLe_cons_of_lt as cs (by omega)
    · exact charsLe_cons_of_lt as cs (by omega)
    · exact charsLe_cons_of_lt as cs (by omega)
    · exact charsLe_cons_of_eq (by omega) (charsLe_trans as bs cs hr1 hr2)

theorem charsLe_antisymm : ∀ a b : List Char,
    charsLe a b = true → charsLe b a = true → a = b
  | [], [], _, _ => rfl
  | [], _ :: _, _, h => by simp [charsLe] at h
  | _ :: _, [], h, _ => by simp [charsLe] at h
  | a :: as, b :: bs, h1, h2 => by
    rcases charsLe_cons_elim h1 with hab | ⟨hab, hr1⟩ <;>
      rcases charsLe_cons_elim h2 with hba | ⟨hba, hr2⟩
    · omega
    · omega
    · omega
    · have hv : a.val = b.val := UInt32.ext (by omega)
      rw [Char.eq_of_val_eq hv, charsLe_antisymm as bs hr1 hr2]

/-- Totality of the code-point order. -/
theorem sLe_isTotal : IsTotal String SLe := ⟨fun a b => charsLe_total a.data b.data⟩

/-- Transitivity of the code-point order. -/
theorem sLe_isTrans : IsTrans String SLe :=
  ⟨fun a b c h1 h2 => charsLe_trans a.data b.data c.data h1 h2⟩

/-- Antisymmetry of the code-point order. -/
theorem sLe_isAntisymm : IsAntisymm String SLe :=
  ⟨fun a b h1 h2 => by
    have := charsLe_antisymm a.data b.data h1 h2
    cases a; cases b; simp_all⟩

theorem pySortedList_def (l : List String) :
    pySortedList l = List.insertionSort SLe l := rfl

theorem mem_pySortedList {x : String} {l : List String} :
    x ∈ pySortedList l ↔ x ∈ l := by
  rw [pySortedList_def]; exact List.mem_insertionSort SLe

theorem pySortedList_eq_of_perm {l₁ l₂ : List String} (h : l₁.Perm l₂) :
    pySortedList l₁ = pySortedList l₂ := by
  haveI := sLe_isTotal
  haveI := sLe_isTrans
  haveI := sLe_isAntisymm
  rw [pySortedList_def, pySortedList_def]
  exact List.eq_of_perm_of_sorted
    ((List.perm_insertionSort SLe l₁).trans
      (h.trans (List.perm_insertionSort SLe l₂).symm))
    (List.sorted_insertionSort SLe l₁) (List.sorted_insertionSort SLe l₂)

/-- Two duplicate-free lists with the same members sort to the same list. -/
theorem pySortedList_congr {l₁ l₂ : List String} (h₁ : l₁.Nodup)
    (h₂ : l₂.Nodup) (hm : ∀ x, x ∈ l₁ ↔ x ∈ l₂) :
    pySortedList l₁ = pySortedList l₂ :=
  pySortedList_eq_of_perm
    (List.perm_of_nodup_nodup_toFinset_eq h₁ h₂
      (Finset.ext fun a => by simpa using hm a))

theorem nodup_pySortedList {l : List String} (h : l.Nodup) :
    (pySortedList l).Nodup := by
  rw [pySortedList_def]
  exact (List.perm_insertionSort SLe l).nodup_iff.mpr h

/-! ## Facts about the set model and the cell encoding -/

theorem mem_pyAdd {s : List String} {x y : String} :
    y ∈ pyAdd s x ↔ y ∈ s ∨ y = x := by
  unfold pyAdd
  by_cases h : x ∈ s
  · rw [if_pos h]
    constructor
    · exact Or.inl
    · rintro (hy | rfl) <;> [exact hy; exact h]
  · rw [if_neg h]; simp

theorem nodup_pyAdd {s : List String} (x : String) (h : s.Nodup) :
    (pyAdd s x).Nodup := by
  unfold pyAdd
  by_cases hx : x ∈ s
  · rwa [if_pos hx]
  · rw [if_neg hx]
    simpa [List.nodup_append] using ⟨h, hx⟩

theorem mem_pyUnion {s l : List String} {y : String} :
    y ∈ pyUnion s l ↔ y ∈ s ∨ y ∈ l := by
  induction l generalizing s with
  | nil => simp [pyUnion]
  | cons a as ih =>
    show y ∈ pyUnion (pyAdd s a) as ↔ _
    rw [ih, mem_pyAdd]
    constructor
    · rintro ((h | rfl) | h) <;> simp_all
    · rintro (h | h) <;> simp_all
      rcases h with h | h <;> simp_all

theorem nodup_pyUnion {s l : List String} (h : s.Nodup) :
    (pyUnion s l).Nodup := by
  induction l generalizing s with
  | nil => exact h
  | cons a as ih => exact ih (nodup_pyAdd a h)

theorem mem_pyDiff {s t : List String} {y : String} :
    y ∈ pyDiff s t ↔ y ∈ s ∧ y ∉ t := by
  unfold pyDiff; simp

theorem nodup_pyDiff {s t : List String} (h : s.Nodup) : (pyDiff s t).Nodup :=
  h.filter _

theorem mem_pySetOfCell {s : String} {y : String} :
    y ∈ pySetOfCell s ↔ y ∈ cellToList s := by
  unfold pySetOfCell; exact List.mem_dedup

theorem nodup_pySetOfCell (s : String) : (pySetOfCell s).Nodup :=
  List.nodup_dedup _

theorem sepFree_of_mem_pySplitCharAux (sep : Char) :
    ∀ (cs acc : List Char), sep ∉ acc →
      ∀ x ∈ pySplitCharAux sep cs acc, sep ∉ x.data := by
  intro cs
  induction cs with
  | nil =>
    intro acc hacc x hx
    simp only [pySplitCharAux, List.mem_singleton] at hx
    subst hx
    simpa using fun h => hacc (List.mem_reverse.mp h)
  | cons c cs ih =>
    intro acc hacc x hx
    by_cases hc : c = sep
    · rw [show pySplitCharAux sep (c :: cs) acc =
          String.mk acc.reverse :: pySplitCharAux sep cs [] by
            simp [pySplitCharAux, hc]] at hx
      rcases List.mem_cons.mp hx with rfl | hx
      · simpa using fun h => hacc (List.mem_reverse.mp h)
      · exact ih [] (by simp) x hx
    · rw [show pySplitCharAux sep (c :: cs) acc =
          pySplitCharAux sep cs (c :: acc) by simp [pySplitCharAux, hc]] at hx
      refine ih (c :: acc) ?_ x hx
      intro h
      rcases List.mem_cons.mp h with h | h
      · exact hc h.symm
      · exact hacc h

theorem commaFree_of_mem_cellToList {s x : String} (hx : x ∈ cellToList s) :
    commaFree x := by
  unfold cellToList at hx
  by_cases h : s = ""
  · rw [if_pos h] at hx; cases hx
  · rw [if_neg h] at hx
    exact sepFree_of_mem_pySplitCharAux ',' s.data [] (by simp) x hx

theorem commaFree_of_mem_pySetOfCell {s x : String} (hx : x ∈ pySetOfCell s) :
    commaFree x :=
  commaFree_of_mem_cellToList (mem_pySetOfCell.mp hx)

/-- Reading back a written cell gives the sorted nonempty entries of the
set, provided all entries are comma-free. -/
theorem cellToList_cellOfSet (s : List String)
    (hfree : ∀ x ∈ s, commaFree x) :
    cellToList (cellOfSet s) = pySortedList (s.filter (fun x => x ≠ "")) := by
  unfold cellOfSet
  rcases hl : pySortedList (s.filter (fun x => x ≠ "")) with _ | ⟨x, xs⟩
  · simp [cellToList, pyJoinSep]
  · rw [← hl]
    refine cellToList_pyJoinSep _ (by rw [hl]; simp) ?_ ?_
    · intro x hx
      have := mem_pySortedList.mp hx
      exact hfree x (List.mem_of_mem_filter this)
    · intro x hx
      have := mem_pySortedList.mp hx
      simpa using (List.mem_filter.mp this).2

theorem mem_cellToList_cellOfSet {s : List String} {y : String}
    (hfree : ∀ x ∈ s, commaFree x) :
    y ∈ cellToList (cellOfSet s) ↔ y ∈ s ∧ y ≠ "" := by
  rw [cellToList_cellOfSet s hfree, mem_pySortedList]
  simp [List.mem_filter]

theorem mem_pySetOfCell_cellOfSet {s : List String} {y : String}
    (hfree : ∀ x ∈ s, commaFree x) :
    y ∈ pySetOfCell (cellOfSet s) ↔ y ∈ s ∧ y ≠ "" := by
  rw [mem_pySetOfCell]; exact mem_cellToList_cellOfSet hfree

/-- Writing a cell depends only on the membership of the (duplicate-free)
set. -/
theorem cellOfSet_congr {s t : List String} (hs : s.Nodup) (ht : t.Nodup)
    (hm : ∀ x, x ∈ s ↔ x ∈ t) : cellOfSet s = cellOfSet t := by
  unfold cellOfSet
  rw [pySortedList_congr (hs.filter _) (ht.filter _)]
  intro x
  simp only [List.mem_filter]
  exact and_congr_left fun _ => hm x

/-! ## Lemmas about `updateFirst` and `find?` -/

theorem length_updateFirst (p : α → Bool) (f : α → α) :
    ∀ l : List α, (updateFirst p f l).length = l.length
  | [] => rfl
  | x :: xs => by
    unfold updateFirst
    by_cases h : p x
    · rw [if_pos h]; rfl
    · rw [if_neg h]
      simp [length_updateFirst p f xs]

theorem updateFirst_eq_of_find?_none {p : α → Bool} {f : α → α} :
    ∀ {l : List α}, l.find? p = none → updateFirst p f l = l
  | [], _ => rfl
  | x :: xs, h => by
    rw [List.find?_cons] at h
    rcases hx : p x with _ | _
    · rw [hx] at h
      unfold updateFirst
      rw [if_neg (by simp [hx]), updateFirst_eq_of_find?_none h]
    · rw [hx] at h; cases h

theorem find?_updateFirst_self {p : α → Bool} {f : α → α} {a : α} :
    ∀ {l : List α}, l.find? p = some a → p (f a) = true →
      (updateFirst p f l).find? p = some (f a)
  | [], h, _ => by cases h
  | x :: xs, h, hf => by
    rw [List.find?_cons] at h
    rcases hx : p x with _ | _
    · rw [hx] at h
      unfold updateFirst
      rw [if_neg (by simp [hx]), List.find?_cons]
      rw [hx]
      exact find?_updateFirst_self h hf
    · rw [hx] at h
      injection h with h
      subst h
      unfold updateFirst
      rw [if_pos hx, List.find?_cons, hf]

theorem find?_updateFirst_ne {p q : α → Bool} {f : α → α}
    (hq : ∀ x, q (f x) = q x) (hdisj : ∀ x, p x = true → q x = false) :
    ∀ l : List α, (updateFirst p f l).find? q = l.find? q
  | [] => rfl
  | x :: xs => by
    unfold updateFirst
    by_cases hx : p x = true
    · rw [if_pos hx, List.find?_cons, List.find?_cons, hq x, hdisj x hx]
    · rw [if_neg hx, List.find?_cons, List.find?_cons]
      rcases hqx : q x with _ | _
      · exact find?_updateFirst_ne hq hdisj xs
      · rfl

theorem updateFirst_append_of_none {p : α → Bool} {f : α → α}
    {l : List α} (h : l.find? p = none) (l' : List α) :
    updateFirst p f (l ++ l') = l ++ updateFirst p f l' := by
  induction l with
  | nil => rfl
  | cons x xs ih =>
    rw [List.find?_cons] at h
    rcases hx : p x with _ | _
    · rw [hx] at h
      have hstep : updateFirst p f ((x :: xs) ++ l') =
          x :: updateFirst p f (xs ++ l') := by
        show (if p x then f x :: (xs ++ l')
          else x :: updateFirst p f (xs ++ l')) = _
        rw [if_neg (by simp [hx])]
      rw [hstep, ih h, List.cons_append]
    · rw [hx] at h; cases h

theorem updateFirst_eq_self {p : α → Bool} {f : α → α} :
    ∀ {l : List α}, (∀ a, l.find? p = some a → f a = a) →
      updateFirst p f l = l
  | [], _ => rfl
  | x :: xs, h => by
    unfold updateFirst
    by_cases hx : p x = true
    · rw [if_pos hx, h x (by rw [List.find?_cons, hx])]
    · rw [if_neg hx]
      have hx' : p x = false := by simpa using hx
      rw [updateFirst_eq_self
        (fun a ha => h a (by rw [List.find?_cons, hx']; exact ha))]

theorem mem_updateFirst {p : α → Bool} {f : α → α} {y : α} :
    ∀ {l : List α}, y ∈ updateFirst p f l →
      y ∈ l ∨ ∃ a ∈ l, p a = true ∧ y = f a
  | [], h => by cases h
  | x :: xs, h => by
    unfold updateFirst at h
    by_cases hx : p x = true
    · rw [if_pos hx] at h
      rcases List.mem_cons.mp h with rfl | h
      · exact Or.inr ⟨x, List.mem_cons_self _ _, hx, rfl⟩
      · exact Or.inl (List.mem_cons_of_mem _ h)
    · rw [if_neg hx] at h
      rcases List.mem_cons.mp h with rfl | h
      · exact Or.inl (List.mem_cons_self _ _)
      · rcases mem_updateFirst h with h | ⟨a, ha, hpa, hy⟩
        · exact Or.inl (List.mem_cons_of_mem _ h)
        · exact Or.inr ⟨a, List.mem_cons_of_mem _ ha, hpa, hy⟩

theorem forall₂_updateFirst {R : α → α → Prop} {p : α → Bool} {f : α → α}
    (hrefl : ∀ a, R a a) (hf : ∀ a, R a (f a)) :
    ∀ l : List α, List.Forall₂ R l (updateFirst p f l)
  | [] => List.Forall₂.nil
  | x :: xs => by
    unfold updateFirst
    by_cases hx : p x = true
    · rw [if_pos hx]
      exact List.Forall₂.cons (hf x) (List.forall₂_same.mpr fun a _ => hrefl a)
    · rw [if_neg hx]
      exact List.Forall₂.cons (hrefl x) (forall₂_updateFirst hrefl hf xs)

theorem forall₂_trans_of {R : α → α → Prop}
    (htrans : ∀ a b c, R a b → R b c → R a c) :
    ∀ {l₁ l₂ l₃ : List α}, List.Forall₂ R l₁ l₂ → List.Forall₂ R l₂ l₃ →
      List.Forall₂ R l₁ l₃
  | [], [], [], _, _ => List.Forall₂.nil
  | _ :: _, _ :: _, _ :: _, List.Forall₂.cons h1 t1, List.Forall₂.cons h2 t2 =>
    List.Forall₂.cons (htrans _ _ _ h1 h2) (forall₂_trans_of htrans t1 t2)


/-! ## C3: not-found aborts with zero effect -/

/-- C3: when the given event key has no row in the events table and the given
cohort name has no row in the cohorts table, `update_employee_event_status`
and `update_cohort_membership` both return `(0, 0, 0)` and leave the state —
every table, the audit log and the record of writes — exactly as it was: the
operations abort before any write. -/
theorem c3_notfound_zero_effect (s : AppState)
    (empIds absentIds : List String) (eventId cohortName : String)
    (markReg markPart markHost : Option Bool)
    (markNom markInv markJoin : Bool)
    (nominatedByDetails notesDetails actionType now : String)
    (hev : findEvent s eventId = none) (hco : findCohort s cohortName = none) :
    updateEmployeeEventStatus s empIds absentIds eventId markReg markPart
      markHost now = (s, 0, 0, 0) ∧
    updateCohortMembership s cohortName empIds absentIds markNom markInv
      markJoin nominatedByDetails notesDetails actionType now =
      (s, 0, 0, 0) := by
  constructor
  · unfold updateEmployeeEventStatus
    by_cases h : eventId = "" ∨ empIds = []
    · rw [if_pos h]
    · rw [if_neg h, hev]
  · unfold updateCohortMembership
    by_cases h : cohortName = "" ∨ empIds = [] ∨
        (markNom = false ∧ markInv = false ∧ markJoin = false)
    · rw [if_pos h]
    · rw [if_neg h, hco]

/-- Witness for C3 at a concrete state with no event and no cohort rows. -/
theorem c3_witness :
    updateEmployeeEventStatus exEmptyState ["E1"] [] "D20240101-01"
      (some true) none none "2024-01-01 00:00:00" =
      (exEmptyState, 0, 0, 0) ∧
    updateCohortMembership exEmptyState "Cohort1" ["E1"] [] true false false
      "" "" "add" "2024-01-01 00:00:00" = (exEmptyState, 0, 0, 0) :=
  c3_notfound_zero_effect exEmptyState ["E1"] [] "D20240101-01" "Cohort1"
    (some true) none none true false false "" "" "add" "2024-01-01 00:00:00"
    (by decide) (by decide)

/-! ## C8: a failing migration step never advances the version marker -/

/-- C8: if the transform registered for the current-to-target transition
raises, `run_migrations` propagates the exception and never reaches
`update_schema_version`: the persisted marker still holds the old version,
and running the migration again (as the next startup does) selects the very
same step with the same outcome. -/
theorem c8_migration_failure_marker_not_advanced
    (transform : String → Except String Unit) (fromV toV e : String)
    (marker : VersionMarker)
    (hkey : (fromV ++ "->" ++ toV) ∈ migrationKeys)
    (herr : transform (fromV ++ "->" ++ toV) = Except.error e) :
    (runMigrations transform fromV toV marker).1 = marker ∧
    (runMigrations transform fromV toV marker).2 = Except.error e ∧
    runMigrations transform fromV toV
        ((runMigrations transform fromV toV marker).1) =
      runMigrations transform fromV toV marker := by
  have hrun : runMigrations transform fromV toV marker =
      (marker, Except.error e) := by
    simp only [runMigrations]
    rw [if_pos hkey, herr]
  refine ⟨by rw [hrun], by rw [hrun], by simp [hrun]⟩

/-- Witness for C8: a transform table that raises on the registered
`1.2.2->1.2.3` step. -/
theorem c8_witness :
    (runMigrations exFailingTransform "1.2.2" "1.2.3"
      { schemaVersion := "1.2.2" }).1 = { schemaVersion := "1.2.2" } ∧
    (runMigrations exFailingTransform "1.2.2" "1.2.3"
      { schemaVersion := "1.2.2" }).2 = Except.error "boom" ∧
    runMigrations exFailingTransform "1.2.2" "1.2.3"
        ((runMigrations exFailingTransform "1.2.2" "1.2.3"
          { schemaVersion := "1.2.2" }).1) =
      runMigrations exFailingTransform "1.2.2" "1.2.3"
        { schemaVersion := "1.2.2" } :=
  c8_migration_failure_marker_not_advanced exFailingTransform
    "1.2.2" "1.2.3" "boom" { schemaVersion := "1.2.2" } (by decide) rfl

/-! ## C6: the identifier resolver -/

theorem parseStep_fst_mono {employees : List EmployeeRow}
    {acc : List String × List String} {x : String} (h : x ∈ acc.1)
    (ident : String) : x ∈ (parseStep employees acc ident).1 := by
  unfold parseStep
  by_cases hat : pyHasChar '@' ident = true
  · rw [if_pos hat]
    cases hl : emailLookup employees ident with
    | some sid => exact List.mem_append_left _ h
    | none => exact List.mem_append_left _ h
  · rw [if_neg hat]
    exact List.mem_append_left _ h

theorem parseStep_snd_mono {employees : List EmployeeRow}
    {acc : List String × List String} {x : String} (h : x ∈ acc.2)
    (ident : String) : x ∈ (parseStep employees acc ident).2 := by
  unfold parseStep
  by_cases hat : pyHasChar '@' ident = true
  · rw [if_pos hat]
    cases hl : emailLookup employees ident with
    | some sid => exact h
    | none => exact List.mem_append_left _ h
  · rw [if_neg hat]
    by_cases hid : idSetContains employees ident = true
    · simpa [hid] using h
    · have hid' : idSetContains employees ident = false := by simpa using hid
      rw [hid']
      exact List.mem_append_left _ h

theorem parse_foldl_fst_mono (employees : List EmployeeRow) {x : String} :
    ∀ (toks : List String) (acc : List String × List String), x ∈ acc.1 →
      x ∈ (toks.foldl (parseStep employees) acc).1
  | [], _, h => h
  | t :: ts, acc, h =>
    parse_foldl_fst_mono employees ts _ (parseStep_fst_mono h t)

theorem parse_foldl_snd_mono (employees : List EmployeeRow) {x : String} :
    ∀ (toks : List String) (acc : List String × List String), x ∈ acc.2 →
      x ∈ (toks.foldl (parseStep employees) acc).2
  | [], _, h => h
  | t :: ts, acc, h =>
    parse_foldl_snd_mono employees ts _ (parseStep_snd_mono h t)

theorem parse_token_no_at {employees : List EmployeeRow} {tok : String}
    (hat : pyHasChar '@' tok = false) :
    ∀ (toks : List String) (acc : List String × List String), tok ∈ toks →
      tok ∈ (toks.foldl (parseStep employees) acc).1 ∧
      (idSetContains employees tok = false →
        tok ∈ (toks.foldl (parseStep employees) acc).2)
  | [], _, h => absurd h (List.not_mem_nil tok)
  | t :: ts, acc, h => by
    rcases List.mem_cons.mp h with rfl | h
    · constructor
      · refine parse_foldl_fst_mono employees ts _ ?_
        unfold parseStep
        rw [if_neg (by simp [hat])]
        exact List.mem_append_right _ (List.mem_singleton.mpr rfl)
      · intro hid
        refine parse_foldl_snd_mono employees ts _ ?_
        unfold parseStep
        rw [if_neg (by simp [hat]), hid]
        exact List.mem_append_right _ (List.mem_singleton.mpr rfl)
    · exact parse_token_no_at hat ts _ h

/-- C6: on the Scenario C input and a one-row employee table, the resolver
returns processing list `["E1", "E2", "unknown@nowhere.com"]` and unresolved
list `["E2", "unknown@nowhere.com"]`; in general, every token without `@` is
emitted in the processing list even when absent from the employee key set,
and every such absent token is also recorded in the unresolved list. -/
theorem c6_resolver (rawText : String) (employees : List EmployeeRow)
    (tok : String) (htok : tok ∈ resolverTokens rawText)
    (hat : pyHasChar '@' tok = false) :
    parseEmployeeIdentifiers "alice@x.com\nE2\nunknown@nowhere.com"
        [{ standardID := "E1", email := "alice@x.com" }] =
      (["E1", "E2", "unknown@nowhere.com"],
       ["E2", "unknown@nowhere.com"]) ∧
    tok ∈ (parseEmployeeIdentifiers rawText employees).1 ∧
    (idSetContains employees tok = false →
      tok ∈ (parseEmployeeIdentifiers rawText employees).2) := by
  refine ⟨by decide, ?_, ?_⟩
  · exact (parse_token_no_at hat (resolverTokens rawText) ([], []) htok).1
  · exact (parse_token_no_at hat (resolverTokens rawText) ([], []) htok).2

/-- Witness for C6 at the token `E9` against an empty employee table. -/
theorem c6_witness :
    parseEmployeeIdentifiers "alice@x.com\nE2\nunknown@nowhere.com"
        [{ standardID := "E1", email := "alice@x.com" }] =
      (["E1", "E2", "unknown@nowhere.com"],
       ["E2", "unknown@nowhere.com"]) ∧
    "E9" ∈ (parseEmployeeIdentifiers "E9" []).1 ∧
    (idSetContains [] "E9" = false →
      "E9" ∈ (parseEmployeeIdentifiers "E9" []).2) :=
  c6_resolver "E9" [] "E9" (by decide) (by decide)

/-! ## C5: `"remove"` mode and the participant frame -/

theorem cohortRemoveFrame_refl (markNom markInv markJoin : Bool)
    (p : ParticipantRow) : CohortRemoveFrame markNom markInv markJoin p p :=
  ⟨rfl, rfl, rfl, rfl, rfl, rfl, rfl, rfl, rfl,
    fun _ => rfl, fun _ => rfl, fun _ => rfl⟩

theorem cohortRemoveFrame_trans {markNom markInv markJoin : Bool}
    {p q r : ParticipantRow}
    (h1 : CohortRemoveFrame markNom markInv markJoin p q)
    (h2 : CohortRemoveFrame markNom markInv markJoin q r) :
    CohortRemoveFrame markNom markInv markJoin p r := by
  obtain ⟨a1, a2, a3, a4, a5, a6, a7, a8, a9, a10, a11, a12⟩ := h1
  obtain ⟨b1, b2, b3, b4, b5, b6, b7, b8, b9, b10, b11, b12⟩ := h2
  exact ⟨b1.trans a1, b2.trans a2, b3.trans a3, b4.trans a4, b5.trans a5,
    b6.trans a6, b7.trans a7, b8.trans a8, b9.trans a9,
    fun h => (b10 h).trans (a10 h), fun h => (b11 h).trans (a11 h),
    fun h => (b12 h).trans (a12 h)⟩

/-- In `"remove"` mode, the per-row update of `update_cohort_membership`
stays inside the remove frame: it can only rewrite the flagged cohort list
fields and the `Last Updated` stamp. -/
theorem participantCohortApply_remove_frame (cohortName : String)
    (markNom markInv markJoin : Bool) (nbd nd now : String)
    (p : ParticipantRow) :
    CohortRemoveFrame markNom markInv markJoin p
      (participantCohortApply cohortName markNom markInv markJoin "remove"
        nbd nd now p).1 := by
  have hadd : ("remove" : String) ≠ "add" := by decide
  simp only [participantCohortApply]
  refine ⟨rfl, rfl, ?_, ?_, rfl, rfl, rfl, rfl, rfl, ?_, ?_, ?_⟩
  · rw [if_neg (show ¬ ((markNom || markInv || markJoin) = true ∧
      nbd ≠ "" ∧ ("remove" : String) = "add") from fun hc => hadd hc.2.2)]
  · rw [if_neg (show ¬ ((markNom || markInv || markJoin) = true ∧
      nd ≠ "" ∧ ("remove" : String) = "add") from fun hc => hadd hc.2.2)]
  · intro h; rw [h]; simp
  · intro h; rw [h]; simp
  · intro h; rw [h]; simp

/-- The whole participant loop of `update_cohort_membership` in `"remove"`
mode stays inside the remove frame and never adds a row. -/
theorem cohortRemove_fold_frame (employees : List EmployeeRow)
    (absentIds : List String) (cohortName : String)
    (markNom markInv markJoin : Bool) (nbd nd now : String) :
    ∀ (ks : List String)
      (acc : List ParticipantRow × List (String × String) × Bool),
      List.Forall₂ (CohortRemoveFrame markNom markInv markJoin) acc.1
        ((ks.foldl (cohortParticipantStep employees absentIds cohortName
          markNom markInv markJoin "remove" nbd nd now) acc).1)
  | [], acc =>
    List.forall₂_same.mpr fun p _ => cohortRemoveFrame_refl _ _ _ p
  | k :: ks, acc => by
    have hstep : List.Forall₂ (CohortRemoveFrame markNom markInv markJoin)
        acc.1
        ((cohortParticipantStep employees absentIds cohortName markNom
          markInv markJoin "remove" nbd nd now acc k).1) := by
      unfold cohortParticipantStep
      cases hfind : acc.1.find? (fun p => decide (p.standardID = k)) with
      | some p0 =>
        exact forall₂_updateFirst (cohortRemoveFrame_refl _ _ _)
          (fun p => participantCohortApply_remove_frame cohortName
            markNom markInv markJoin nbd nd now p) acc.1
      | none =>
        dsimp only
        rw [if_neg (by decide : ¬ ("remove" : String) = "add")]
        exact List.forall₂_same.mpr fun p _ => cohortRemoveFrame_refl _ _ _ p
    exact @forall₂_trans_of _ (CohortRemoveFrame markNom markInv markJoin)
      (fun _ _ _ h1 h2 => cohortRemoveFrame_trans h1 h2) _ _ _ hstep
      (cohortRemove_fold_frame employees absentIds cohortName markNom markInv
        markJoin nbd nd now ks _)

/-- C5 (amended): in `"remove"` mode, `update_cohort_membership` never
creates a participant row (the participant list keeps its length, row by
row), and for every existing row it leaves `Nominated By`, `Notes`,
`Waitlist` — and every other field except the requested cohort list fields
and the `Last Updated` stamp — unchanged. -/
theorem c5_remove_participant_frame (s : AppState) (cohortName : String)
    (empIds absentIds : List String) (markNom markInv markJoin : Bool)
    (nbd nd now : String) :
    (updateCohortMembership s cohortName empIds absentIds markNom markInv
        markJoin nbd nd "remove" now).1.participants.length =
      s.participants.length ∧
    List.Forall₂ (CohortRemoveFrame markNom markInv markJoin) s.participants
      (updateCohortMembership s cohortName empIds absentIds markNom markInv
        markJoin nbd nd "remove" now).1.participants := by
  have hframe : List.Forall₂ (CohortRemoveFrame markNom markInv markJoin)
      s.participants
      (updateCohortMembership s cohortName empIds absentIds markNom markInv
        markJoin nbd nd "remove" now).1.participants := by
    unfold updateCohortMembership
    by_cases hg : cohortName = "" ∨ empIds = [] ∨
        (markNom = false ∧ markInv = false ∧ markJoin = false)
    · rw [if_pos hg]
      exact List.forall₂_same.mpr fun p _ => cohortRemoveFrame_refl _ _ _ p
    · rw [if_neg hg]
      cases hc : findCohort s cohortName with
      | none =>
        exact List.forall₂_same.mpr fun p _ => cohortRemoveFrame_refl _ _ _ p
      | some c =>
        show List.Forall₂ _ s.participants (if _ then _ else s.participants)
        split
        · exact cohortRemove_fold_frame s.employees absentIds cohortName
            markNom markInv markJoin nbd nd now empIds
            (s.participants, s.couldNotFind, false)
        · exact List.forall₂_same.mpr
            fun p _ => cohortRemoveFrame_refl _ _ _ p
  exact ⟨(hframe.length_eq).symm, hframe⟩

/-- C5, counterexample to the claim as stated: removing `E2` from
`Cohort1`'s `Nominated` list also rewrites the participant's `Last Updated`
stamp, a field outside the requested cohort-dimension list fields. -/
theorem c5_counterexample :
    (updateCohortMembership exCohortState "Cohort1" ["E2"] [] true false
        false "" "" "remove" "t3").1.participants.map
        (fun p => p.lastUpdated) ≠
      exCohortState.participants.map (fun p => p.lastUpdated) := by decide

/-! ## Lemmas about the CSV layer -/

theorem cellOf_map_self (g : String → String) (c : String) :
    ∀ cs : List String, cellOf cs (cs.map g) c = if c ∈ cs then g c else ""
  | [] => by simp [cellOf]
  | c0 :: cs => by
    show (if c0 = c then g c0 else cellOf cs (cs.map g) c) = _
    by_cases h : c0 = c
    · subst h; simp
    · rw [if_neg h, cellOf_map_self g c cs]
      by_cases hc : c ∈ cs
      · rw [if_pos hc, if_pos (List.mem_cons_of_mem _ hc)]
      · rw [if_neg hc, if_neg (by simp [hc, Ne.symm h])]

theorem cellOf_append_left {c : String} :
    ∀ {cols r : List String}, c ∈ cols → r.length = cols.length →
      ∀ cols' r', cellOf (cols ++ cols') (r ++ r') c = cellOf cols r c
  | [], _, hc, _, _, _ => absurd hc (List.not_mem_nil c)
  | c0 :: cols, [], _, hlen, _, _ => by cases hlen
  | c0 :: cols, v :: r, hc, hlen, cols', r' => by
    show (if c0 = c then v else cellOf (cols ++ cols') (r ++ r') c) = _
    by_cases h : c0 = c
    · rw [if_pos h, show cellOf (c0 :: cols) (v :: r) c = v from if_pos h]
    · rw [if_neg h,
        show cellOf (c0 :: cols) (v :: r) c = cellOf cols r c from if_neg h]
      exact cellOf_append_left
        ((List.mem_cons.mp hc).resolve_left fun hh => h hh.symm)
        (by simpa using hlen) cols' r'

theorem cellOf_append_right {c : String} :
    ∀ {cols r : List String}, c ∉ cols → r.length = cols.length →
      ∀ cols' r', cellOf (cols ++ cols') (r ++ r') c = cellOf cols' r' c
  | [], [], _, _, _, _ => rfl
  | [], _ :: _, _, hlen, _, _ => by cases hlen
  | _ :: _, [], _, hlen, _, _ => by cases hlen
  | c0 :: cols, v :: r, hc, hlen, cols', r' => by
    show (if c0 = c then v else cellOf (cols ++ cols') (r ++ r') c) = _
    rw [if_neg (fun h => hc (by rw [← h]; exact List.mem_cons_self c0 cols))]
    exact cellOf_append_right (fun h => hc (List.mem_cons_of_mem _ h))
      (by simpa using hlen) cols' r'

theorem cellOf_all_empty {c : String} :
    ∀ (cols r : List String), (∀ v ∈ r, v = "") → cellOf cols r c = ""
  | [], _, _ => rfl
  | _ :: _, [], _ => rfl
  | c0 :: cols, v :: r, h => by
    show (if c0 = c then v else cellOf cols r c) = ""
    by_cases hc : c0 = c
    · rw [if_pos hc]; exact h v (List.mem_cons_self _ _)
    · rw [if_neg hc]
      exact cellOf_all_empty cols r fun w hw => h w (List.mem_cons_of_mem _ hw)

theorem extendsBlank_refl (t : RawTable) : ExtendsBlank t t :=
  ⟨[], by simp, by simp⟩

theorem extendsBlank_addEmptyCol {t t' : RawTable} (h : ExtendsBlank t t')
    (c : String) : ExtendsBlank t (addEmptyCol t' c) := by
  obtain ⟨ds, hcols, hrows⟩ := h
  refine ⟨ds ++ [c], ?_, ?_⟩
  · show t'.cols ++ [c] = t.cols ++ (ds ++ [c])
    rw [hcols, List.append_assoc]
  · show t'.rows.map (fun r => r ++ [""]) = _
    rw [hrows, List.map_map]
    refine List.map_congr_left fun r _ => ?_
    show (r ++ List.replicate ds.length "") ++ [""] = _
    rw [List.append_assoc]
    simp [List.replicate_succ']

theorem extendsBlank_wf {t t' : RawTable} (h : ExtendsBlank t t')
    (hwf : RawTableWF t) : RawTableWF t' := by
  obtain ⟨ds, hcols, hrows⟩ := h
  intro r hr
  rw [hrows] at hr
  obtain ⟨r0, hr0, rfl⟩ := List.mem_map.mp hr
  rw [hcols]
  simp [hwf r0 hr0]

/-- The schema-fix fold only ever appends blank columns. -/
theorem foldFix_extendsBlank :
    ∀ (cs : List String) (acc : RawTable × Bool) (t : RawTable),
      ExtendsBlank t acc.1 →
      ExtendsBlank t (cs.foldl (fun acc c =>
        if c ∈ acc.1.cols then acc else (addEmptyCol acc.1 c, true)) acc).1
  | [], _, _, h => h
  | c :: cs, acc, t, h => by
    rw [List.foldl_cons]
    by_cases hc : c ∈ acc.1.cols
    · rw [if_pos hc]
      exact foldFix_extendsBlank cs acc t h
    · rw [if_neg hc]
      exact foldFix_extendsBlank cs (addEmptyCol acc.1 c, true) t
        (extendsBlank_addEmptyCol h c)

theorem foldFix_cols_mono {x : String} :
    ∀ (cs : List String) (acc : RawTable × Bool), x ∈ acc.1.cols →
      x ∈ (cs.foldl (fun acc c =>
        if c ∈ acc.1.cols then acc
        else (addEmptyCol acc.1 c, true)) acc).1.cols
  | [], _, h => h
  | c :: cs, acc, h => by
    rw [List.foldl_cons]
    by_cases hc : c ∈ acc.1.cols
    · rw [if_pos hc]
      exact foldFix_cols_mono cs acc h
    · rw [if_neg hc]
      exact foldFix_cols_mono cs (addEmptyCol acc.1 c, true)
        (List.mem_append_left _ h)

theorem foldFix_mem_cols {x : String} :
    ∀ (cs : List String) (acc : RawTable × Bool), x ∈ cs →
      x ∈ (cs.foldl (fun acc c =>
        if c ∈ acc.1.cols then acc
        else (addEmptyCol acc.1 c, true)) acc).1.cols
  | [], _, h => absurd h (List.not_mem_nil x)
  | c :: cs, acc, h => by
    rw [List.foldl_cons]
    rcases List.mem_cons.mp h with rfl | h
    · by_cases hc : x ∈ acc.1.cols
      · rw [if_pos hc]
        exact foldFix_cols_mono cs acc hc
      · rw [if_neg hc]
        exact foldFix_cols_mono cs (addEmptyCol acc.1 x, true)
          (List.mem_append_right _ (List.mem_singleton.mpr rfl))
    · by_cases hc : c ∈ acc.1.cols
      · rw [if_pos hc]
        exact foldFix_mem_cols cs acc h
      · rw [if_neg hc]
        exact foldFix_mem_cols cs (addEmptyCol acc.1 c, true) h

theorem foldFix_flag_mono :
    ∀ (cs : List String) (acc : RawTable × Bool), acc.2 = true →
      (cs.foldl (fun acc c =>
        if c ∈ acc.1.cols then acc
        else (addEmptyCol acc.1 c, true)) acc).2 = true
  | [], _, h => h
  | c :: cs, acc, h => by
    rw [List.foldl_cons]
    by_cases hc : c ∈ acc.1.cols
    · rw [if_pos hc]
      exact foldFix_flag_mono cs acc h
    · rw [if_neg hc]
      exact foldFix_flag_mono cs (addEmptyCol acc.1 c, true) rfl

/-- Processing a missing column sets the fixed flag. -/
theorem foldFix_flag_of_missing {x : String} :
    ∀ (cs : List String) (acc : RawTable × Bool), x ∈ cs →
      x ∉ acc.1.cols → cs.Nodup →
      (cs.foldl (fun acc c =>
        if c ∈ acc.1.cols then acc
        else (addEmptyCol acc.1 c, true)) acc).2 = true
  | [], _, h, _, _ => absurd h (List.not_mem_nil x)
  | c :: cs, acc, h, hmiss, hnd => by
    rw [List.foldl_cons]
    rcases List.mem_cons.mp h with rfl | h
    · rw [if_neg hmiss]
      exact foldFix_flag_mono cs _ rfl
    · have hcx : c ≠ x :=
        fun hcx => (List.nodup_cons.mp hnd).1 (by rw [hcx]; exact h)
      by_cases hc : c ∈ acc.1.cols
      · rw [if_pos hc]
        exact foldFix_flag_of_missing cs acc h hmiss
          (List.nodup_cons.mp hnd).2
      · rw [if_neg hc]
        refine foldFix_flag_of_missing cs (addEmptyCol acc.1 c, true) h ?_
          (List.nodup_cons.mp hnd).2
        intro hx
        rcases List.mem_append.mp hx with hx | hx
        · exact hmiss hx
        · exact hcx (List.mem_singleton.mp hx).symm

theorem mapRowAt_length (c : String) (f : String → String) :
    ∀ (cols r : List String), (mapRowAt c f cols r).length = r.length
  | [], _ => rfl
  | _ :: _, [] => rfl
  | c0 :: cols, v :: r => by
    show (mapRowAt c f cols r).length + 1 = r.length + 1
    rw [mapRowAt_length c f cols r]

theorem mapCol_cols (t : RawTable) (c : String) (f : String → String) :
    (mapCol t c f).cols = t.cols := rfl

theorem mapCol_wf {t : RawTable} (c : String) (f : String → String)
    (hwf : RawTableWF t) : RawTableWF (mapCol t c f) := by
  intro r hr
  obtain ⟨r0, hr0, rfl⟩ := List.mem_map.mp hr
  show (mapRowAt c f t.cols r0).length = t.cols.length
  rw [mapRowAt_length, hwf r0 hr0]

theorem cellOf_mapRowAt {c c' : String} {f : String → String}
    (hf : f "" = "") :
    ∀ (cols r : List String), cellOf cols (mapRowAt c f cols r) c' =
      if c' = c then f (cellOf cols r c') else cellOf cols r c'
  | [], r => by
    show ("" : String) = if c' = c then f "" else ""
    rw [hf]; simp
  | c0 :: cols, [] => by
    show ("" : String) = if c' = c then f "" else ""
    rw [hf]; simp
  | c0 :: cols, v :: r => by
    show (if c0 = c' then (if c0 = c then f v else v)
      else cellOf cols (mapRowAt c f cols r) c') = _
    by_cases h0 : c0 = c'
    · subst h0
      rw [if_pos rfl, show cellOf (c0 :: cols) (v :: r) c0 = v from if_pos rfl]
    · rw [if_neg h0,
        show cellOf (c0 :: cols) (v :: r) c' = cellOf cols r c' from
          if_neg h0]
      exact cellOf_mapRowAt hf cols r

theorem renameCol_wf {t : RawTable} (old new : String)
    (hwf : RawTableWF t) : RawTableWF (renameCol t old new) := by
  intro r hr
  show r.length = (t.cols.map _).length
  rw [List.length_map]
  exact hwf r hr

theorem mem_renameCol_new {t : RawTable} {old : String} (new : String)
    (h : old ∈ t.cols) : new ∈ (renameCol t old new).cols := by
  refine List.mem_map.mpr ⟨old, h, ?_⟩
  rw [if_pos rfl]

theorem old_not_mem_renameCol {t : RawTable} {old new : String}
    (hne : new ≠ old) : old ∉ (renameCol t old new).cols := by
  intro h
  obtain ⟨d, _, hd⟩ := List.mem_map.mp h
  by_cases hdo : d = old
  · rw [if_pos hdo] at hd; exact hne hd
  · rw [if_neg hdo] at hd; exact hdo hd

theorem addEmptyCol_wf {t : RawTable} (c : String) (hwf : RawTableWF t) :
    RawTableWF (addEmptyCol t c) := by
  intro r hr
  obtain ⟨r0, hr0, rfl⟩ := List.mem_map.mp hr
  show (r0 ++ [""]).length = (t.cols ++ [c]).length
  simp [hwf r0 hr0]

/-- The ensure-columns loop of `load_table` only ever appends blank
columns. -/
theorem foldEnsure_extendsBlank :
    ∀ (cs : List String) (t0 t : RawTable), ExtendsBlank t0 t →
      ExtendsBlank t0 (cs.foldl
        (fun t c => if c ∈ t.cols then t else addEmptyCol t c) t)
  | [], _, _, h => h
  | c :: cs, t0, t, h => by
    rw [List.foldl_cons]
    by_cases hc : c ∈ t.cols
    · rw [if_pos hc]
      exact foldEnsure_extendsBlank cs t0 t h
    · rw [if_neg hc]
      exact foldEnsure_extendsBlank cs t0 (addEmptyCol t c)
        (extendsBlank_addEmptyCol h c)

theorem foldEnsure_cols_mono {x : String} :
    ∀ (cs : List String) (t : RawTable), x ∈ t.cols →
      x ∈ (cs.foldl
        (fun t c => if c ∈ t.cols then t else addEmptyCol t c) t).cols
  | [], _, h => h
  | c :: cs, t, h => by
    rw [List.foldl_cons]
    by_cases hc : c ∈ t.cols
    · rw [if_pos hc]
      exact foldEnsure_cols_mono cs t h
    · rw [if_neg hc]
      exact foldEnsure_cols_mono cs (addEmptyCol t c)
        (List.mem_append_left _ h)

/-- The canonical column list of any key has no duplicate labels. -/
theorem canonicalCols_nodup (key : String) : (canonicalCols key).Nodup := by
  unfold canonicalCols
  cases hf : FILES.find? (fun f => decide (f.1 = key)) with
  | none => exact List.nodup_nil
  | some f =>
    have hmem : f ∈ FILES := List.mem_of_find?_eq_some hf
    have : f = ("employees", "employees.csv", ["Standard ID", "Email"]) ∨
        f = ("workshops", "workshops.csv",
          ["Workshop #", "Series", "Skill", "Goal", "Instances",
           "Registered", "Participated"]) ∨
        f = ("cohorts", "cohorts.csv",
          ["Name", "Date Started", "Nominated", "Invited", "Joined"]) ∨
        f = ("events", "events.csv",
          ["Event ID", "Name", "Date", "Category", "Workshop", "Hosted",
           "Registrations", "Participants"]) ∨
        f = ("participants", "participants.csv",
          ["Standard ID", "Email", "Events Registered",
           "Events Participated", "Events Hosted", "Waitlist",
           "Cohorts Nominated", "Cohorts Invited", "Cohorts Joined",
           "Nominated By", "Notes", "Tags", "Last Updated"]) := by
      simpa [FILES] using hmem
    rcases this with rfl | rfl | rfl | rfl | rfl <;> decide

/-! ## C7: self-healing schema -/

/-- C7 (amended): for every table key other than `"employees"`, if the
backing file exists but lacks a canonical column `c`, then `load_table`
returns a table in which `c` is present and holds the empty string in every
row, and the file is immediately rewritten with `c` present (again holding
the empty string in every row). -/
theorem c7_selfheal_schema (key : String) (file : RawTable) (c : String)
    (hne : key ≠ "employees") (hwf : RawTableWF file)
    (hc : c ∈ canonicalCols key) (hmiss : c ∉ file.cols) :
    c ∈ (loadTableExisting key file).table.cols ∧
    (∀ row ∈ (loadTableExisting key file).table.rows,
      cellOf (loadTableExisting key file).table.cols row c = "") ∧
    (loadTableExisting key file).rewrote = true ∧
    c ∈ (loadTableExisting key file).disk.cols ∧
    (∀ row ∈ (loadTableExisting key file).disk.rows,
      cellOf (loadTableExisting key file).disk.cols row c = "") := by
  have hpre_cols : (loadPre key file).cols = file.cols := by
    unfold loadPre
    rw [if_neg hne]
    split
    · rfl
    · split
      · rfl
      · rfl
  have hpre_wf : RawTableWF (loadPre key file) := by
    unfold loadPre
    rw [if_neg hne]
    split
    · exact mapCol_wf _ _ hwf
    · split
      · exact mapCol_wf _ _ hwf
      · exact hwf
  have heff : effectiveCols key (loadPre key file) = canonicalCols key := by
    unfold effectiveCols
    rw [if_neg hne]
  have hmiss' : c ∉ (loadPre key file).cols := by
    rw [hpre_cols]; exact hmiss
  have hext2 : ExtendsBlank (loadPre key file) (loadFixed key file).1 := by
    unfold loadFixed validateAndFixSchema
    exact foldFix_extendsBlank _ _ _ (extendsBlank_refl _)
  have hflag : (loadFixed key file).2 = true := by
    unfold loadFixed validateAndFixSchema
    exact foldFix_flag_of_missing _ ((loadPre key file), false) hc hmiss'
      (canonicalCols_nodup key)
  have hmem2 : c ∈ (loadFixed key file).1.cols := by
    unfold loadFixed validateAndFixSchema
    exact foldFix_mem_cols _ _ hc
  have hwf2 : RawTableWF (loadFixed key file).1 := extendsBlank_wf hext2 hpre_wf
  have hempty2 : ColAllEmpty (loadFixed key file).1 c := by
    obtain ⟨ds, hcols, hrows⟩ := hext2
    intro row hrow
    rw [hrows] at hrow
    obtain ⟨r0, hr0, rfl⟩ := List.mem_map.mp hrow
    rw [hcols, cellOf_append_right hmiss' (hpre_wf r0 hr0) ds _]
    exact cellOf_all_empty ds _ (fun v hv => List.eq_of_mem_replicate hv)
  have hext3 : ExtendsBlank (loadFixed key file).1 (loadEnsured key file) := by
    unfold loadEnsured
    exact foldEnsure_extendsBlank _ _ _ (extendsBlank_refl _)
  have hwf3 : RawTableWF (loadEnsured key file) := extendsBlank_wf hext3 hwf2
  have hempty3 : ColAllEmpty (loadEnsured key file) c := by
    obtain ⟨ds, hcols, hrows⟩ := hext3
    intro row hrow
    rw [hrows] at hrow
    obtain ⟨r0, hr0, rfl⟩ := List.mem_map.mp hrow
    rw [hcols, cellOf_append_left hmem2 (hwf2 r0 hr0) ds _]
    exact hempty2 r0 hr0
  have hempty4 : ColAllEmpty (loadRecoerced key file) c := by
    unfold loadRecoerced
    split
    · intro row hrow
      obtain ⟨r0, hr0, rfl⟩ := List.mem_map.mp hrow
      show cellOf (loadEnsured key file).cols
        (mapRowAt "Date" pdToDatetime (loadEnsured key file).cols r0) c = ""
      rw [cellOf_mapRowAt (by simp [pdToDatetime]) _ r0]
      by_cases hcd : c = "Date"
      · rw [if_pos hcd, hempty3 r0 hr0]
        simp [pdToDatetime]
      · rw [if_neg hcd]
        exact hempty3 r0 hr0
    · split
      · intro row hrow
        obtain ⟨r0, hr0, rfl⟩ := List.mem_map.mp hrow
        show cellOf (loadEnsured key file).cols
          (mapRowAt "Date Started" pdToDatetime
            (loadEnsured key file).cols r0) c = ""
        rw [cellOf_mapRowAt (by simp [pdToDatetime]) _ r0]
        by_cases hcd : c = "Date Started"
        · rw [if_pos hcd, hempty3 r0 hr0]
          simp [pdToDatetime]
        · rw [if_neg hcd]
          exact hempty3 r0 hr0
      · exact hempty3
  have hdisk : (loadTableExisting key file).disk = (loadFixed key file).1 := by
    show (if (loadFixed key file).2 then _ else file) = _
    rw [if_pos hflag, if_neg hne]
  refine ⟨?_, ?_, hflag, ?_, ?_⟩
  · show c ∈ effectiveCols key (loadPre key file)
    rw [heff]; exact hc
  · intro row hrow
    have hrow' : row ∈ (loadRecoerced key file).rows.map
        (fun r => (effectiveCols key (loadPre key file)).map
          (cellOf (loadRecoerced key file).cols r)) := hrow
    obtain ⟨r0, hr0, rfl⟩ := List.mem_map.mp hrow'
    show cellOf (effectiveCols key (loadPre key file))
      ((effectiveCols key (loadPre key file)).map
        (cellOf (loadRecoerced key file).cols r0)) c = ""
    rw [cellOf_map_self, heff, if_pos hc]
    exact hempty4 r0 hr0
  · rw [hdisk]
    exact hmem2
  · rw [hdisk]
    exact hempty2

/-- Witness for C7: an events file missing its `Registrations` column. -/
theorem c7_witness :
    "Registrations" ∈
      (loadTableExisting "events" exEventsFileNoRegs).table.cols ∧
    (∀ row ∈ (loadTableExisting "events" exEventsFileNoRegs).table.rows,
      cellOf (loadTableExisting "events" exEventsFileNoRegs).table.cols row
        "Registrations" = "") ∧
    (loadTableExisting "events" exEventsFileNoRegs).rewrote = true ∧
    "Registrations" ∈
      (loadTableExisting "events" exEventsFileNoRegs).disk.cols ∧
    (∀ row ∈ (loadTableExisting "events" exEventsFileNoRegs).disk.rows,
      cellOf (loadTableExisting "events" exEventsFileNoRegs).disk.cols row
        "Registrations" = "") :=
  c7_selfheal_schema "events" exEventsFileNoRegs "Registrations"
    (by decide) (by decide) (by decide) (by decide)

/-- C7, counterexample to the claim as stated: an employees file missing the
canonical `Email` column.  `load_table` materializes the column in memory
(every row holds the empty string), but the file is NOT rewritten: the
missing columns of the employees table are added before
`validate_and_fix_csv_schema` runs, so the fixed flag never turns on. -/
theorem c7_counterexample :
    "Email" ∈ canonicalCols "employees" ∧
    "Email" ∉ exEmployeesFileNoEmail.cols ∧
    "Email" ∈ (loadTableExisting "employees" exEmployeesFileNoEmail).table.cols ∧
    (∀ row ∈ (loadTableExisting "employees" exEmployeesFileNoEmail).table.rows,
      cellOf (loadTableExisting "employees" exEmployeesFileNoEmail).table.cols
        row "Email" = "") ∧
    (loadTableExisting "employees" exEmployeesFileNoEmail).rewrote = false ∧
    (loadTableExisting "employees" exEmployeesFileNoEmail).disk =
      exEmployeesFileNoEmail := by decide

/-! ## C10: the employees `Work Email Address` / `Email` rename -/

theorem loadEmployeesPre_email {file : RawTable}
    (hwea : "Work Email Address" ∈ file.cols)
    (hnoe : "Email" ∉ file.cols) :
    "Email" ∈ (loadEmployeesPre file).cols ∧
    "Work Email Address" ∉ (loadEmployeesPre file).cols := by
  simp only [loadEmployeesPre]
  rw [if_pos hwea]
  have h1e : "Email" ∈ (renameCol file "Work Email Address" "Email").cols :=
    mem_renameCol_new _ hwea
  have h1w : "Work Email Address" ∉
      (renameCol file "Work Email Address" "Email").cols :=
    old_not_mem_renameCol (by decide)
  by_cases hsid :
      "Standard ID" ∈ (renameCol file "Work Email Address" "Email").cols
  · rw [if_pos hsid, if_pos h1e]
    exact ⟨h1e, h1w⟩
  · rw [if_neg hsid]
    have h2e : "Email" ∈ (addEmptyCol
        (renameCol file "Work Email Address" "Email") "Standard ID").cols :=
      List.mem_append_left _ h1e
    rw [if_pos h2e]
    refine ⟨h2e, ?_⟩
    intro h
    rcases List.mem_append.mp h with h | h
    · exact h1w h
    · exact absurd (List.mem_singleton.mp h) (by decide)

/-- C10: on disk the employees table stores its email under
`Work Email Address`; `load_table("employees")` returns it as `Email`,
`save_table("employees", ...)` renames it back before writing, and the load
path never writes an `Email` header to disk — so a load followed by a save
preserves the on-disk header name. -/
theorem c10_employees_email_rename (file : RawTable)
    (hwea : "Work Email Address" ∈ file.cols)
    (hnoe : "Email" ∉ file.cols) :
    "Email" ∈ (loadTableExisting "employees" file).table.cols ∧
    "Work Email Address" ∉ (loadTableExisting "employees" file).table.cols ∧
    "Work Email Address" ∈
      (saveTable "employees"
        (loadTableExisting "employees" file).table).cols ∧
    "Email" ∉
      (saveTable "employees"
        (loadTableExisting "employees" file).table).cols ∧
    "Email" ∉ (loadTableExisting "employees" file).disk.cols ∧
    "Work Email Address" ∈ (loadTableExisting "employees" file).disk.cols := by
  have hpre_eq : loadPre "employees" file = loadEmployeesPre file := by
    unfold loadPre
    rw [if_pos rfl]
  have hpre := loadEmployeesPre_email hwea hnoe
  have hcan : canonicalCols "employees" = ["Standard ID", "Email"] := rfl
  have heff : effectiveCols "employees" (loadPre "employees" file) =
      ["Standard ID", "Email"] ++
        (loadEmployeesPre file).cols.filter
          (fun c => c ∉ canonicalCols "employees") := by
    unfold effectiveCols
    rw [if_pos rfl, hcan, hpre_eq]
  have htblE : "Email" ∈ (loadTableExisting "employees" file).table.cols := by
    show "Email" ∈ effectiveCols "employees" (loadPre "employees" file)
    rw [heff]
    exact List.mem_append_left _ (by decide)
  have htblW : "Work Email Address" ∉
      (loadTableExisting "employees" file).table.cols := by
    show "Work Email Address" ∉ effectiveCols "employees" (loadPre "employees" file)
    rw [heff]
    intro h
    rcases List.mem_append.mp h with h | h
    · exact absurd h (by decide)
    · exact hpre.2 (List.mem_of_mem_filter h)
  refine ⟨htblE, htblW, ?_, ?_, ?_, ?_⟩
  · show "Work Email Address" ∈
      (if ("employees" : String) = "employees" ∧
          "Email" ∈ (loadTableExisting "employees" file).table.cols then
        renameCol (loadTableExisting "employees" file).table "Email"
          "Work Email Address"
      else (loadTableExisting "employees" file).table).cols
    rw [if_pos ⟨rfl, htblE⟩]
    exact mem_renameCol_new _ htblE
  · show "Email" ∉
      (if ("employees" : String) = "employees" ∧
          "Email" ∈ (loadTableExisting "employees" file).table.cols then
        renameCol (loadTableExisting "employees" file).table "Email"
          "Work Email Address"
      else (loadTableExisting "employees" file).table).cols
    rw [if_pos ⟨rfl, htblE⟩]
    exact old_not_mem_renameCol (by decide)
  · show "Email" ∉
      (if (loadFixed "employees" file).2 then _ else file).cols
    by_cases hflag : (loadFixed "employees" file).2 = true
    · rw [if_pos hflag, if_pos rfl]
      exact old_not_mem_renameCol (by decide)
    · rw [if_neg hflag]
      exact hnoe
  · show "Work Email Address" ∈
      (if (loadFixed "employees" file).2 then _ else file).cols
    by_cases hflag : (loadFixed "employees" file).2 = true
    · rw [if_pos hflag, if_pos rfl]
      refine mem_renameCol_new _ ?_
      show "Email" ∈ (loadFixed "employees" file).1.cols
      unfold loadFixed validateAndFixSchema
      refine foldFix_cols_mono _ ((loadPre "employees" file), false) ?_
      rw [hpre_eq]
      exact hpre.1
    · rw [if_neg hflag]
      exact hwea

/-- Witness for C10 at a concrete employees file carrying the
`Work Email Address` header and one extra organizational column. -/
theorem c10_witness :
    "Email" ∈ (loadTableExisting "employees" exEmployeesFileWEA).table.cols ∧
    "Work Email Address" ∉
      (loadTableExisting "employees" exEmployeesFileWEA).table.cols ∧
    "Work Email Address" ∈
      (saveTable "employees"
        (loadTableExisting "employees" exEmployeesFileWEA).table).cols ∧
    "Email" ∉
      (saveTable "employees"
        (loadTableExisting "employees" exEmployeesFileWEA).table).cols ∧
    "Email" ∉ (loadTableExisting "employees" exEmployeesFileWEA).disk.cols ∧
    "Work Email Address" ∈
      (loadTableExisting "employees" exEmployeesFileWEA).disk.cols :=
  c10_employees_email_rename exEmployeesFileWEA (by decide) (by decide)

/-! ## More facts about the cell encoding -/

theorem pySortedList_sorted (l : List String) :
    (pySortedList l).Sorted SLe := by
  haveI := sLe_isTotal
  haveI := sLe_isTrans
  rw [pySortedList_def]
  exact List.sorted_insertionSort SLe l

theorem pySortedList_of_sorted {l : List String} (h : l.Sorted SLe) :
    pySortedList l = l := by
  haveI := sLe_isAntisymm
  rw [pySortedList_def]
  exact List.eq_of_perm_of_sorted (List.perm_insertionSort SLe l)
    (by rw [← pySortedList_def]; exact pySortedList_sorted l) h

theorem pySetOfCell_cellOfSet {S : List String} (hnd : S.Nodup)
    (hfree : ∀ x ∈ S, commaFree x) :
    pySetOfCell (cellOfSet S) = pySortedList (S.filter (fun x => x ≠ "")) := by
  unfold pySetOfCell
  rw [cellToList_cellOfSet S hfree]
  exact List.dedup_eq_self.mpr (nodup_pySortedList (hnd.filter _))

/-- Writing a cell only depends on the nonempty members of the set. -/
theorem cellOfSet_congr_ne {S T : List String} (hS : S.Nodup) (hT : T.Nodup)
    (hm : ∀ x, x ≠ "" → (x ∈ S ↔ x ∈ T)) : cellOfSet S = cellOfSet T := by
  unfold cellOfSet
  refine congrArg (pyJoinSep ",") (pySortedList_congr (hS.filter _)
    (hT.filter _) fun x => ?_)
  simp only [List.mem_filter, decide_eq_true_eq]
  constructor
  · rintro ⟨h1, h2⟩; exact ⟨(hm x h2).mp h1, h2⟩
  · rintro ⟨h1, h2⟩; exact ⟨(hm x h2).mpr h1, h2⟩

theorem nodup_length_eq_of_mem_iff {l₁ l₂ : List String} (h₁ : l₁.Nodup)
    (h₂ : l₂.Nodup) (hm : ∀ x, x ∈ l₁ ↔ x ∈ l₂) : l₁.length = l₂.length :=
  (List.perm_of_nodup_nodup_toFinset_eq h₁ h₂
    (Finset.ext fun a => by simpa using hm a)).length_eq

theorem nodup_length_le_of_subset {l₁ l₂ : List String} (h₁ : l₁.Nodup)
    (h₂ : l₂.Nodup) (hm : ∀ x, x ∈ l₁ → x ∈ l₂) : l₁.length ≤ l₂.length := by
  rw [← List.toFinset_card_of_nodup h₁, ← List.toFinset_card_of_nodup h₂]
  exact Finset.card_le_card
    (fun a ha => List.mem_toFinset.mpr (hm a (List.mem_toFinset.mp ha)))

/-- The code's initial count `len(set(...) - {''})` is the cell's size. -/
theorem cellCard_eq_diff_length (cell : String) :
    (pyDiff (pySetOfCell cell) [""]).length = cellCard cell := by
  refine nodup_length_eq_of_mem_iff (nodup_pyDiff (nodup_pySetOfCell cell))
    (List.nodup_dedup _) fun x => ?_
  rw [mem_pyDiff, mem_pySetOfCell, List.mem_dedup, List.mem_filter]
  simp

/-- The code's final count `len(set(filter(None, cell.split(','))))` is the
cell's size. -/
theorem cellCard_eq_split_length (cell : String) :
    ((pySplitChar ',' cell).filter (fun x => x ≠ "")).dedup.length =
      cellCard cell := by
  unfold cellCard cellToList
  by_cases h : cell = ""
  · subst h; decide
  · rw [if_neg h]

theorem cellCard_cellOfSet {S : List String}
    (hfree : ∀ x ∈ S, commaFree x) :
    cellCard (cellOfSet S) = ((S.filter (fun x => x ≠ "")).dedup).length := by
  unfold cellCard
  refine nodup_length_eq_of_mem_iff (List.nodup_dedup _) (List.nodup_dedup _)
    fun x => ?_
  rw [List.mem_dedup, List.mem_dedup, List.mem_filter, List.mem_filter,
    mem_cellToList_cellOfSet hfree]
  simp only [decide_eq_true_eq]
  tauto

theorem cellWF_cellOfSet {S : List String}
    (hfree : ∀ x ∈ S, commaFree x) : CellWF (cellOfSet S) := by
  intro h
  exact ((mem_cellToList_cellOfSet hfree).mp h).2 rfl

theorem cellWF_empty : CellWF "" := by decide

theorem pyUnion_eq_self {S l : List String} (h : ∀ x ∈ l, x ∈ S) :
    pyUnion S l = S := by
  induction l generalizing S with
  | nil => rfl
  | cons a as ih =>
    show pyUnion (pyAdd S a) as = S
    rw [show pyAdd S a = S from if_pos (h a (List.mem_cons_self _ _))]
    exact ih fun x hx => h x (List.mem_cons_of_mem _ hx)

/-- A cell with no empty entries has only nonempty members in its set. -/
theorem mem_pySetOfCell_ne_empty {cell x : String} (hwf : CellWF cell)
    (hx : x ∈ pySetOfCell cell) : x ≠ "" := by
  intro h
  exact hwf (h ▸ mem_pySetOfCell.mp hx)

/-! ## The participant loop of `update_employee_event_status` -/

theorem participantEventApply_standardID (eventId : String)
    (mr mp mh : Option Bool) (now : String) (p : ParticipantRow) :
    (participantEventApply eventId mr mp mh now p).standardID =
      p.standardID := rfl

theorem blankParticipantRow_standardID (employees : List EmployeeRow)
    (k : String) : (blankParticipantRow employees k).standardID = k := rfl

theorem find?_eq_none_of_any_eq_false {p : α → Bool} {l : List α}
    (h : ¬ l.any p = true) : l.find? p = none := by
  rw [List.find?_eq_none]
  intro x hx hpx
  exact h (List.any_eq_true.mpr ⟨x, hx, hpx⟩)

theorem any_eq_true_of_find? {p : α → Bool} {l : List α} {a : α}
    (h : l.find? p = some a) : l.any p = true :=
  List.any_eq_true.mpr ⟨a, List.mem_of_find?_eq_some h, List.find?_some h⟩

theorem eventStep_find_self (employees : List EmployeeRow)
    (absentIds : List String) (eventId : String) (mr mp mh : Option Bool)
    (now : String) (acc : List ParticipantRow × List (String × String))
    (k : String) :
    ((eventParticipantStep employees absentIds eventId mr mp mh now
        acc k).1).find? (fun p => decide (p.standardID = k)) =
      some (participantEventApply eventId mr mp mh now
        ((acc.1.find? (fun p => decide (p.standardID = k))).getD
          (blankParticipantRow employees k))) := by
  unfold eventParticipantStep
  dsimp only
  cases hfind : acc.1.find? (fun p => decide (p.standardID = k)) with
  | some a =>
    have hpa := List.find?_some hfind
    rw [if_pos (any_eq_true_of_find? hfind)]
    exact find?_updateFirst_self hfind hpa
  | none =>
    have hany : ¬ (acc.1.any (fun p => decide (p.standardID = k)) = true) :=
      fun hc => by
        obtain ⟨x, hx, hpx⟩ := List.any_eq_true.mp hc
        exact List.find?_eq_none.mp hfind x hx hpx
    have hpk : decide ((blankParticipantRow employees k).standardID = k) =
        true := by simp [blankParticipantRow]
    rw [if_neg hany, updateFirst_append_of_none hfind]
    have hsingle : updateFirst (fun p => decide (p.standardID = k))
        (participantEventApply eventId mr mp mh now)
        [blankParticipantRow employees k] =
        [participantEventApply eventId mr mp mh now
          (blankParticipantRow employees k)] := by
      unfold updateFirst
      rw [if_pos hpk]
    rw [hsingle, List.find?_append, hfind, Option.none_or, List.find?_cons]
    have hpk2 : decide ((participantEventApply eventId mr mp mh now
        (blankParticipantRow employees k)).standardID = k) = true := hpk
    rw [hpk2]
    rfl

theorem eventStep_find_other (employees : List EmployeeRow)
    (absentIds : List String) (eventId : String) (mr mp mh : Option Bool)
    (now : String) (acc : List ParticipantRow × List (String × String))
    (k E : String) (hne : E ≠ k) :
    ((eventParticipantStep employees absentIds eventId mr mp mh now
        acc k).1).find? (fun p => decide (p.standardID = E)) =
      acc.1.find? (fun p => decide (p.standardID = E)) := by
  unfold eventParticipantStep
  dsimp only
  have hq : ∀ x : ParticipantRow,
      decide ((participantEventApply eventId mr mp mh now x).standardID = E) =
      decide (x.standardID = E) := fun x => rfl
  have hdisj : ∀ x : ParticipantRow, decide (x.standardID = k) = true →
      decide (x.standardID = E) = false := by
    intro x hx
    simp only [decide_eq_true_eq] at hx
    simp [hx, Ne.symm hne]
  by_cases hany : acc.1.any (fun p => decide (p.standardID = k)) = true
  · rw [if_pos hany]
    exact find?_updateFirst_ne hq hdisj acc.1
  · have hfind := find?_eq_none_of_any_eq_false hany
    rw [if_neg hany, updateFirst_append_of_none hfind]
    have hsingle : updateFirst (fun p => decide (p.standardID = k))
        (participantEventApply eventId mr mp mh now)
        [blankParticipantRow employees k] =
        [participantEventApply eventId mr mp mh now
          (blankParticipantRow employees k)] := by
      unfold updateFirst
      rw [if_pos (by simp [blankParticipantRow] :
        decide ((blankParticipantRow employees k).standardID = k) = true)]
    rw [hsingle, List.find?_append]
    have hlast : List.find? (fun p => decide (p.standardID = E))
        [participantEventApply eventId mr mp mh now
          (blankParticipantRow employees k)] = none := by
      rw [List.find?_cons]
      have : decide ((participantEventApply eventId mr mp mh now
          (blankParticipantRow employees k)).standardID = E) = false := by
        rw [hq]
        simp [blankParticipantRow, Ne.symm hne]
      rw [this]
      rfl
    rw [hlast, Option.or_none]

/-! ## C9: flag-free event updates still create participant rows -/

theorem participantEventApply_noflags (eventId : String)
    (mr mp mh : Option Bool) (now : String) (p : ParticipantRow)
    (hr : mr ≠ some true) (hp : mp ≠ some true) (hh : mh ≠ some true) :
    participantEventApply eventId mr mp mh now p =
      { p with
        eventsRegistered := cellOfSet (pySetOfCell p.eventsRegistered)
        eventsParticipated := cellOfSet (pySetOfCell p.eventsParticipated)
        eventsHosted := cellOfSet (pySetOfCell p.eventsHosted) } := by
  have h1 : ¬ (mr = some true ∧ eventId ∉ pySetOfCell p.eventsRegistered) :=
    fun hc => hr hc.1
  have h2 : ¬ (mp = some true ∧ eventId ∉ pySetOfCell p.eventsParticipated) :=
    fun hc => hp hc.1
  have h3 : ¬ (mh = some true ∧ eventId ∉ pySetOfCell p.eventsHosted) :=
    fun hc => hh hc.1
  have h4 : ¬ ((mr = some true ∧ eventId ∉ pySetOfCell p.eventsRegistered) ∨
      (mp = some true ∧ eventId ∉ pySetOfCell p.eventsParticipated) ∨
      (mh = some true ∧ eventId ∉ pySetOfCell p.eventsHosted)) := by
    rintro (hc | hc | hc)
    exacts [h1 hc, h2 hc, h3 hc]
  simp only [participantEventApply]
  rw [if_neg h1, if_neg h2, if_neg h3, if_neg h4]

theorem participantEventApply_noflags_blank (employees : List EmployeeRow)
    (k eventId : String) (mr mp mh : Option Bool) (now : String)
    (hr : mr ≠ some true) (hp : mp ≠ some true) (hh : mh ≠ some true) :
    participantEventApply eventId mr mp mh now
      (blankParticipantRow employees k) = blankParticipantRow employees k := by
  rw [participantEventApply_noflags eventId mr mp mh now _ hr hp hh]
  rfl

theorem eventFold_find_frame (employees : List EmployeeRow)
    (absentIds : List String) (eventId : String) (mr mp mh : Option Bool)
    (now : String) (E : String) :
    ∀ (l : List String) (acc : List ParticipantRow × List (String × String)),
      E ∉ l →
      ((l.foldl (eventParticipantStep employees absentIds eventId mr mp mh
          now) acc).1).find? (fun p => decide (p.standardID = E)) =
        acc.1.find? (fun p => decide (p.standardID = E))
  | [], _, _ => rfl
  | a :: l, acc, hE => by
    rw [List.foldl_cons]
    rw [eventFold_find_frame employees absentIds eventId mr mp mh now E l _
      (fun hc => hE (List.mem_cons_of_mem _ hc))]
    exact eventStep_find_other employees absentIds eventId mr mp mh now acc
      a E (fun hc => hE (by rw [hc]; exact List.mem_cons_self _ _))

theorem eventFold_find_fixed (employees : List EmployeeRow)
    (absentIds : List String) (eventId : String) (mr mp mh : Option Bool)
    (now : String) (k : String) (q : ParticipantRow)
    (hq : participantEventApply eventId mr mp mh now q = q) :
    ∀ (l : List String) (acc : List ParticipantRow × List (String × String)),
      acc.1.find? (fun p => decide (p.standardID = k)) = some q →
      ((l.foldl (eventParticipantStep employees absentIds eventId mr mp mh
          now) acc).1).find? (fun p => decide (p.standardID = k)) = some q
  | [], _, h => h
  | a :: l, acc, h => by
    rw [List.foldl_cons]
    refine eventFold_find_fixed employees absentIds eventId mr mp mh now k q
      hq l _ ?_
    by_cases ha : a = k
    · rw [ha, eventStep_find_self employees absentIds eventId mr mp mh now
        acc k, h, Option.getD_some, hq]
    · rw [eventStep_find_other employees absentIds eventId mr mp mh now acc
        a k (fun hc => ha hc.symm)]
      exact h

theorem eventFold_noflags_creates (employees : List EmployeeRow)
    (absentIds : List String) (eventId : String) (mr mp mh : Option Bool)
    (now : String) (k : String)
    (hr : mr ≠ some true) (hp : mp ≠ some true) (hh : mh ≠ some true) :
    ∀ (l : List String) (acc : List ParticipantRow × List (String × String)),
      k ∈ l →
      acc.1.find? (fun p => decide (p.standardID = k)) = none →
      ((l.foldl (eventParticipantStep employees absentIds eventId mr mp mh
          now) acc).1).find? (fun p => decide (p.standardID = k)) =
        some (blankParticipantRow employees k)
  | [], _, hk, _ => absurd hk (List.not_mem_nil k)
  | a :: l, acc, hk, hnone => by
    rw [List.foldl_cons]
    by_cases ha : a = k
    · rw [ha]
      refine eventFold_find_fixed employees absentIds eventId mr mp mh now k
        (blankParticipantRow employees k)
        (participantEventApply_noflags_blank employees k eventId mr mp mh now
          hr hp hh) l _ ?_
      rw [eventStep_find_self employees absentIds eventId mr mp mh now acc k,
        hnone, Option.getD_none,
        participantEventApply_noflags_blank employees k eventId mr mp mh now
          hr hp hh]
    · have hk' : k ∈ l := by
        rcases List.mem_cons.mp hk with h | h
        · exact absurd h.symm ha
        · exact h
      refine eventFold_noflags_creates employees absentIds eventId mr mp mh
        now k hr hp hh l _ hk' ?_
      rw [eventStep_find_other employees absentIds eventId mr mp mh now acc
        a k (fun hc => ha hc.symm)]
      exact hnone

theorem eventRowApply_noflags_counts (empIds : List String)
    (mr mp mh : Option Bool) (r : EventRow)
    (hr : mr ≠ some true) (hp : mp ≠ some true) (hh : mh ≠ some true) :
    (eventRowApply empIds mr mp mh r).2 = (0, 0, 0) := by
  simp only [eventRowApply]
  rw [if_neg hr, if_neg hp, if_neg hh]

/-- Unfolding of `update_employee_event_status` on its main path: the event
key is nonempty and resolves, and the employee-key list is nonempty. -/
theorem updateEmployeeEventStatus_found {s : AppState}
    {empIds absentIds : List String} {eventId now : String}
    {mr mp mh : Option Bool} {ev : EventRow}
    (hev : findEvent s eventId = some ev) (hid : eventId ≠ "")
    (hne : empIds ≠ []) :
    updateEmployeeEventStatus s empIds absentIds eventId mr mp mh now =
      ({ s with
          events := updateFirst (fun r => decide (r.eventID = eventId))
            (fun _ => (eventRowApply empIds mr mp mh ev).1) s.events
          participants := (empIds.foldl
            (eventParticipantStep s.employees absentIds eventId mr mp mh now)
            (s.participants, s.couldNotFind)).1
          couldNotFind := (empIds.foldl
            (eventParticipantStep s.employees absentIds eventId mr mp mh now)
            (s.participants, s.couldNotFind)).2
          saves := s.saves ++ ["events", "participants"] },
        (eventRowApply empIds mr mp mh ev).2.1,
        (eventRowApply empIds mr mp mh ev).2.2.1,
        (eventRowApply empIds mr mp mh ev).2.2.2) := by
  have hcond : ¬ (eventId = "" ∨ empIds = []) := fun hc => hc.elim hid hne
  simp only [updateEmployeeEventStatus]
  rw [if_neg hcond, hev]

/-- C9: calling `update_employee_event_status` with an existing event key, a
nonempty employee-key list and no status flag set to `True` returns
`(0, 0, 0)`, yet still creates — for every employee key with no Participant
row — a fresh row whose `Waitlist` is `"No"` and whose `Email` is the key
itself when it contains `@`, else the employee's email when the key resolves,
else empty (`newParticipantEmail`), and records writes of both the events
table and the participants table. -/
theorem c9_noflags_event_update (s : AppState)
    (empIds absentIds : List String) (eventId now : String)
    (mr mp mh : Option Bool) (ev : EventRow)
    (hev : findEvent s eventId = some ev) (hid : eventId ≠ "")
    (hne : empIds ≠ [])
    (hr : mr ≠ some true) (hp : mp ≠ some true) (hh : mh ≠ some true) :
    (updateEmployeeEventStatus s empIds absentIds eventId mr mp mh now).2 =
      (0, 0, 0) ∧
    (updateEmployeeEventStatus s empIds absentIds eventId mr mp mh
        now).1.saves = s.saves ++ ["events", "participants"] ∧
    ∀ k ∈ empIds, findParticipant s k = none →
      findParticipant
          (updateEmployeeEventStatus s empIds absentIds eventId mr mp mh
            now).1 k = some (blankParticipantRow s.employees k) ∧
      (blankParticipantRow s.employees k).waitlist = "No" ∧
      (blankParticipantRow s.employees k).email =
        newParticipantEmail s.employees k := by
  rw [updateEmployeeEventStatus_found hev hid hne]
  refine ⟨?_, rfl, ?_⟩
  · show (eventRowApply empIds mr mp mh ev).2 = (0, 0, 0)
    exact eventRowApply_noflags_counts empIds mr mp mh ev hr hp hh
  · intro k hk hnonep
    refine ⟨?_, rfl, rfl⟩
    show (empIds.foldl
        (eventParticipantStep s.employees absentIds eventId mr mp mh now)
        (s.participants, s.couldNotFind)).1.find?
        (fun p => decide (p.standardID = k)) =
      some (blankParticipantRow s.employees k)
    exact eventFold_noflags_creates s.employees absentIds eventId mr mp mh
      now k hr hp hh empIds (s.participants, s.couldNotFind) hk hnonep

theorem c9_witness :
    (updateEmployeeEventStatus exEventState ["E1"] [] "D20240101-01" none
        none none "t").2 = (0, 0, 0) ∧
    (updateEmployeeEventStatus exEventState ["E1"] [] "D20240101-01" none
        none none "t").1.saves = [] ++ ["events", "participants"] ∧
    ∀ k ∈ ["E1"], findParticipant exEventState k = none →
      findParticipant
          (updateEmployeeEventStatus exEventState ["E1"] [] "D20240101-01"
            none none none "t").1 k =
        some (blankParticipantRow exEventState.employees k) ∧
      (blankParticipantRow exEventState.employees k).waitlist = "No" ∧
      (blankParticipantRow exEventState.employees k).email =
        newParticipantEmail exEventState.employees k :=
  c9_noflags_event_update exEventState ["E1"] [] "D20240101-01" "t" none
    none none
    { eventID := "D20240101-01", name := "Demo day", category := "Demo" }
    (by decide) (by decide) (by decide) (by decide) (by decide) (by decide)

/-! ## C4: the reported counts are the cell-size deltas -/

theorem commaFree_union_cell {cell : String} {empIds : List String}
    (hfree : ∀ k ∈ empIds, commaFree k) :
    ∀ x ∈ pyUnion (pySetOfCell cell) empIds, commaFree x := by
  intro x hx
  rcases mem_pyUnion.mp hx with h | h
  · exact commaFree_of_mem_pySetOfCell h
  · exact hfree x h

theorem commaFree_diff_cell {cell : String} {empIds : List String} :
    ∀ x ∈ pyDiff (pySetOfCell cell) empIds, commaFree x := by
  intro x hx
  exact commaFree_of_mem_pySetOfCell (mem_pyDiff.mp hx).1

theorem union_dedup_ge (cell : String) (empIds : List String) :
    (pyDiff (pySetOfCell cell) [""]).length ≤
      ((pyUnion (pySetOfCell cell) empIds).filter
        (fun x => x ≠ "")).dedup.length := by
  refine nodup_length_le_of_subset (nodup_pyDiff (nodup_pySetOfCell cell))
    (List.nodup_dedup _) fun x hx => ?_
  rcases mem_pyDiff.mp hx with ⟨h1, h2⟩
  rw [List.mem_dedup, List.mem_filter]
  refine ⟨mem_pyUnion.mpr (Or.inl h1), ?_⟩
  simp only [List.mem_singleton] at h2
  simpa using h2

theorem diff_dedup_le (cell : String) (empIds : List String) :
    ((pyDiff (pySetOfCell cell) empIds).filter
      (fun x => x ≠ "")).dedup.length ≤
      (pyDiff (pySetOfCell cell) [""]).length := by
  refine nodup_length_le_of_subset (List.nodup_dedup _)
    (nodup_pyDiff (nodup_pySetOfCell cell)) fun x hx => ?_
  rw [List.mem_dedup, List.mem_filter] at hx
  rcases hx with ⟨h1, h2⟩
  rw [mem_pyDiff]
  refine ⟨(mem_pyDiff.mp h1).1, ?_⟩
  simp only [List.mem_singleton]
  simpa using h2

theorem cellCard_norm (cell : String) :
    cellCard (cellOfSet (pySetOfCell cell)) = cellCard cell := by
  rw [cellCard_cellOfSet (fun x hx => commaFree_of_mem_pySetOfCell hx),
    ← cellCard_eq_diff_length]
  refine nodup_length_eq_of_mem_iff (List.nodup_dedup _)
    (nodup_pyDiff (nodup_pySetOfCell cell)) fun x => ?_
  rw [List.mem_dedup, List.mem_filter, mem_pyDiff]
  simp

theorem event_dim_count (cell : String) (empIds : List String) (c : Prop)
    [Decidable c] (hfree : ∀ k ∈ empIds, commaFree k) :
    (if c then
        (((pySplitChar ',' (cellOfSet (if c then
              pyUnion (pySetOfCell cell) empIds
            else pySetOfCell cell))).filter
            (fun x => x ≠ "")).dedup.length : Int) -
          ((pyDiff (pySetOfCell cell) [""]).length : Int)
      else 0) =
      (cellCard (cellOfSet (if c then pyUnion (pySetOfCell cell) empIds
          else pySetOfCell cell)) : Int) - (cellCard cell : Int) ∧
    0 ≤ (if c then
        (((pySplitChar ',' (cellOfSet (if c then
              pyUnion (pySetOfCell cell) empIds
            else pySetOfCell cell))).filter
            (fun x => x ≠ "")).dedup.length : Int) -
          ((pyDiff (pySetOfCell cell) [""]).length : Int)
      else 0) := by
  by_cases hc : c
  · simp only [if_pos hc]
    rw [cellCard_eq_split_length]
    have h2 := cellCard_eq_diff_length cell
    have h3 : cellCard cell ≤
        cellCard (cellOfSet (pyUnion (pySetOfCell cell) empIds)) := by
      rw [cellCard_cellOfSet (commaFree_union_cell hfree), ← h2]
      exact union_dedup_ge cell empIds
    exact ⟨by omega, by omega⟩
  · simp only [if_neg hc]
    rw [cellCard_norm]
    exact ⟨by omega, le_refl 0⟩

theorem cohort_dim_count (cell : String) (empIds : List String) (c : Prop)
    [Decidable c] (hfree : ∀ k ∈ empIds, commaFree k) :
    (if c then
        (((if c then pyUnion (pySetOfCell cell) empIds
            else pyDiff (pySetOfCell cell) empIds).filter
            (fun x => x ≠ "")).dedup.length : Int) -
          ((pyDiff (pySetOfCell cell) [""]).length : Int)
      else ((pyDiff (pySetOfCell cell) [""]).length : Int) -
        (((if c then pyUnion (pySetOfCell cell) empIds
            else pyDiff (pySetOfCell cell) empIds).filter
            (fun x => x ≠ "")).dedup.length : Int)) =
      (if c then
        (cellCard (cellOfSet (if c then pyUnion (pySetOfCell cell) empIds
            else pyDiff (pySetOfCell cell) empIds)) : Int) -
          (cellCard cell : Int)
       else (cellCard cell : Int) -
        (cellCard (cellOfSet (if c then pyUnion (pySetOfCell cell) empIds
            else pyDiff (pySetOfCell cell) empIds)) : Int)) ∧
    0 ≤ (if c then
        (((if c then pyUnion (pySetOfCell cell) empIds
            else pyDiff (pySetOfCell cell) empIds).filter
            (fun x => x ≠ "")).dedup.length : Int) -
          ((pyDiff (pySetOfCell cell) [""]).length : Int)
      else ((pyDiff (pySetOfCell cell) [""]).length : Int) -
        (((if c then pyUnion (pySetOfCell cell) empIds
            else pyDiff (pySetOfCell cell) empIds).filter
            (fun x => x ≠ "")).dedup.length : Int)) := by
  by_cases hc : c
  · simp only [if_pos hc]
    rw [cellCard_cellOfSet (commaFree_union_cell hfree)]
    have h1 := union_dedup_ge cell empIds
    have h2 := cellCard_eq_diff_length cell
    exact ⟨by omega, by omega⟩
  · simp only [if_neg hc]
    rw [cellCard_cellOfSet (commaFree_diff_cell)]
    have h1 := diff_dedup_le cell empIds
    have h2 := cellCard_eq_diff_length cell
    exact ⟨by omega, by omega⟩

theorem cohortDimApply_counts (empIds : List String)
    (actionType cell : String) (hfree : ∀ k ∈ empIds, commaFree k) :
    ((cohortDimApply empIds actionType cell).2 =
      if actionType = "add" then
        (cellCard (cohortDimApply empIds actionType cell).1 : Int) -
          (cellCard cell : Int)
      else (cellCard cell : Int) -
        (cellCard (cohortDimApply empIds actionType cell).1 : Int)) ∧
    0 ≤ (cohortDimApply empIds actionType cell).2 :=
  cohort_dim_count cell empIds (actionType = "add") hfree

theorem eventRowApply_counts (empIds : List String) (mr mp mh : Option Bool)
    (r : EventRow) (hfree : ∀ k ∈ empIds, commaFree k) :
    ((eventRowApply empIds mr mp mh r).2.1 =
        (cellCard (eventRowApply empIds mr mp mh r).1.registrations : Int) -
          (cellCard r.registrations : Int) ∧
      0 ≤ (eventRowApply empIds mr mp mh r).2.1) ∧
    ((eventRowApply empIds mr mp mh r).2.2.1 =
        (cellCard (eventRowApply empIds mr mp mh
            r).1.participantsCell : Int) -
          (cellCard r.participantsCell : Int) ∧
      0 ≤ (eventRowApply empIds mr mp mh r).2.2.1) ∧
    ((eventRowApply empIds mr mp mh r).2.2.2 =
        (cellCard (eventRowApply empIds mr mp mh r).1.hosted : Int) -
          (cellCard r.hosted : Int) ∧
      0 ≤ (eventRowApply empIds mr mp mh r).2.2.2) :=
  ⟨⟨(event_dim_count r.registrations empIds (mr = some true) hfree).1,
    (event_dim_count r.registrations empIds (mr = some true) hfree).2⟩,
   ⟨(event_dim_count r.participantsCell empIds (mp = some true) hfree).1,
    (event_dim_count r.participantsCell empIds (mp = some true) hfree).2⟩,
   ⟨(event_dim_count r.hosted empIds (mh = some true) hfree).1,
    (event_dim_count r.hosted empIds (mh = some true) hfree).2⟩⟩

theorem cohortRowApply_counts (empIds : List String) (mn mi mj : Bool)
    (actionType : String) (c : CohortRow)
    (hfree : ∀ k ∈ empIds, commaFree k) :
    ((cohortRowApply empIds mn mi mj actionType c).2.1 =
        (if actionType = "add" then
          (cellCard (cohortRowApply empIds mn mi mj actionType
              c).1.nominated : Int) - (cellCard c.nominated : Int)
         else (cellCard c.nominated : Int) -
          (cellCard (cohortRowApply empIds mn mi mj actionType
              c).1.nominated : Int)) ∧
      0 ≤ (cohortRowApply empIds mn mi mj actionType c).2.1) ∧
    ((cohortRowApply empIds mn mi mj actionType c).2.2.1 =
        (if actionType = "add" then
          (cellCard (cohortRowApply empIds mn mi mj actionType
              c).1.invited : Int) - (cellCard c.invited : Int)
         else (cellCard c.invited : Int) -
          (cellCard (cohortRowApply empIds mn mi mj actionType
              c).1.invited : Int)) ∧
      0 ≤ (cohortRowApply empIds mn mi mj actionType c).2.2.1) ∧
    ((cohortRowApply empIds mn mi mj actionType c).2.2.2 =
        (if actionType = "add" then
          (cellCard (cohortRowApply empIds mn mi mj actionType
              c).1.joined : Int) - (cellCard c.joined : Int)
         else (cellCard c.joined : Int) -
          (cellCard (cohortRowApply empIds mn mi mj actionType
              c).1.joined : Int)) ∧
      0 ≤ (cohortRowApply empIds mn mi mj actionType c).2.2.2) := by
  refine ⟨?_, ?_, ?_⟩
  · cases mn with
    | true => exact cohortDimApply_counts empIds actionType c.nominated hfree
    | false =>
      refine ⟨?_, le_refl 0⟩
      show (0 : Int) = if actionType = "add" then
          (cellCard c.nominated : Int) - (cellCard c.nominated : Int)
        else (cellCard c.nominated : Int) - (cellCard c.nominated : Int)
      by_cases hact : actionType = "add"
      · rw [if_pos hact]; omega
      · rw [if_neg hact]; omega
  · cases mi with
    | true => exact cohortDimApply_counts empIds actionType c.invited hfree
    | false =>
      refine ⟨?_, le_refl 0⟩
      show (0 : Int) = if actionType = "add" then
          (cellCard c.invited : Int) - (cellCard c.invited : Int)
        else (cellCard c.invited : Int) - (cellCard c.invited : Int)
      by_cases hact : actionType = "add"
      · rw [if_pos hact]; omega
      · rw [if_neg hact]; omega
  · cases mj with
    | true => exact cohortDimApply_counts empIds actionType c.joined hfree
    | false =>
      refine ⟨?_, le_refl 0⟩
      show (0 : Int) = if actionType = "add" then
          (cellCard c.joined : Int) - (cellCard c.joined : Int)
        else (cellCard c.joined : Int) - (cellCard c.joined : Int)
      by_cases hact : actionType = "add"
      · rw [if_pos hact]; omega
      · rw [if_neg hact]; omega

/-- Unfolding of `update_cohort_membership` on its main path: the cohort name
is nonempty and resolves, the employee-key list is nonempty, and at least one
dimension flag is set. -/
theorem updateCohortMembership_found {s : AppState} {cohortName : String}
    {empIds absentIds : List String} {mn mi mj : Bool}
    {nb nd actionType now : String} {c : CohortRow}
    (hco : findCohort s cohortName = some c) (hcn : cohortName ≠ "")
    (hne : empIds ≠ [])
    (hflag : ¬ (mn = false ∧ mi = false ∧ mj = false)) :
    updateCohortMembership s cohortName empIds absentIds mn mi mj nb nd
        actionType now =
      ({ s with
          cohorts := updateFirst (fun r => decide (r.name = cohortName))
            (fun _ => (cohortRowApply empIds mn mi mj actionType c).1)
            s.cohorts
          participants :=
            if (empIds.foldl (cohortParticipantStep s.employees absentIds
                cohortName mn mi mj actionType nb nd now)
                (s.participants, s.couldNotFind, false)).2.2 then
              (empIds.foldl (cohortParticipantStep s.employees absentIds
                cohortName mn mi mj actionType nb nd now)
                (s.participants, s.couldNotFind, false)).1
            else s.participants
          couldNotFind := (empIds.foldl (cohortParticipantStep s.employees
            absentIds cohortName mn mi mj actionType nb nd now)
            (s.participants, s.couldNotFind, false)).2.1
          saves := s.saves ++ ["cohorts"] ++
            (if (empIds.foldl (cohortParticipantStep s.employees absentIds
                cohortName mn mi mj actionType nb nd now)
                (s.participants, s.couldNotFind, false)).2.2 then
              ["participants"]
            else []) },
        (cohortRowApply empIds mn mi mj actionType c).2.1,
        (cohortRowApply empIds mn mi mj actionType c).2.2.1,
        (cohortRowApply empIds mn mi mj actionType c).2.2.2) := by
  have hcond : ¬ (cohortName = "" ∨ empIds = [] ∨
      (mn = false ∧ mi = false ∧ mj = false)) := by
    rintro (h | h | h)
    exacts [hcn h, hne h, hflag h]
  simp only [updateCohortMembership]
  rw [if_neg hcond, hco]

theorem eventRowApply_eventID (empIds : List String)
    (mr mp mh : Option Bool) (r : EventRow) :
    (eventRowApply empIds mr mp mh r).1.eventID = r.eventID := rfl

theorem cohortRowApply_name (empIds : List String) (mn mi mj : Bool)
    (actionType : String) (c : CohortRow) :
    (cohortRowApply empIds mn mi mj actionType c).1.name = c.name := rfl

/-- C4 (corrected): provided every employee key is comma-free, each count
returned by `update_employee_event_status` and `update_cohort_membership`
(flags pointing at existing records) is exactly the size of the owning
record's deduplicated, empty-entry-filtered list field (`cellCard`) after
the update minus its size before — before minus after for any non-`"add"`
cohort action — and is never negative; since `cellCard` counts distinct
nonempty entries, no key is counted twice.  Without the comma-free proviso
the original claim fails (`c4_counterexample`): a key containing a comma is
added as one element of the in-memory set but splits into several entries
when the cell is re-read. -/
theorem c4_counts_are_cell_deltas (s : AppState)
    (empIds absentIds : List String) (eventId cohortName : String)
    (mr mp mh : Option Bool) (mn mi mj : Bool)
    (nb nd actionType now now' : String) (ev : EventRow) (c : CohortRow)
    (hfree : ∀ k ∈ empIds, commaFree k)
    (hev : findEvent s eventId = some ev) (hid : eventId ≠ "")
    (hne : empIds ≠ [])
    (hco : findCohort s cohortName = some c) (hcn : cohortName ≠ "")
    (hflag : ¬ (mn = false ∧ mi = false ∧ mj = false)) :
    (findEvent (updateEmployeeEventStatus s empIds absentIds eventId mr mp
        mh now).1 eventId = some (eventRowApply empIds mr mp mh ev).1 ∧
      (updateEmployeeEventStatus s empIds absentIds eventId mr mp mh
          now).2.1 =
        (cellCard (eventRowApply empIds mr mp mh ev).1.registrations :
          Int) - (cellCard ev.registrations : Int) ∧
      0 ≤ (updateEmployeeEventStatus s empIds absentIds eventId mr mp mh
          now).2.1 ∧
      (updateEmployeeEventStatus s empIds absentIds eventId mr mp mh
          now).2.2.1 =
        (cellCard (eventRowApply empIds mr mp mh ev).1.participantsCell :
          Int) - (cellCard ev.participantsCell : Int) ∧
      0 ≤ (updateEmployeeEventStatus s empIds absentIds eventId mr mp mh
          now).2.2.1 ∧
      (updateEmployeeEventStatus s empIds absentIds eventId mr mp mh
          now).2.2.2 =
        (cellCard (eventRowApply empIds mr mp mh ev).1.hosted : Int) -
          (cellCard ev.hosted : Int) ∧
      0 ≤ (updateEmployeeEventStatus s empIds absentIds eventId mr mp mh
          now).2.2.2) ∧
    (findCohort (updateCohortMembership s cohortName empIds absentIds mn mi
        mj nb nd actionType now').1 cohortName =
      some (cohortRowApply empIds mn mi mj actionType c).1 ∧
      (updateCohortMembership s cohortName empIds absentIds mn mi mj nb nd
          actionType now').2.1 =
        (if actionType = "add" then
          (cellCard (cohortRowApply empIds mn mi mj actionType
              c).1.nominated : Int) - (cellCard c.nominated : Int)
         else (cellCard c.nominated : Int) -
          (cellCard (cohortRowApply empIds mn mi mj actionType
              c).1.nominated : Int)) ∧
      0 ≤ (updateCohortMembership s cohortName empIds absentIds mn mi mj nb
          nd actionType now').2.1 ∧
      (updateCohortMembership s cohortName empIds absentIds mn mi mj nb nd
          actionType now').2.2.1 =
        (if actionType = "add" then
          (cellCard (cohortRowApply empIds mn mi mj actionType
              c).1.invited : Int) - (cellCard c.invited : Int)
         else (cellCard c.invited : Int) -
          (cellCard (cohortRowApply empIds mn mi mj actionType
              c).1.invited : Int)) ∧
      0 ≤ (updateCohortMembership s cohortName empIds absentIds mn mi mj nb
          nd actionType now').2.2.1 ∧
      (updateCohortMembership s cohortName empIds absentIds mn mi mj nb nd
          actionType now').2.2.2 =
        (if actionType = "add" then
          (cellCard (cohortRowApply empIds mn mi mj actionType
              c).1.joined : Int) - (cellCard c.joined : Int)
         else (cellCard c.joined : Int) -
          (cellCard (cohortRowApply empIds mn mi mj actionType
              c).1.joined : Int)) ∧
      0 ≤ (updateCohortMembership s cohortName empIds absentIds mn mi mj nb
          nd actionType now').2.2.2) := by
  rw [updateEmployeeEventStatus_found hev hid hne,
    updateCohortMembership_found hco hcn hne hflag]
  have hfinde : s.events.find? (fun r => decide (r.eventID = eventId)) =
      some ev := hev
  have hfindc : s.cohorts.find? (fun r => decide (r.name = cohortName)) =
      some c := hco
  have hkey := List.find?_some hfinde
  have hname := List.find?_some hfindc
  have hec := eventRowApply_counts empIds mr mp mh ev hfree
  have hcc := cohortRowApply_counts empIds mn mi mj actionType c hfree
  refine ⟨⟨?_, hec.1.1, hec.1.2, hec.2.1.1, hec.2.1.2, hec.2.2.1,
      hec.2.2.2⟩,
    ?_, hcc.1.1, hcc.1.2, hcc.2.1.1, hcc.2.1.2, hcc.2.2.1, hcc.2.2.2⟩
  · refine find?_updateFirst_self hfinde ?_
    show decide ((eventRowApply empIds mr mp mh ev).1.eventID = eventId) =
      true
    rw [eventRowApply_eventID]
    exact hkey
  · refine find?_updateFirst_self hfindc ?_
    show decide ((cohortRowApply empIds mn mi mj actionType c).1.name =
      cohortName) = true
    rw [cohortRowApply_name]
    exact hname

theorem c4_witness :
    (findEvent (updateEmployeeEventStatus exEventCohortState ["E1"] []
        "D20240101-01" (some true) none none "t").1 "D20240101-01" =
      some (eventRowApply ["E1"] (some true) none none
        { eventID := "D20240101-01", name := "Demo day",
          category := "Demo" }).1 ∧
      (updateEmployeeEventStatus exEventCohortState ["E1"] []
          "D20240101-01" (some true) none none "t").2.1 =
        (cellCard (eventRowApply ["E1"] (some true) none none
            { eventID := "D20240101-01", name := "Demo day",
              category := "Demo" }).1.registrations : Int) -
          (cellCard ("" : String) : Int) ∧
      0 ≤ (updateEmployeeEventStatus exEventCohortState ["E1"] []
          "D20240101-01" (some true) none none "t").2.1 ∧
      (updateEmployeeEventStatus exEventCohortState ["E1"] []
          "D20240101-01" (some true) none none "t").2.2.1 =
        (cellCard (eventRowApply ["E1"] (some true) none none
            { eventID := "D20240101-01", name := "Demo day",
              category := "Demo" }).1.participantsCell : Int) -
          (cellCard ("" : String) : Int) ∧
      0 ≤ (updateEmployeeEventStatus exEventCohortState ["E1"] []
          "D20240101-01" (some true) none none "t").2.2.1 ∧
      (updateEmployeeEventStatus exEventCohortState ["E1"] []
          "D20240101-01" (some true) none none "t").2.2.2 =
        (cellCard (eventRowApply ["E1"] (some true) none none
            { eventID := "D20240101-01", name := "Demo day",
              category := "Demo" }).1.hosted : Int) -
          (cellCard ("" : String) : Int) ∧
      0 ≤ (updateEmployeeEventStatus exEventCohortState ["E1"] []
          "D20240101-01" (some true) none none "t").2.2.2) ∧
    (findCohort (updateCohortMembership exEventCohortState "Cohort1" ["E1"]
        [] true false false "" "" "add" "t2").1 "Cohort1" =
      some (cohortRowApply ["E1"] true false false "add"
        { name := "Cohort1", nominated := "E2" }).1 ∧
      (updateCohortMembership exEventCohortState "Cohort1" ["E1"] [] true
          false false "" "" "add" "t2").2.1 =
        (if ("add" : String) = "add" then
          (cellCard (cohortRowApply ["E1"] true false false "add"
              { name := "Cohort1", nominated := "E2" }).1.nominated :
            Int) - (cellCard ("E2" : String) : Int)
         else (cellCard ("E2" : String) : Int) -
          (cellCard (cohortRowApply ["E1"] true false false "add"
              { name := "Cohort1", nominated := "E2" }).1.nominated :
            Int)) ∧
      0 ≤ (updateCohortMembership exEventCohortState "Cohort1" ["E1"] []
          true false false "" "" "add" "t2").2.1 ∧
      (updateCohortMembership exEventCohortState "Cohort1" ["E1"] [] true
          false false "" "" "add" "t2").2.2.1 =
        (if ("add" : String) = "add" then
          (cellCard (cohortRowApply ["E1"] true false false "add"
              { name := "Cohort1", nominated := "E2" }).1.invited : Int) -
            (cellCard ("" : String) : Int)
         else (cellCard ("" : String) : Int) -
          (cellCard (cohortRowApply ["E1"] true false false "add"
              { name := "Cohort1", nominated := "E2" }).1.invited : Int)) ∧
      0 ≤ (updateCohortMembership exEventCohortState "Cohort1" ["E1"] []
          true false false "" "" "add" "t2").2.2.1 ∧
      (updateCohortMembership exEventCohortState "Cohort1" ["E1"] [] true
          false false "" "" "add" "t2").2.2.2 =
        (if ("add" : String) = "add" then
          (cellCard (cohortRowApply ["E1"] true false false "add"
              { name := "Cohort1", nominated := "E2" }).1.joined : Int) -
            (cellCard ("" : String) : Int)
         else (cellCard ("" : String) : Int) -
          (cellCard (cohortRowApply ["E1"] true false false "add"
              { name := "Cohort1", nominated := "E2" }).1.joined : Int)) ∧
      0 ≤ (updateCohortMembership exEventCohortState "Cohort1" ["E1"] []
          true false false "" "" "add" "t2").2.2.2) :=
  c4_counts_are_cell_deltas exEventCohortState ["E1"] [] "D20240101-01"
    "Cohort1" (some true) none none true false false "" "" "add" "t" "t2"
    { eventID := "D20240101-01", name := "Demo day", category := "Demo" }
    { name := "Cohort1", nominated := "E2" }
    (by decide) (by decide) (by decide) (by decide) (by decide) (by decide)
    (by decide)

/-- C4 counterexample for the original claim: adding the comma-containing
key `"A,B"` to an empty cohort makes the code report a delta of `1` (one
element entered the in-memory set), but the nominated cell becomes `"A,B"`,
whose deduplicated, empty-entry-filtered size minus the size before is
`2 - 0 = 2`. -/
theorem c4_counterexample :
    findCohort exCohortOnlyState "C1" = some { name := "C1" } ∧
    findCohort (updateCohortMembership exCohortOnlyState "C1" ["A,B"] []
        true false false "" "" "add" "t").1 "C1" =
      some { name := "C1", nominated := "A,B" } ∧
    (updateCohortMembership exCohortOnlyState "C1" ["A,B"] [] true false
        false "" "" "add" "t").2.1 ≠
      (cellCard "A,B" : Int) - (cellCard "" : Int) := by
  refine ⟨rfl, rfl, ?_⟩
  decide

/-! ## C2: idempotence of the event-status update -/

theorem union_set_facts (cell : String) (empIds : List String) (c : Prop)
    [Decidable c] (hfree : ∀ k ∈ empIds, commaFree k) :
    (if c then pyUnion (pySetOfCell cell) empIds
      else pySetOfCell cell).Nodup ∧
    (∀ x ∈ (if c then pyUnion (pySetOfCell cell) empIds
      else pySetOfCell cell), commaFree x) ∧
    (c → ∀ k ∈ empIds, k ∈ (if c then pyUnion (pySetOfCell cell) empIds
      else pySetOfCell cell)) := by
  by_cases hc : c
  · simp only [if_pos hc]
    exact ⟨nodup_pyUnion (nodup_pySetOfCell cell),
      commaFree_union_cell hfree,
      fun _ k hk => mem_pyUnion.mpr (Or.inr hk)⟩
  · simp only [if_neg hc]
    exact ⟨nodup_pySetOfCell cell,
      fun x hx => commaFree_of_mem_pySetOfCell hx,
      fun hcc => absurd hcc hc⟩

theorem union_norm_stable (S : List String) (empIds : List String)
    (c : Prop) [Decidable c] (hnd : S.Nodup)
    (hfree : ∀ x ∈ S, commaFree x) (hsub : c → ∀ k ∈ empIds, k ∈ S) :
    cellOfSet (if c then pyUnion (pySetOfCell (cellOfSet S)) empIds
      else pySetOfCell (cellOfSet S)) = cellOfSet S := by
  have hset := pySetOfCell_cellOfSet hnd hfree
  by_cases hc : c
  · rw [if_pos hc, hset]
    refine cellOfSet_congr_ne
      (nodup_pyUnion (nodup_pySortedList (hnd.filter _))) hnd ?_
    intro x hx
    rw [mem_pyUnion, mem_pySortedList, List.mem_filter]
    constructor
    · rintro (⟨h1, _⟩ | h1)
      · exact h1
      · exact hsub hc x h1
    · intro h1
      exact Or.inl ⟨h1, by simpa using hx⟩
  · rw [if_neg hc, hset]
    refine cellOfSet_congr_ne (nodup_pySortedList (hnd.filter _)) hnd ?_
    intro x hx
    rw [mem_pySortedList, List.mem_filter]
    constructor
    · rintro ⟨h1, _⟩; exact h1
    · intro h1; exact ⟨h1, by simpa using hx⟩

theorem norm_dim_zero (S : List String) (empIds : List String) (c : Prop)
    [Decidable c] (hnd : S.Nodup) (hfree : ∀ x ∈ S, commaFree x)
    (hsub : c → ∀ k ∈ empIds, k ∈ S) :
    (if c then
        (((pySplitChar ',' (cellOfSet (if c then
              pyUnion (pySetOfCell (cellOfSet S)) empIds
            else pySetOfCell (cellOfSet S)))).filter
            (fun x => x ≠ "")).dedup.length : Int) -
          ((pyDiff (pySetOfCell (cellOfSet S)) [""]).length : Int)
      else 0) = 0 := by
  have hcell := union_norm_stable S empIds c hnd hfree hsub
  rw [cellCard_eq_split_length, hcell, cellCard_eq_diff_length]
  by_cases hc : c
  · rw [if_pos hc]; omega
  · rw [if_neg hc]

theorem eventRow_eq {a b : EventRow} (h1 : a.eventID = b.eventID)
    (h2 : a.name = b.name) (h3 : a.date = b.date)
    (h4 : a.category = b.category) (h5 : a.workshop = b.workshop)
    (h6 : a.hosted = b.hosted) (h7 : a.registrations = b.registrations)
    (h8 : a.participantsCell = b.participantsCell) : a = b := by
  cases a
  cases b
  rw [EventRow.mk.injEq]
  exact ⟨h1, h2, h3, h4, h5, h6, h7, h8⟩

theorem eventRowApply_stable (empIds : List String)
    (mr mp mh : Option Bool) (r : EventRow)
    (hfree : ∀ k ∈ empIds, commaFree k) :
    (eventRowApply empIds mr mp mh (eventRowApply empIds mr mp mh r).1).1 =
      (eventRowApply empIds mr mp mh r).1 ∧
    (eventRowApply empIds mr mp mh (eventRowApply empIds mr mp mh r).1).2 =
      (0, 0, 0) := by
  have f1 := union_set_facts r.hosted empIds (mh = some true) hfree
  have f2 := union_set_facts r.registrations empIds (mr = some true) hfree
  have f3 := union_set_facts r.participantsCell empIds (mp = some true)
    hfree
  constructor
  · refine eventRow_eq rfl rfl rfl rfl rfl ?_ ?_ ?_
    · exact union_norm_stable _ empIds (mh = some true) f1.1 f1.2.1 f1.2.2
    · exact union_norm_stable _ empIds (mr = some true) f2.1 f2.2.1 f2.2.2
    · exact union_norm_stable _ empIds (mp = some true) f3.1 f3.2.1 f3.2.2
  · refine Prod.ext ?_ (Prod.ext ?_ ?_)
    · exact norm_dim_zero _ empIds (mr = some true) f2.1 f2.2.1 f2.2.2
    · exact norm_dim_zero _ empIds (mp = some true) f3.1 f3.2.1 f3.2.2
    · exact norm_dim_zero _ empIds (mh = some true) f1.1 f1.2.1 f1.2.2

theorem dim_add_facts (cell eventId : String) (c : Prop) [Decidable c]
    (hfe : commaFree eventId) (hid : eventId ≠ "") :
    cellOfSet (pySetOfCell (cellOfSet (if c ∧ eventId ∉ pySetOfCell cell
        then pyAdd (pySetOfCell cell) eventId else pySetOfCell cell))) =
      cellOfSet (if c ∧ eventId ∉ pySetOfCell cell then
        pyAdd (pySetOfCell cell) eventId else pySetOfCell cell) ∧
    (c → eventId ∈ pySetOfCell (cellOfSet (if c ∧ eventId ∉ pySetOfCell
        cell then pyAdd (pySetOfCell cell) eventId
      else pySetOfCell cell))) := by
  have hnd : (if c ∧ eventId ∉ pySetOfCell cell then
      pyAdd (pySetOfCell cell) eventId else pySetOfCell cell).Nodup := by
    by_cases hcc : c ∧ eventId ∉ pySetOfCell cell
    · rw [if_pos hcc]; exact nodup_pyAdd eventId (nodup_pySetOfCell cell)
    · rw [if_neg hcc]; exact nodup_pySetOfCell cell
  have hfr : ∀ x ∈ (if c ∧ eventId ∉ pySetOfCell cell then
      pyAdd (pySetOfCell cell) eventId else pySetOfCell cell),
      commaFree x := by
    intro x hx
    by_cases hcc : c ∧ eventId ∉ pySetOfCell cell
    · rw [if_pos hcc] at hx
      rcases mem_pyAdd.mp hx with h | h
      · exact commaFree_of_mem_pySetOfCell h
      · rw [h]; exact hfe
    · rw [if_neg hcc] at hx
      exact commaFree_of_mem_pySetOfCell hx
  constructor
  · rw [pySetOfCell_cellOfSet hnd hfr]
    refine cellOfSet_congr_ne (nodup_pySortedList (hnd.filter _)) hnd ?_
    intro x hx
    rw [mem_pySortedList, List.mem_filter]
    constructor
    · rintro ⟨h1, _⟩; exact h1
    · intro h1; exact ⟨h1, by simpa using hx⟩
  · intro hc
    have hmem : eventId ∈ (if c ∧ eventId ∉ pySetOfCell cell then
        pyAdd (pySetOfCell cell) eventId else pySetOfCell cell) := by
      by_cases hcc : c ∧ eventId ∉ pySetOfCell cell
      · rw [if_pos hcc]; exact mem_pyAdd.mpr (Or.inr rfl)
      · rw [if_neg hcc]
        by_cases hin : eventId ∈ pySetOfCell cell
        · exact hin
        · exact absurd ⟨hc, hin⟩ hcc
    exact (mem_pySetOfCell_cellOfSet hfr).mpr ⟨hmem, hid⟩

theorem participantEventApply_eq_self (eventId : String)
    (mr mp mh : Option Bool) (now : String) (p : ParticipantRow)
    (h1 : cellOfSet (pySetOfCell p.eventsRegistered) = p.eventsRegistered)
    (h2 : cellOfSet (pySetOfCell p.eventsParticipated) =
      p.eventsParticipated)
    (h3 : cellOfSet (pySetOfCell p.eventsHosted) = p.eventsHosted)
    (hr : mr = some true → eventId ∈ pySetOfCell p.eventsRegistered)
    (hp : mp = some true → eventId ∈ pySetOfCell p.eventsParticipated)
    (hh : mh = some true → eventId ∈ pySetOfCell p.eventsHosted) :
    participantEventApply eventId mr mp mh now p = p := by
  have hc1 : ¬ (mr = some true ∧
      eventId ∉ pySetOfCell p.eventsRegistered) := fun hc => hc.2 (hr hc.1)
  have hc2 : ¬ (mp = some true ∧
      eventId ∉ pySetOfCell p.eventsParticipated) :=
    fun hc => hc.2 (hp hc.1)
  have hc3 : ¬ (mh = some true ∧ eventId ∉ pySetOfCell p.eventsHosted) :=
    fun hc => hc.2 (hh hc.1)
  have hc4 : ¬ ((mr = some true ∧
      eventId ∉ pySetOfCell p.eventsRegistered) ∨
      (mp = some true ∧ eventId ∉ pySetOfCell p.eventsParticipated) ∨
      (mh = some true ∧ eventId ∉ pySetOfCell p.eventsHosted)) := by
    rintro (hc | hc | hc)
    exacts [hc1 hc, hc2 hc, hc3 hc]
  simp only [participantEventApply]
  rw [if_neg hc1, if_neg hc2, if_neg hc3, if_neg hc4, h1, h2, h3]

theorem participantEventApply_idem (eventId : String)
    (mr mp mh : Option Bool) (now now' : String) (p : ParticipantRow)
    (hfe : commaFree eventId) (hid : eventId ≠ "") :
    participantEventApply eventId mr mp mh now'
        (participantEventApply eventId mr mp mh now p) =
      participantEventApply eventId mr mp mh now p := by
  have d1 := dim_add_facts p.eventsRegistered eventId (mr = some true) hfe
    hid
  have d2 := dim_add_facts p.eventsParticipated eventId (mp = some true)
    hfe hid
  have d3 := dim_add_facts p.eventsHosted eventId (mh = some true) hfe hid
  exact participantEventApply_eq_self eventId mr mp mh now' _ d1.1 d2.1
    d3.1 d1.2 d2.2 d3.2

theorem eventFold_find_applied (employees : List EmployeeRow)
    (absentIds : List String) (eventId : String) (mr mp mh : Option Bool)
    (now : String) (k : String) :
    ∀ (l : List String)
      (acc : List ParticipantRow × List (String × String)), k ∈ l →
      ∃ r, ((l.foldl (eventParticipantStep employees absentIds eventId mr
          mp mh now) acc).1).find? (fun p => decide (p.standardID = k)) =
        some (participantEventApply eventId mr mp mh now r)
  | [], _, hk => absurd hk (List.not_mem_nil k)
  | a :: l, acc, hk => by
    rw [List.foldl_cons]
    by_cases hkl : k ∈ l
    · exact eventFold_find_applied employees absentIds eventId mr mp mh now
        k l _ hkl
    · have ha : a = k := by
        rcases List.mem_cons.mp hk with h | h
        · exact h.symm
        · exact absurd h hkl
      rw [ha]
      rw [eventFold_find_frame employees absentIds eventId mr mp mh now k l
        _ hkl]
      rw [eventStep_find_self employees absentIds eventId mr mp mh now acc
        k]
      exact ⟨_, rfl⟩

theorem eventFold_participants_id (employees : List EmployeeRow)
    (absentIds : List String) (eventId : String) (mr mp mh : Option Bool)
    (now : String) :
    ∀ (l : List String)
      (acc : List ParticipantRow × List (String × String)),
      (∀ k ∈ l, ∃ q, acc.1.find? (fun p => decide (p.standardID = k)) =
        some q ∧ participantEventApply eventId mr mp mh now q = q) →
      ((l.foldl (eventParticipantStep employees absentIds eventId mr mp mh
        now) acc).1) = acc.1
  | [], _, _ => rfl
  | a :: l, acc, h => by
    rw [List.foldl_cons]
    obtain ⟨q, hfq, hq⟩ := h a (List.mem_cons_self _ _)
    have hstep1 : (eventParticipantStep employees absentIds eventId mr mp
        mh now acc a).1 = acc.1 := by
      unfold eventParticipantStep
      dsimp only
      rw [if_pos (any_eq_true_of_find? hfq)]
      refine updateFirst_eq_self fun b hb => ?_
      rw [hfq] at hb
      injection hb with hb
      rw [hb] at hq
      exact hq
    have hrest : ∀ k ∈ l, ∃ q', (eventParticipantStep employees absentIds
        eventId mr mp mh now acc a).1.find?
        (fun p => decide (p.standardID = k)) = some q' ∧
        participantEventApply eventId mr mp mh now q' = q' := by
      intro k hk
      obtain ⟨q', hfq', hq'⟩ := h k (List.mem_cons_of_mem _ hk)
      exact ⟨q', by rw [hstep1]; exact hfq', hq'⟩
    rw [eventFold_participants_id employees absentIds eventId mr mp mh now
      l _ hrest, hstep1]

/-- C2 (corrected): provided every employee key and the event key are
comma-free, calling `update_employee_event_status` twice with the same
arguments (the second call possibly at a later timestamp) leaves all five
on-disk tables exactly as after the first call, and the second call reports
`(0, 0, 0)` newly-added counts.  Without the comma-free proviso the claim is
false (`c2_counterexample`): a comma-containing key re-splits on re-read and
is re-added in pieces by the second call. -/
theorem c2_event_update_idempotent (s : AppState)
    (empIds absentIds : List String) (eventId now now' : String)
    (mr mp mh : Option Bool) (ev : EventRow)
    (hfree : ∀ k ∈ empIds, commaFree k) (hfe : commaFree eventId)
    (hev : findEvent s eventId = some ev) :
    (updateEmployeeEventStatus (updateEmployeeEventStatus s empIds
        absentIds eventId mr mp mh now).1 empIds absentIds eventId mr mp mh
        now').1.employees =
      (updateEmployeeEventStatus s empIds absentIds eventId mr mp mh
        now).1.employees ∧
    (updateEmployeeEventStatus (updateEmployeeEventStatus s empIds
        absentIds eventId mr mp mh now).1 empIds absentIds eventId mr mp mh
        now').1.workshops =
      (updateEmployeeEventStatus s empIds absentIds eventId mr mp mh
        now).1.workshops ∧
    (updateEmployeeEventStatus (updateEmployeeEventStatus s empIds
        absentIds eventId mr mp mh now).1 empIds absentIds eventId mr mp mh
        now').1.cohorts =
      (updateEmployeeEventStatus s empIds absentIds eventId mr mp mh
        now).1.cohorts ∧
    (updateEmployeeEventStatus (updateEmployeeEventStatus s empIds
        absentIds eventId mr mp mh now).1 empIds absentIds eventId mr mp mh
        now').1.events =
      (updateEmployeeEventStatus s empIds absentIds eventId mr mp mh
        now).1.events ∧
    (updateEmployeeEventStatus (updateEmployeeEventStatus s empIds
        absentIds eventId mr mp mh now).1 empIds absentIds eventId mr mp mh
        now').1.participants =
      (updateEmployeeEventStatus s empIds absentIds eventId mr mp mh
        now).1.participants ∧
    (updateEmployeeEventStatus (updateEmployeeEventStatus s empIds
        absentIds eventId mr mp mh now).1 empIds absentIds eventId mr mp mh
        now').2 = (0, 0, 0) := by
  by_cases hdeg : eventId = "" ∨ empIds = []
  · have hz : ∀ (st : AppState) (nw : String),
        updateEmployeeEventStatus st empIds absentIds eventId mr mp mh nw =
          (st, 0, 0, 0) := by
      intro st nw
      simp only [updateEmployeeEventStatus]
      rw [if_pos hdeg]
    simp only [hz]
    exact ⟨trivial, trivial, trivial, trivial, trivial, trivial⟩
  · push_neg at hdeg
    obtain ⟨hid, hne⟩ := hdeg
    have hfinde : s.events.find? (fun r => decide (r.eventID = eventId)) =
        some ev := hev
    have hkey := List.find?_some hfinde
    have hpred : (fun r => decide (r.eventID = eventId))
        ((fun _ => (eventRowApply empIds mr mp mh ev).1) ev) = true := by
      show decide ((eventRowApply empIds mr mp mh ev).1.eventID = eventId) =
        true
      rw [eventRowApply_eventID]
      exact hkey
    have hfind1 : (updateEmployeeEventStatus s empIds absentIds eventId mr
        mp mh now).1.events.find?
        (fun r => decide (r.eventID = eventId)) =
        some ((fun _ => (eventRowApply empIds mr mp mh ev).1) ev) := by
      rw [updateEmployeeEventStatus_found hev hid hne]
      exact find?_updateFirst_self hfinde hpred
    have hev1 : findEvent (updateEmployeeEventStatus s empIds absentIds
        eventId mr mp mh now).1 eventId =
        some (eventRowApply empIds mr mp mh ev).1 := hfind1
    rw [updateEmployeeEventStatus_found hev1 hid hne]
    refine ⟨rfl, rfl, rfl, ?_, ?_, ?_⟩
    · refine updateFirst_eq_self fun b hb => ?_
      rw [hfind1] at hb
      injection hb with hb
      rw [← hb]
      exact (eventRowApply_stable empIds mr mp mh ev hfree).1
    · refine eventFold_participants_id _ absentIds eventId mr mp mh now'
        empIds _ ?_
      intro k hk
      have happ : ∃ r, (updateEmployeeEventStatus s empIds absentIds
          eventId mr mp mh now).1.participants.find?
          (fun p => decide (p.standardID = k)) =
          some (participantEventApply eventId mr mp mh now r) := by
        rw [updateEmployeeEventStatus_found hev hid hne]
        exact eventFold_find_applied s.employees absentIds eventId mr mp mh
          now k empIds (s.participants, s.couldNotFind) hk
      obtain ⟨r, hr⟩ := happ
      exact ⟨participantEventApply eventId mr mp mh now r, hr,
        participantEventApply_idem eventId mr mp mh now now' r hfe hid⟩
    · exact (eventRowApply_stable empIds mr mp mh ev hfree).2

theorem c2_witness :
    (updateEmployeeEventStatus (updateEmployeeEventStatus exEventState
        ["E1"] [] "D20240101-01" (some true) none none "t").1 ["E1"] []
        "D20240101-01" (some true) none none "t2").1.employees =
      (updateEmployeeEventStatus exEventState ["E1"] [] "D20240101-01"
        (some true) none none "t").1.employees ∧
    (updateEmployeeEventStatus (updateEmployeeEventStatus exEventState
        ["E1"] [] "D20240101-01" (some true) none none "t").1 ["E1"] []
        "D20240101-01" (some true) none none "t2").1.workshops =
      (updateEmployeeEventStatus exEventState ["E1"] [] "D20240101-01"
        (some true) none none "t").1.workshops ∧
    (updateEmployeeEventStatus (updateEmployeeEventStatus exEventState
        ["E1"] [] "D20240101-01" (some true) none none "t").1 ["E1"] []
        "D20240101-01" (some true) none none "t2").1.cohorts =
      (updateEmployeeEventStatus exEventState ["E1"] [] "D20240101-01"
        (some true) none none "t").1.cohorts ∧
    (updateEmployeeEventStatus (updateEmployeeEventStatus exEventState
        ["E1"] [] "D20240101-01" (some true) none none "t").1 ["E1"] []
        "D20240101-01" (some true) none none "t2").1.events =
      (updateEmployeeEventStatus exEventState ["E1"] [] "D20240101-01"
        (some true) none none "t").1.events ∧
    (updateEmployeeEventStatus (updateEmployeeEventStatus exEventState
        ["E1"] [] "D20240101-01" (some true) none none "t").1 ["E1"] []
        "D20240101-01" (some true) none none "t2").1.participants =
      (updateEmployeeEventStatus exEventState ["E1"] [] "D20240101-01"
        (some true) none none "t").1.participants ∧
    (updateEmployeeEventStatus (updateEmployeeEventStatus exEventState
        ["E1"] [] "D20240101-01" (some true) none none "t").1 ["E1"] []
        "D20240101-01" (some true) none none "t2").2 = (0, 0, 0) :=
  c2_event_update_idempotent exEventState ["E1"] [] "D20240101-01" "t"
    "t2" (some true) none none
    { eventID := "D20240101-01", name := "Demo day", category := "Demo" }
    (by decide) (by decide) (by decide)

/-- C2 counterexample for the original claim: with the comma-containing
employee key `"A,B"`, the first call writes `"A,B"` into the event's
`Registrations` cell; the second call re-reads it as the two entries `"A"`
and `"B"`, unions the raw key `"A,B"` back in and writes `"A,A,B,B"` — the
events table differs after the second call. -/
theorem c2_counterexample :
    ¬ ((updateEmployeeEventStatus (updateEmployeeEventStatus exEventState
        ["A,B"] [] "D20240101-01" (some true) none none "t").1 ["A,B"] []
        "D20240101-01" (some true) none none "t2").1.events =
      (updateEmployeeEventStatus exEventState ["A,B"] [] "D20240101-01"
        (some true) none none "t").1.events) := by
  decide

/-! ## C1: cross-table consistency under add-mode operations -/

theorem evRegB_eq_some {s : AppState} {v : String} {r : EventRow}
    (h : findEvent s v = some r) (e : String) :
    evRegB s v e = decide (e ∈ pySetOfCell r.registrations) := by
  unfold evRegB
  rw [h]

theorem evRegB_eq_none {s : AppState} {v : String}
    (h : findEvent s v = none) (e : String) : evRegB s v e = false := by
  unfold evRegB
  rw [h]

theorem evPartB_eq_some {s : AppState} {v : String} {r : EventRow}
    (h : findEvent s v = some r) (e : String) :
    evPartB s v e = decide (e ∈ pySetOfCell r.participantsCell) := by
  unfold evPartB
  rw [h]

theorem evPartB_eq_none {s : AppState} {v : String}
    (h : findEvent s v = none) (e : String) : evPartB s v e = false := by
  unfold evPartB
  rw [h]

theorem evHostB_eq_some {s : AppState} {v : String} {r : EventRow}
    (h : findEvent s v = some r) (e : String) :
    evHostB s v e = decide (e ∈ pySetOfCell r.hosted) := by
  unfold evHostB
  rw [h]

theorem evHostB_eq_none {s : AppState} {v : String}
    (h : findEvent s v = none) (e : String) : evHostB s v e = false := by
  unfold evHostB
  rw [h]

theorem paRegB_eq_some {s : AppState} {v : String} {r : ParticipantRow}
    (h : findParticipant s v = some r) (e : String) :
    paRegB s v e = decide (e ∈ pySetOfCell r.eventsRegistered) := by
  unfold paRegB
  rw [h]

theorem paRegB_eq_none {s : AppState} {v : String}
    (h : findParticipant s v = none) (e : String) : paRegB s v e = false := by
  unfold paRegB
  rw [h]

theorem paPartB_eq_some {s : AppState} {v : String} {r : ParticipantRow}
    (h : findParticipant s v = some r) (e : String) :
    paPartB s v e = decide (e ∈ pySetOfCell r.eventsParticipated) := by
  unfold paPartB
  rw [h]

theorem paPartB_eq_none {s : AppState} {v : String}
    (h : findParticipant s v = none) (e : String) : paPartB s v e = false := by
  unfold paPartB
  rw [h]

theorem paHostB_eq_some {s : AppState} {v : String} {r : ParticipantRow}
    (h : findParticipant s v = some r) (e : String) :
    paHostB s v e = decide (e ∈ pySetOfCell r.eventsHosted) := by
  unfold paHostB
  rw [h]

theorem paHostB_eq_none {s : AppState} {v : String}
    (h : findParticipant s v = none) (e : String) : paHostB s v e = false := by
  unfold paHostB
  rw [h]

theorem coNomB_eq_some {s : AppState} {v : String} {r : CohortRow}
    (h : findCohort s v = some r) (e : String) :
    coNomB s v e = decide (e ∈ pySetOfCell r.nominated) := by
  unfold coNomB
  rw [h]

theorem coNomB_eq_none {s : AppState} {v : String}
    (h : findCohort s v = none) (e : String) : coNomB s v e = false := by
  unfold coNomB
  rw [h]

theorem coInvB_eq_some {s : AppState} {v : String} {r : CohortRow}
    (h : findCohort s v = some r) (e : String) :
    coInvB s v e = decide (e ∈ pySetOfCell r.invited) := by
  unfold coInvB
  rw [h]

theorem coInvB_eq_none {s : AppState} {v : String}
    (h : findCohort s v = none) (e : String) : coInvB s v e = false := by
  unfold coInvB
  rw [h]

theorem coJoinB_eq_some {s : AppState} {v : String} {r : CohortRow}
    (h : findCohort s v = some r) (e : String) :
    coJoinB s v e = decide (e ∈ pySetOfCell r.joined) := by
  unfold coJoinB
  rw [h]

theorem coJoinB_eq_none {s : AppState} {v : String}
    (h : findCohort s v = none) (e : String) : coJoinB s v e = false := by
  unfold coJoinB
  rw [h]

theorem paNomB_eq_some {s : AppState} {v : String} {r : ParticipantRow}
    (h : findParticipant s v = some r) (e : String) :
    paNomB s v e = decide (e ∈ pySetOfCell r.cohortsNominated) := by
  unfold paNomB
  rw [h]

theorem paNomB_eq_none {s : AppState} {v : String}
    (h : findParticipant s v = none) (e : String) : paNomB s v e = false := by
  unfold paNomB
  rw [h]

theorem paInvB_eq_some {s : AppState} {v : String} {r : ParticipantRow}
    (h : findParticipant s v = some r) (e : String) :
    paInvB s v e = decide (e ∈ pySetOfCell r.cohortsInvited) := by
  unfold paInvB
  rw [h]

theorem paInvB_eq_none {s : AppState} {v : String}
    (h : findParticipant s v = none) (e : String) : paInvB s v e = false := by
  unfold paInvB
  rw [h]

theorem paJoinB_eq_some {s : AppState} {v : String} {r : ParticipantRow}
    (h : findParticipant s v = some r) (e : String) :
    paJoinB s v e = decide (e ∈ pySetOfCell r.cohortsJoined) := by
  unfold paJoinB
  rw [h]

theorem paJoinB_eq_none {s : AppState} {v : String}
    (h : findParticipant s v = none) (e : String) : paJoinB s v e = false := by
  unfold paJoinB
  rw [h]
theorem find?_updateFirst_ne_of {p q : α → Bool} {f : α → α}
    (h : ∀ x, p x = true → q x = false ∧ q (f x) = false) :
    ∀ l : List α, (updateFirst p f l).find? q = l.find? q
  | [] => rfl
  | x :: xs => by
    unfold updateFirst
    by_cases hx : p x = true
    · rw [if_pos hx, List.find?_cons, List.find?_cons, (h x hx).2,
        (h x hx).1]
    · rw [if_neg hx, List.find?_cons, List.find?_cons]
      rcases hqx : q x with _ | _
      · exact find?_updateFirst_ne_of h xs
      · rfl

theorem mem_empty_cell_false (e : String) :
    decide (e ∈ pySetOfCell "") = false := by
  have h : pySetOfCell "" = [] := rfl
  rw [h]
  simp

theorem consistent_of_empty_cells (s : AppState)
    (hev : ∀ r ∈ s.events, r.registrations = "" ∧
      r.participantsCell = "" ∧ r.hosted = "")
    (hpa : ∀ p ∈ s.participants, p.eventsRegistered = "" ∧
      p.eventsParticipated = "" ∧ p.eventsHosted = "" ∧
      p.cohortsNominated = "" ∧ p.cohortsInvited = "" ∧
      p.cohortsJoined = "")
    (hco : ∀ c ∈ s.cohorts, c.nominated = "" ∧ c.invited = "" ∧
      c.joined = "") :
    Consistent s := by
  have hevr : ∀ v e, evRegB s v e = false := by
    intro v e
    cases h : findEvent s v with
    | none => exact evRegB_eq_none h e
    | some r =>
      rw [evRegB_eq_some h e, (hev r (List.mem_of_find?_eq_some h)).1]
      exact mem_empty_cell_false e
  have hevp : ∀ v e, evPartB s v e = false := by
    intro v e
    cases h : findEvent s v with
    | none => exact evPartB_eq_none h e
    | some r =>
      rw [evPartB_eq_some h e, (hev r (List.mem_of_find?_eq_some h)).2.1]
      exact mem_empty_cell_false e
  have hevh : ∀ v e, evHostB s v e = false := by
    intro v e
    cases h : findEvent s v with
    | none => exact evHostB_eq_none h e
    | some r =>
      rw [evHostB_eq_some h e, (hev r (List.mem_of_find?_eq_some h)).2.2]
      exact mem_empty_cell_false e
  have hpar : ∀ e v, paRegB s e v = false := by
    intro e v
    cases h : findParticipant s e with
    | none => exact paRegB_eq_none h v
    | some p =>
      rw [paRegB_eq_some h v, (hpa p (List.mem_of_find?_eq_some h)).1]
      exact mem_empty_cell_false v
  have hpap : ∀ e v, paPartB s e v = false := by
    intro e v
    cases h : findParticipant s e with
    | none => exact paPartB_eq_none h v
    | some p =>
      rw [paPartB_eq_some h v, (hpa p (List.mem_of_find?_eq_some h)).2.1]
      exact mem_empty_cell_false v
  have hpah : ∀ e v, paHostB s e v = false := by
    intro e v
    cases h : findParticipant s e with
    | none => exact paHostB_eq_none h v
    | some p =>
      rw [paHostB_eq_some h v,
        (hpa p (List.mem_of_find?_eq_some h)).2.2.1]
      exact mem_empty_cell_false v
  have hpan : ∀ e c, paNomB s e c = false := by
    intro e c
    cases h : findParticipant s e with
    | none => exact paNomB_eq_none h c
    | some p =>
      rw [paNomB_eq_some h c,
        (hpa p (List.mem_of_find?_eq_some h)).2.2.2.1]
      exact mem_empty_cell_false c
  have hpai : ∀ e c, paInvB s e c = false := by
    intro e c
    cases h : findParticipant s e with
    | none => exact paInvB_eq_none h c
    | some p =>
      rw [paInvB_eq_some h c,
        (hpa p (List.mem_of_find?_eq_some h)).2.2.2.2.1]
      exact mem_empty_cell_false c
  have hpaj : ∀ e c, paJoinB s e c = false := by
    intro e c
    cases h : findParticipant s e with
    | none => exact paJoinB_eq_none h c
    | some p =>
      rw [paJoinB_eq_some h c,
        (hpa p (List.mem_of_find?_eq_some h)).2.2.2.2.2]
      exact mem_empty_cell_false c
  have hcon : ∀ c e, coNomB s c e = false := by
    intro c e
    cases h : findCohort s c with
    | none => exact coNomB_eq_none h e
    | some r =>
      rw [coNomB_eq_some h e, (hco r (List.mem_of_find?_eq_some h)).1]
      exact mem_empty_cell_false e
  have hcoi : ∀ c e, coInvB s c e = false := by
    intro c e
    cases h : findCohort s c with
    | none => exact coInvB_eq_none h e
    | some r =>
      rw [coInvB_eq_some h e, (hco r (List.mem_of_find?_eq_some h)).2.1]
      exact mem_empty_cell_false e
  have hcoj : ∀ c e, coJoinB s c e = false := by
    intro c e
    cases h : findCohort s c with
    | none => exact coJoinB_eq_none h e
    | some r =>
      rw [coJoinB_eq_some h e, (hco r (List.mem_of_find?_eq_some h)).2.2]
      exact mem_empty_cell_false e
  refine ⟨fun v e => ?_, fun v e => ?_, fun v e => ?_, fun c e => ?_,
    fun c e => ?_, fun c e => ?_⟩
  · rw [hevr v e, hpar e v]
  · rw [hevp v e, hpap e v]
  · rw [hevh v e, hpah e v]
  · rw [hcon c e, hpan e c]
  · rw [hcoi c e, hpai e c]
  · rw [hcoj c e, hpaj e c]

theorem evPostMem_def (mark : Option Bool) (eventId : String)
    (base : List String) (x : String) :
    evPostMem mark eventId base x ↔
      (x ∈ base ∧ x ≠ "") ∨ (mark = some true ∧ x = eventId) := Iff.rfl

theorem coPostMem_def (mark : Bool) (cohortName : String)
    (base : List String) (x : String) :
    coPostMem mark cohortName base x ↔
      x ∈ base ∨ (mark = true ∧ x = cohortName) := Iff.rfl

theorem dim_add_mem (cell eventId : String) (c : Prop) [Decidable c]
    (hfe : commaFree eventId) (hid : eventId ≠ "") :
    ∀ x, x ∈ pySetOfCell (cellOfSet (if c ∧ eventId ∉ pySetOfCell cell
        then pyAdd (pySetOfCell cell) eventId else pySetOfCell cell)) ↔
      ((x ∈ pySetOfCell cell ∧ x ≠ "") ∨ (c ∧ x = eventId)) := by
  intro x
  have hfr : ∀ y ∈ (if c ∧ eventId ∉ pySetOfCell cell then
      pyAdd (pySetOfCell cell) eventId else pySetOfCell cell),
      commaFree y := by
    intro y hy
    by_cases hcc : c ∧ eventId ∉ pySetOfCell cell
    · rw [if_pos hcc] at hy
      rcases mem_pyAdd.mp hy with h | h
      · exact commaFree_of_mem_pySetOfCell h
      · rw [h]; exact hfe
    · rw [if_neg hcc] at hy
      exact commaFree_of_mem_pySetOfCell hy
  rw [mem_pySetOfCell_cellOfSet hfr]
  by_cases hcc : c ∧ eventId ∉ pySetOfCell cell
  · rw [if_pos hcc, mem_pyAdd]
    constructor
    · rintro ⟨h1 | h1, h2⟩
      · exact Or.inl ⟨h1, h2⟩
      · exact Or.inr ⟨hcc.1, h1⟩
    · rintro (⟨h1, h2⟩ | ⟨h1, h2⟩)
      · exact ⟨Or.inl h1, h2⟩
      · exact ⟨Or.inr h2, by rw [h2]; exact hid⟩
  · rw [if_neg hcc]
    constructor
    · rintro ⟨h1, h2⟩
      exact Or.inl ⟨h1, h2⟩
    · rintro (⟨h1, h2⟩ | ⟨h1, h2⟩)
      · exact ⟨h1, h2⟩
      · have hin : eventId ∈ pySetOfCell cell := by
          by_cases hin : eventId ∈ pySetOfCell cell
          · exact hin
          · exact absurd ⟨h1, hin⟩ hcc
        exact ⟨by rw [h2]; exact hin, by rw [h2]; exact hid⟩

theorem union_cell_mem (cell : String) (empIds : List String) (c : Prop)
    [Decidable c] (hfree : ∀ k ∈ empIds, k ≠ "" ∧ commaFree k)
    (hwfc : CellWF cell) :
    ∀ e, e ∈ pySetOfCell (cellOfSet (if c then
        pyUnion (pySetOfCell cell) empIds else pySetOfCell cell)) ↔
      (e ∈ pySetOfCell cell ∨ (c ∧ e ∈ empIds)) := by
  intro e
  have hf := union_set_facts cell empIds c (fun k hk => (hfree k hk).2)
  rw [mem_pySetOfCell_cellOfSet hf.2.1]
  by_cases hc : c
  · rw [if_pos hc, mem_pyUnion]
    constructor
    · rintro ⟨h1 | h1, h2⟩
      · exact Or.inl h1
      · exact Or.inr ⟨hc, h1⟩
    · rintro (h1 | ⟨_, h1⟩)
      · exact ⟨Or.inl h1, mem_pySetOfCell_ne_empty hwfc h1⟩
      · exact ⟨Or.inr h1, (hfree e h1).1⟩
  · rw [if_neg hc]
    constructor
    · rintro ⟨h1, _⟩
      exact Or.inl h1
    · rintro (h1 | ⟨hcc, _⟩)
      · exact ⟨h1, mem_pySetOfCell_ne_empty hwfc h1⟩
      · exact absurd hcc hc

theorem basePaSet_none (f : ParticipantRow → String) :
    basePaSet f none = [] := rfl

theorem basePaSet_some (f : ParticipantRow → String) (p : ParticipantRow) :
    basePaSet f (some p) = pySetOfCell (f p) := rfl

theorem basePaCell_none (f : ParticipantRow → String) :
    basePaCell f none = "" := rfl

theorem basePaCell_some (f : ParticipantRow → String)
    (p : ParticipantRow) : basePaCell f (some p) = f p := rfl

theorem evRowGood_apply_getD (employees : List EmployeeRow)
    (k eventId : String) (mr mp mh : Option Bool) (now : String)
    (o : Option ParticipantRow)
    (hfe : commaFree eventId) (hid : eventId ≠ "")
    (hk : ∀ p, o = some p → p.standardID = k) :
    EvRowGood k eventId mr mp mh o
      (participantEventApply eventId mr mp mh now
        (o.getD (blankParticipantRow employees k))) := by
  cases o with
  | none =>
    unfold EvRowGood
    refine ⟨rfl, ?_, ?_, ?_, rfl, rfl, rfl⟩
    · intro x
      rw [evPostMem_def, basePaSet_none]
      exact dim_add_mem "" eventId (mr = some true) hfe hid x
    · intro x
      rw [evPostMem_def, basePaSet_none]
      exact dim_add_mem "" eventId (mp = some true) hfe hid x
    · intro x
      rw [evPostMem_def, basePaSet_none]
      exact dim_add_mem "" eventId (mh = some true) hfe hid x
  | some p =>
    have hpk := hk p rfl
    unfold EvRowGood
    refine ⟨hpk, ?_, ?_, ?_, rfl, rfl, rfl⟩
    · intro x
      rw [evPostMem_def, basePaSet_some]
      exact dim_add_mem p.eventsRegistered eventId (mr = some true) hfe
        hid x
    · intro x
      rw [evPostMem_def, basePaSet_some]
      exact dim_add_mem p.eventsParticipated eventId (mp = some true) hfe
        hid x
    · intro x
      rw [evPostMem_def, basePaSet_some]
      exact dim_add_mem p.eventsHosted eventId (mh = some true) hfe hid x

theorem evRowGood_apply (k eventId : String) (mr mp mh : Option Bool)
    (now : String) (o : Option ParticipantRow) (q : ParticipantRow)
    (hfe : commaFree eventId) (hid : eventId ≠ "")
    (hg : EvRowGood k eventId mr mp mh o q) :
    EvRowGood k eventId mr mp mh o
      (participantEventApply eventId mr mp mh now q) := by
  obtain ⟨hsk, hm1, hm2, hm3, hc1, hc2, hc3⟩ := hg
  unfold EvRowGood
  refine ⟨hsk, ?_, ?_, ?_, hc1, hc2, hc3⟩
  · intro x
    rw [evPostMem_def]
    have hd := dim_add_mem q.eventsRegistered eventId (mr = some true) hfe
      hid x
    have hmx := hm1 x
    rw [evPostMem_def] at hmx
    constructor
    · intro hx
      rcases hd.mp hx with ⟨h1, h2⟩ | h1
      · exact hmx.mp h1
      · exact Or.inr h1
    · intro hx
      refine hd.mpr ?_
      rcases hx with ⟨h1, h2⟩ | h1
      · exact Or.inl ⟨hmx.mpr (Or.inl ⟨h1, h2⟩), h2⟩
      · exact Or.inr h1
  · intro x
    rw [evPostMem_def]
    have hd := dim_add_mem q.eventsParticipated eventId (mp = some true)
      hfe hid x
    have hmx := hm2 x
    rw [evPostMem_def] at hmx
    constructor
    · intro hx
      rcases hd.mp hx with ⟨h1, h2⟩ | h1
      · exact hmx.mp h1
      · exact Or.inr h1
    · intro hx
      refine hd.mpr ?_
      rcases hx with ⟨h1, h2⟩ | h1
      · exact Or.inl ⟨hmx.mpr (Or.inl ⟨h1, h2⟩), h2⟩
      · exact Or.inr h1
  · intro x
    rw [evPostMem_def]
    have hd := dim_add_mem q.eventsHosted eventId (mh = some true) hfe hid
      x
    have hmx := hm3 x
    rw [evPostMem_def] at hmx
    constructor
    · intro hx
      rcases hd.mp hx with ⟨h1, h2⟩ | h1
      · exact hmx.mp h1
      · exact Or.inr h1
    · intro hx
      refine hd.mpr ?_
      rcases hx with ⟨h1, h2⟩ | h1
      · exact Or.inl ⟨hmx.mpr (Or.inl ⟨h1, h2⟩), h2⟩
      · exact Or.inr h1

theorem eventStep_good (employees : List EmployeeRow)
    (absentIds : List String) (eventId : String) (mr mp mh : Option Bool)
    (now : String) (acc : List ParticipantRow × List (String × String))
    (k : String) (o : Option ParticipantRow) (q0 : ParticipantRow)
    (hfe : commaFree eventId) (hid : eventId ≠ "")
    (hq0 : acc.1.find? (fun p => decide (p.standardID = k)) = some q0)
    (hg : EvRowGood k eventId mr mp mh o q0) :
    ∃ q, ((eventParticipantStep employees absentIds eventId mr mp mh now
        acc k).1).find? (fun p => decide (p.standardID = k)) = some q ∧
      EvRowGood k eventId mr mp mh o q := by
  rw [eventStep_find_self employees absentIds eventId mr mp mh now acc k,
    hq0, Option.getD_some]
  exact ⟨_, rfl, evRowGood_apply k eventId mr mp mh now o q0 hfe hid hg⟩

theorem eventFold_some_good (employees : List EmployeeRow)
    (absentIds : List String) (eventId : String) (mr mp mh : Option Bool)
    (now : String) (k : String) (o : Option ParticipantRow)
    (hfe : commaFree eventId) (hid : eventId ≠ "") :
    ∀ (l : List String)
      (acc : List ParticipantRow × List (String × String)),
      (∃ q0, acc.1.find? (fun p => decide (p.standardID = k)) = some q0 ∧
        EvRowGood k eventId mr mp mh o q0) →
      ∃ q, ((l.foldl (eventParticipantStep employees absentIds eventId mr
          mp mh now) acc).1).find? (fun p => decide (p.standardID = k)) =
        some q ∧ EvRowGood k eventId mr mp mh o q
  | [], _, h => h
  | a :: l, acc, h => by
    rw [List.foldl_cons]
    refine eventFold_some_good employees absentIds eventId mr mp mh now k o
      hfe hid l _ ?_
    obtain ⟨q0, hq0, hg⟩ := h
    by_cases ha : a = k
    · rw [ha]
      exact eventStep_good employees absentIds eventId mr mp mh now acc k
        o q0 hfe hid hq0 hg
    · rw [eventStep_find_other employees absentIds eventId mr mp mh now acc
        a k (fun hc => ha hc.symm)]
      exact ⟨q0, hq0, hg⟩

theorem eventFold_mem_good (employees : List EmployeeRow)
    (absentIds : List String) (eventId : String) (mr mp mh : Option Bool)
    (now : String) (k : String) (o : Option ParticipantRow)
    (hfe : commaFree eventId) (hid : eventId ≠ "")
    (hk : ∀ p, o = some p → p.standardID = k) :
    ∀ (l : List String)
      (acc : List ParticipantRow × List (String × String)), k ∈ l →
      acc.1.find? (fun p => decide (p.standardID = k)) = o →
      ∃ q, ((l.foldl (eventParticipantStep employees absentIds eventId mr
          mp mh now) acc).1).find? (fun p => decide (p.standardID = k)) =
        some q ∧ EvRowGood k eventId mr mp mh o q
  | [], _, hkl, _ => absurd hkl (List.not_mem_nil k)
  | a :: l, acc, hkl, ho => by
    rw [List.foldl_cons]
    by_cases ha : a = k
    · rw [ha]
      refine eventFold_some_good employees absentIds eventId mr mp mh now k
        o hfe hid l _ ?_
      rw [eventStep_find_self employees absentIds eventId mr mp mh now acc
        k, ho]
      exact ⟨_, rfl, evRowGood_apply_getD employees k eventId mr mp mh now
        o hfe hid hk⟩
    · have hkl' : k ∈ l := by
        rcases List.mem_cons.mp hkl with h | h
        · exact absurd h.symm ha
        · exact h
      refine eventFold_mem_good employees absentIds eventId mr mp mh now k
        o hfe hid hk l _ hkl' ?_
      rw [eventStep_find_other employees absentIds eventId mr mp mh now acc
        a k (fun hc => ha hc.symm)]
      exact ho

theorem eventStep_rows (Q : ParticipantRow → Prop)
    (employees : List EmployeeRow) (absentIds : List String)
    (eventId : String) (mr mp mh : Option Bool) (now : String)
    (hQa : ∀ p, Q p → Q (participantEventApply eventId mr mp mh now p))
    (hQb : ∀ k, Q (blankParticipantRow employees k))
    (acc : List ParticipantRow × List (String × String)) (a : String)
    (hacc : ∀ p ∈ acc.1, Q p) :
    ∀ p ∈ (eventParticipantStep employees absentIds eventId mr mp mh now
      acc a).1, Q p := by
  intro p hp
  unfold eventParticipantStep at hp
  dsimp only at hp
  by_cases hany : acc.1.any (fun q => decide (q.standardID = a)) = true
  · rw [if_pos hany] at hp
    rcases mem_updateFirst hp with h | ⟨b, hb, _, hpb⟩
    · exact hacc p h
    · rw [hpb]
      exact hQa b (hacc b hb)
  · rw [if_neg hany] at hp
    rcases mem_updateFirst hp with h | ⟨b, hb, _, hpb⟩
    · rcases List.mem_append.mp h with h | h
      · exact hacc p h
      · rw [List.mem_singleton.mp h]
        exact hQb a
    · have hqb : Q b := by
        rcases List.mem_append.mp hb with h | h
        · exact hacc b h
        · rw [List.mem_singleton.mp h]
          exact hQb a
      rw [hpb]
      exact hQa b hqb

theorem eventFold_rows (Q : ParticipantRow → Prop)
    (employees : List EmployeeRow) (absentIds : List String)
    (eventId : String) (mr mp mh : Option Bool) (now : String)
    (hQa : ∀ p, Q p → Q (participantEventApply eventId mr mp mh now p))
    (hQb : ∀ k, Q (blankParticipantRow employees k)) :
    ∀ (l : List String)
      (acc : List ParticipantRow × List (String × String)),
      (∀ p ∈ acc.1, Q p) →
      ∀ p ∈ (l.foldl (eventParticipantStep employees absentIds eventId mr
        mp mh now) acc).1, Q p
  | [], _, hacc => hacc
  | a :: l, acc, hacc => by
    rw [List.foldl_cons]
    exact eventFold_rows Q employees absentIds eventId mr mp mh now hQa
      hQb l _ (eventStep_rows Q employees absentIds eventId mr mp mh now
        hQa hQb acc a hacc)

theorem cellWF_add_dim (cell eventId : String) (c : Prop) [Decidable c]
    (hfe : commaFree eventId) :
    CellWF (cellOfSet (if c ∧ eventId ∉ pySetOfCell cell then
      pyAdd (pySetOfCell cell) eventId else pySetOfCell cell)) := by
  refine cellWF_cellOfSet ?_
  intro y hy
  by_cases hcc : c ∧ eventId ∉ pySetOfCell cell
  · rw [if_pos hcc] at hy
    rcases mem_pyAdd.mp hy with h | h
    · exact commaFree_of_mem_pySetOfCell h
    · rw [h]; exact hfe
  · rw [if_neg hcc] at hy
    exact commaFree_of_mem_pySetOfCell hy

theorem eventOp_preserves (s : AppState) (empIds absentIds : List String)
    (eventId now : String) (mr mp mh : Option Bool)
    (hids : ∀ k ∈ empIds, k ≠ "" ∧ commaFree k) (hfe : commaFree eventId)
    (hcons : Consistent s) (hcells : StateCellsWF s) :
    Consistent (updateEmployeeEventStatus s empIds absentIds eventId mr mp
      mh now).1 ∧
    StateCellsWF (updateEmployeeEventStatus s empIds absentIds eventId mr
      mp mh now).1 := by
  by_cases hdeg : eventId = "" ∨ empIds = []
  · have hz : updateEmployeeEventStatus s empIds absentIds eventId mr mp mh
        now = (s, 0, 0, 0) := by
      simp only [updateEmployeeEventStatus]
      rw [if_pos hdeg]
    rw [hz]
    exact ⟨hcons, hcells⟩
  push_neg at hdeg
  obtain ⟨hid, hne⟩ := hdeg
  cases hev : findEvent s eventId with
  | none =>
    have hcond : ¬ (eventId = "" ∨ empIds = []) := fun hc =>
      hc.elim hid hne
    have hz : updateEmployeeEventStatus s empIds absentIds eventId mr mp
        mh now = (s, 0, 0, 0) := by
      simp only [updateEmployeeEventStatus]
      rw [if_neg hcond, hev]
    rw [hz]
    exact ⟨hcons, hcells⟩
  | some ev =>
    have hcons' := hcons
    unfold Consistent at hcons'
    obtain ⟨hq1, hq2, hq3, hq4, hq5, hq6⟩ := hcons'
    have hcells' := hcells
    unfold StateCellsWF at hcells'
    obtain ⟨hcE, hcP, hcC⟩ := hcells'
    have hfinde : s.events.find? (fun r => decide (r.eventID = eventId)) =
        some ev := hev
    have hkeyb := List.find?_some hfinde
    have hkey : ev.eventID = eventId := by simpa using hkeyb
    have hevmem := List.mem_of_find?_eq_some hfinde
    have hwell := hcE ev hevmem
    have hevsome : findEvent (updateEmployeeEventStatus s empIds absentIds
        eventId mr mp mh now).1 eventId =
        some (eventRowApply empIds mr mp mh ev).1 := by
      rw [updateEmployeeEventStatus_found hev hid hne]
      refine find?_updateFirst_self hfinde ?_
      show decide ((eventRowApply empIds mr mp mh ev).1.eventID = eventId)
        = true
      rw [eventRowApply_eventID]
      exact hkeyb
    have hevframe : ∀ v, v ≠ eventId →
        findEvent (updateEmployeeEventStatus s empIds absentIds eventId mr
          mp mh now).1 v = findEvent s v := by
      intro v hv
      rw [updateEmployeeEventStatus_found hev hid hne]
      refine find?_updateFirst_ne_of (fun x hx => ?_) s.events
      have hxe : x.eventID = eventId := by simpa using hx
      constructor
      · exact decide_eq_false (by rw [hxe]; exact Ne.symm hv)
      · exact decide_eq_false (by
          rw [show ((fun _ => (eventRowApply empIds mr mp mh ev).1)
            x).eventID = ev.eventID from rfl, hkey]
          exact Ne.symm hv)
    have hcoeq : ∀ c, findCohort (updateEmployeeEventStatus s empIds
        absentIds eventId mr mp mh now).1 c = findCohort s c := by
      intro c
      rw [updateEmployeeEventStatus_found hev hid hne]
      exact rfl
    have hpaframe : ∀ e, e ∉ empIds →
        findParticipant (updateEmployeeEventStatus s empIds absentIds
          eventId mr mp mh now).1 e = findParticipant s e := by
      intro e he
      rw [updateEmployeeEventStatus_found hev hid hne]
      exact eventFold_find_frame s.employees absentIds eventId mr mp mh
        now e empIds (s.participants, s.couldNotFind) he
    have hpagood : ∀ e ∈ empIds, ∃ q,
        findParticipant (updateEmployeeEventStatus s empIds absentIds
          eventId mr mp mh now).1 e = some q ∧
        EvRowGood e eventId mr mp mh (findParticipant s e) q := by
      intro e he
      rw [updateEmployeeEventStatus_found hev hid hne]
      refine eventFold_mem_good s.employees absentIds eventId mr mp mh now
        e _ hfe hid (fun p hp => ?_) empIds
        (s.participants, s.couldNotFind) he rfl
      have := List.find?_some hp
      simpa using this
    have hevm1 : ∀ e, e ∈ pySetOfCell (eventRowApply empIds mr mp mh
        ev).1.registrations ↔ (e ∈ pySetOfCell ev.registrations ∨
        (mr = some true ∧ e ∈ empIds)) :=
      union_cell_mem ev.registrations empIds (mr = some true) hids hwell.1
    have hevm2 : ∀ e, e ∈ pySetOfCell (eventRowApply empIds mr mp mh
        ev).1.participantsCell ↔ (e ∈ pySetOfCell ev.participantsCell ∨
        (mp = some true ∧ e ∈ empIds)) :=
      union_cell_mem ev.participantsCell empIds (mp = some true) hids
        hwell.2.1
    have hevm3 : ∀ e, e ∈ pySetOfCell (eventRowApply empIds mr mp mh
        ev).1.hosted ↔ (e ∈ pySetOfCell ev.hosted ∨
        (mh = some true ∧ e ∈ empIds)) :=
      union_cell_mem ev.hosted empIds (mh = some true) hids hwell.2.2
    constructor
    · unfold Consistent
      refine ⟨fun v e => ?_, fun v e => ?_, fun v e => ?_,
        fun c e => ?_, fun c e => ?_, fun c e => ?_⟩
      · -- Registered
        by_cases hv : v = eventId
        · rw [hv, evRegB_eq_some hevsome e]
          by_cases he : e ∈ empIds
          · obtain ⟨q, hfq, hg⟩ := hpagood e he
            rw [paRegB_eq_some hfq eventId]
            refine decide_eq_decide.mpr ?_
            have hm := hg.2.1 eventId
            rw [evPostMem_def] at hm
            have hevm := hevm1 e
            cases hop : findParticipant s e with
            | some p0 =>
              rw [hop, basePaSet_some] at hm
              have hpre := hq1 eventId e
              rw [evRegB_eq_some hev e, paRegB_eq_some hop eventId] at hpre
              have hpre' := decide_eq_decide.mp hpre
              constructor
              · intro hx
                rcases hevm.mp hx with h1 | ⟨h1, _⟩
                · exact hm.mpr (Or.inl ⟨hpre'.mp h1, hid⟩)
                · exact hm.mpr (Or.inr ⟨h1, rfl⟩)
              · intro hx
                rcases hm.mp hx with ⟨h1, _⟩ | ⟨h1, _⟩
                · exact hevm.mpr (Or.inl (hpre'.mpr h1))
                · exact hevm.mpr (Or.inr ⟨h1, he⟩)
            | none =>
              rw [hop, basePaSet_none] at hm
              have hpre := hq1 eventId e
              rw [evRegB_eq_some hev e, paRegB_eq_none hop eventId] at hpre
              have hnotin : e ∉ pySetOfCell ev.registrations := by
                simpa using hpre
              constructor
              · intro hx
                rcases hevm.mp hx with h1 | ⟨h1, _⟩
                · exact absurd h1 hnotin
                · exact hm.mpr (Or.inr ⟨h1, rfl⟩)
              · intro hx
                rcases hm.mp hx with ⟨h1, _⟩ | ⟨h1, _⟩
                · exact absurd h1 (List.not_mem_nil eventId)
                · exact hevm.mpr (Or.inr ⟨h1, he⟩)
          · have hppp : paRegB (updateEmployeeEventStatus s empIds
                absentIds eventId mr mp mh now).1 e eventId =
                paRegB s e eventId := by
              unfold paRegB
              rw [hpaframe e he]
            rw [hppp]
            have hpre := hq1 eventId e
            rw [evRegB_eq_some hev e] at hpre
            rw [← hpre]
            refine decide_eq_decide.mpr ?_
            have hevm := hevm1 e
            constructor
            · intro hx
              rcases hevm.mp hx with h1 | ⟨_, h2⟩
              · exact h1
              · exact absurd h2 he
            · intro hx
              exact hevm.mpr (Or.inl hx)
        · have hevv : evRegB (updateEmployeeEventStatus s empIds absentIds
              eventId mr mp mh now).1 v e = evRegB s v e := by
            unfold evRegB
            rw [hevframe v hv]
          rw [hevv]
          by_cases he : e ∈ empIds
          · obtain ⟨q, hfq, hg⟩ := hpagood e he
            rw [paRegB_eq_some hfq v]
            have hm := hg.2.1 v
            rw [evPostMem_def] at hm
            cases hop : findParticipant s e with
            | some p0 =>
              have hop' : s.participants.find?
                  (fun p => decide (p.standardID = e)) = some p0 := hop
              have hwp0 := (hcP p0 (List.mem_of_find?_eq_some hop')).1
              rw [hop, basePaSet_some] at hm
              have hpre := hq1 v e
              rw [paRegB_eq_some hop v] at hpre
              rw [hpre]
              refine decide_eq_decide.mpr ?_
              constructor
              · intro hx
                exact hm.mpr (Or.inl ⟨hx, mem_pySetOfCell_ne_empty hwp0
                  hx⟩)
              · intro hx
                rcases hm.mp hx with ⟨h1, _⟩ | ⟨_, h2⟩
                · exact h1
                · exact absurd h2 hv
            | none =>
              rw [hop, basePaSet_none] at hm
              have hpre := hq1 v e
              rw [paRegB_eq_none hop v] at hpre
              rw [hpre]
              symm
              refine decide_eq_false ?_
              intro hx
              rcases hm.mp hx with ⟨h1, _⟩ | ⟨_, h2⟩
              · exact List.not_mem_nil v h1
              · exact hv h2
          · have hppp : paRegB (updateEmployeeEventStatus s empIds
                absentIds eventId mr mp mh now).1 e v = paRegB s e v := by
              unfold paRegB
              rw [hpaframe e he]
            rw [hppp]
            exact hq1 v e
      · -- Participated
        by_cases hv : v = eventId
        · rw [hv, evPartB_eq_some hevsome e]
          by_cases he : e ∈ empIds
          · obtain ⟨q, hfq, hg⟩ := hpagood e he
            rw [paPartB_eq_some hfq eventId]
            refine decide_eq_decide.mpr ?_
            have hm := hg.2.2.1 eventId
            rw [evPostMem_def] at hm
            have hevm := hevm2 e
            cases hop : findParticipant s e with
            | some p0 =>
              rw [hop, basePaSet_some] at hm
              have hpre := hq2 eventId e
              rw [evPartB_eq_some hev e, paPartB_eq_some hop eventId]
                at hpre
              have hpre' := decide_eq_decide.mp hpre
              constructor
              · intro hx
                rcases hevm.mp hx with h1 | ⟨h1, _⟩
                · exact hm.mpr (Or.inl ⟨hpre'.mp h1, hid⟩)
                · exact hm.mpr (Or.inr ⟨h1, rfl⟩)
              · intro hx
                rcases hm.mp hx with ⟨h1, _⟩ | ⟨h1, _⟩
                · exact hevm.mpr (Or.inl (hpre'.mpr h1))
                · exact hevm.mpr (Or.inr ⟨h1, he⟩)
            | none =>
              rw [hop, basePaSet_none] at hm
              have hpre := hq2 eventId e
              rw [evPartB_eq_some hev e, paPartB_eq_none hop eventId]
                at hpre
              have hnotin : e ∉ pySetOfCell ev.participantsCell := by
                simpa using hpre
              constructor
              · intro hx
                rcases hevm.mp hx with h1 | ⟨h1, _⟩
                · exact absurd h1 hnotin
                · exact hm.mpr (Or.inr ⟨h1, rfl⟩)
              · intro hx
                rcases hm.mp hx with ⟨h1, _⟩ | ⟨h1, _⟩
                · exact absurd h1 (List.not_mem_nil eventId)
                · exact hevm.mpr (Or.inr ⟨h1, he⟩)
          · have hppp : paPartB (updateEmployeeEventStatus s empIds
                absentIds eventId mr mp mh now).1 e eventId =
                paPartB s e eventId := by
              unfold paPartB
              rw [hpaframe e he]
            rw [hppp]
            have hpre := hq2 eventId e
            rw [evPartB_eq_some hev e] at hpre
            rw [← hpre]
            refine decide_eq_decide.mpr ?_
            have hevm := hevm2 e
            constructor
            · intro hx
              rcases hevm.mp hx with h1 | ⟨_, h2⟩
              · exact h1
              · exact absurd h2 he
            · intro hx
              exact hevm.mpr (Or.inl hx)
        · have hevv : evPartB (updateEmployeeEventStatus s empIds
              absentIds eventId mr mp mh now).1 v e = evPartB s v e := by
            unfold evPartB
            rw [hevframe v hv]
          rw [hevv]
          by_cases he : e ∈ empIds
          · obtain ⟨q, hfq, hg⟩ := hpagood e he
            rw [paPartB_eq_some hfq v]
            have hm := hg.2.2.1 v
            rw [evPostMem_def] at hm
            cases hop : findParticipant s e with
            | some p0 =>
              have hop' : s.participants.find?
                  (fun p => decide (p.standardID = e)) = some p0 := hop
              have hwp0 := (hcP p0 (List.mem_of_find?_eq_some hop')).2.1
              rw [hop, basePaSet_some] at hm
              have hpre := hq2 v e
              rw [paPartB_eq_some hop v] at hpre
              rw [hpre]
              refine decide_eq_decide.mpr ?_
              constructor
              · intro hx
                exact hm.mpr (Or.inl ⟨hx, mem_pySetOfCell_ne_empty hwp0
                  hx⟩)
              · intro hx
                rcases hm.mp hx with ⟨h1, _⟩ | ⟨_, h2⟩
                · exact h1
                · exact absurd h2 hv
            | none =>
              rw [hop, basePaSet_none] at hm
              have hpre := hq2 v e
              rw [paPartB_eq_none hop v] at hpre
              rw [hpre]
              symm
              refine decide_eq_false ?_
              intro hx
              rcases hm.mp hx with ⟨h1, _⟩ | ⟨_, h2⟩
              · exact List.not_mem_nil v h1
              · exact hv h2
          · have hppp : paPartB (updateEmployeeEventStatus s empIds
                absentIds eventId mr mp mh now).1 e v = paPartB s e v := by
              unfold paPartB
              rw [hpaframe e he]
            rw [hppp]
            exact hq2 v e
      · -- Hosted
        by_cases hv : v = eventId
        · rw [hv, evHostB_eq_some hevsome e]
          by_cases he : e ∈ empIds
          · obtain ⟨q, hfq, hg⟩ := hpagood e he
            rw [paHostB_eq_some hfq eventId]
            refine decide_eq_decide.mpr ?_
            have hm := hg.2.2.2.1 eventId
            rw [evPostMem_def] at hm
            have hevm := hevm3 e
            cases hop : findParticipant s e with
            | some p0 =>
              rw [hop, basePaSet_some] at hm
              have hpre := hq3 eventId e
              rw [evHostB_eq_some hev e, paHostB_eq_some hop eventId]
                at hpre
              have hpre' := decide_eq_decide.mp hpre
              constructor
              · intro hx
                rcases hevm.mp hx with h1 | ⟨h1, _⟩
                · exact hm.mpr (Or.inl ⟨hpre'.mp h1, hid⟩)
                · exact hm.mpr (Or.inr ⟨h1, rfl⟩)
              · intro hx
                rcases hm.mp hx with ⟨h1, _⟩ | ⟨h1, _⟩
                · exact hevm.mpr (Or.inl (hpre'.mpr h1))
                · exact hevm.mpr (Or.inr ⟨h1, he⟩)
            | none =>
              rw [hop, basePaSet_none] at hm
              have hpre := hq3 eventId e
              rw [evHostB_eq_some hev e, paHostB_eq_none hop eventId]
                at hpre
              have hnotin : e ∉ pySetOfCell ev.hosted := by
                simpa using hpre
              constructor
              · intro hx
                rcases hevm.mp hx with h1 | ⟨h1, _⟩
                · exact absurd h1 hnotin
                · exact hm.mpr (Or.inr ⟨h1, rfl⟩)
              · intro hx
                rcases hm.mp hx with ⟨h1, _⟩ | ⟨h1, _⟩
                · exact absurd h1 (List.not_mem_nil eventId)
                · exact hevm.mpr (Or.inr ⟨h1, he⟩)
          · have hppp : paHostB (updateEmployeeEventStatus s empIds
                absentIds eventId mr mp mh now).1 e eventId =
                paHostB s e eventId := by
              unfold paHostB
              rw [hpaframe e he]
            rw [hppp]
            have hpre := hq3 eventId e
            rw [evHostB_eq_some hev e] at hpre
            rw [← hpre]
            refine decide_eq_decide.mpr ?_
            have hevm := hevm3 e
            constructor
            · intro hx
              rcases hevm.mp hx with h1 | ⟨_, h2⟩
              · exact h1
              · exact absurd h2 he
            · intro hx
              exact hevm.mpr (Or.inl hx)
        · have hevv : evHostB (updateEmployeeEventStatus s empIds
              absentIds eventId mr mp mh now).1 v e = evHostB s v e := by
            unfold evHostB
            rw [hevframe v hv]
          rw [hevv]
          by_cases he : e ∈ empIds
          · obtain ⟨q, hfq, hg⟩ := hpagood e he
            rw [paHostB_eq_some hfq v]
            have hm := hg.2.2.2.1 v
            rw [evPostMem_def] at hm
            cases hop : findParticipant s e with
            | some p0 =>
              have hop' : s.participants.find?
                  (fun p => decide (p.standardID = e)) = some p0 := hop
              have hwp0 := (hcP p0 (List.mem_of_find?_eq_some
                hop')).2.2.1
              rw [hop, basePaSet_some] at hm
              have hpre := hq3 v e
              rw [paHostB_eq_some hop v] at hpre
              rw [hpre]
              refine decide_eq_decide.mpr ?_
              constructor
              · intro hx
                exact hm.mpr (Or.inl ⟨hx, mem_pySetOfCell_ne_empty hwp0
                  hx⟩)
              · intro hx
                rcases hm.mp hx with ⟨h1, _⟩ | ⟨_, h2⟩
                · exact h1
                · exact absurd h2 hv
            | none =>
              rw [hop, basePaSet_none] at hm
              have hpre := hq3 v e
              rw [paHostB_eq_none hop v] at hpre
              rw [hpre]
              symm
              refine decide_eq_false ?_
              intro hx
              rcases hm.mp hx with ⟨h1, _⟩ | ⟨_, h2⟩
              · exact List.not_mem_nil v h1
              · exact hv h2
          · have hppp : paHostB (updateEmployeeEventStatus s empIds
                absentIds eventId mr mp mh now).1 e v = paHostB s e v := by
              unfold paHostB
              rw [hpaframe e he]
            rw [hppp]
            exact hq3 v e
      · -- Cohorts Nominated
        have hcoB : coNomB (updateEmployeeEventStatus s empIds absentIds
            eventId mr mp mh now).1 c e = coNomB s c e := by
          unfold coNomB
          rw [hcoeq c]
        rw [hcoB]
        by_cases he : e ∈ empIds
        · obtain ⟨q, hfq, hg⟩ := hpagood e he
          rw [paNomB_eq_some hfq c]
          have hcell := hg.2.2.2.2.1
          cases hop : findParticipant s e with
          | some p0 =>
            rw [hop, basePaCell_some] at hcell
            rw [hcell, ← paNomB_eq_some hop c]
            exact hq4 c e
          | none =>
            rw [hop, basePaCell_none] at hcell
            rw [hcell, mem_empty_cell_false c]
            have hpre := hq4 c e
            rw [paNomB_eq_none hop c] at hpre
            exact hpre
        · have hppp : paNomB (updateEmployeeEventStatus s empIds absentIds
              eventId mr mp mh now).1 e c = paNomB s e c := by
            unfold paNomB
            rw [hpaframe e he]
          rw [hppp]
          exact hq4 c e
      · -- Cohorts Invited
        have hcoB : coInvB (updateEmployeeEventStatus s empIds absentIds
            eventId mr mp mh now).1 c e = coInvB s c e := by
          unfold coInvB
          rw [hcoeq c]
        rw [hcoB]
        by_cases he : e ∈ empIds
        · obtain ⟨q, hfq, hg⟩ := hpagood e he
          rw [paInvB_eq_some hfq c]
          have hcell := hg.2.2.2.2.2.1
          cases hop : findParticipant s e with
          | some p0 =>
            rw [hop, basePaCell_some] at hcell
            rw [hcell, ← paInvB_eq_some hop c]
            exact hq5 c e
          | none =>
            rw [hop, basePaCell_none] at hcell
            rw [hcell, mem_empty_cell_false c]
            have hpre := hq5 c e
            rw [paInvB_eq_none hop c] at hpre
            exact hpre
        · have hppp : paInvB (updateEmployeeEventStatus s empIds absentIds
              eventId mr mp mh now).1 e c = paInvB s e c := by
            unfold paInvB
            rw [hpaframe e he]
          rw [hppp]
          exact hq5 c e
      · -- Cohorts Joined
        have hcoB : coJoinB (updateEmployeeEventStatus s empIds absentIds
            eventId mr mp mh now).1 c e = coJoinB s c e := by
          unfold coJoinB
          rw [hcoeq c]
        rw [hcoB]
        by_cases he : e ∈ empIds
        · obtain ⟨q, hfq, hg⟩ := hpagood e he
          rw [paJoinB_eq_some hfq c]
          have hcell := hg.2.2.2.2.2.2
          cases hop : findParticipant s e with
          | some p0 =>
            rw [hop, basePaCell_some] at hcell
            rw [hcell, ← paJoinB_eq_some hop c]
            exact hq6 c e
          | none =>
            rw [hop, basePaCell_none] at hcell
            rw [hcell, mem_empty_cell_false c]
            have hpre := hq6 c e
            rw [paJoinB_eq_none hop c] at hpre
            exact hpre
        · have hppp : paJoinB (updateEmployeeEventStatus s empIds
              absentIds eventId mr mp mh now).1 e c = paJoinB s e c := by
            unfold paJoinB
            rw [hpaframe e he]
          rw [hppp]
          exact hq6 c e
    · unfold StateCellsWF
      refine ⟨?_, ?_, ?_⟩
      · intro r hr
        rw [updateEmployeeEventStatus_found hev hid hne] at hr
        rcases mem_updateFirst hr with h | ⟨b, hb, _, hpb⟩
        · exact hcE r h
        · rw [hpb]
          refine ⟨?_, ?_, ?_⟩
          · exact cellWF_cellOfSet (union_set_facts ev.registrations
              empIds (mr = some true) (fun k hk => (hids k hk).2)).2.1
          · exact cellWF_cellOfSet (union_set_facts ev.participantsCell
              empIds (mp = some true) (fun k hk => (hids k hk).2)).2.1
          · exact cellWF_cellOfSet (union_set_facts ev.hosted empIds
              (mh = some true) (fun k hk => (hids k hk).2)).2.1
      · intro p hp
        rw [updateEmployeeEventStatus_found hev hid hne] at hp
        refine eventFold_rows (fun p => CellWF p.eventsRegistered ∧
            CellWF p.eventsParticipated ∧ CellWF p.eventsHosted ∧
            CellWF p.cohortsNominated ∧ CellWF p.cohortsInvited ∧
            CellWF p.cohortsJoined) s.employees absentIds eventId mr mp mh
          now ?_ ?_ empIds (s.participants, s.couldNotFind) hcP p hp
        · intro b hQ
          exact ⟨cellWF_add_dim b.eventsRegistered eventId (mr = some
              true) hfe,
            cellWF_add_dim b.eventsParticipated eventId (mp = some true)
              hfe,
            cellWF_add_dim b.eventsHosted eventId (mh = some true) hfe,
            hQ.2.2.2.1, hQ.2.2.2.2.1, hQ.2.2.2.2.2⟩
        · intro k
          exact ⟨cellWF_empty, cellWF_empty, cellWF_empty, cellWF_empty,
            cellWF_empty, cellWF_empty⟩
      · intro c hc
        rw [updateEmployeeEventStatus_found hev hid hne] at hc
        exact hcC c hc

theorem coDim_add (cName cell : String) (mk : Bool)
    (hfc : commaFree cName) (hcn : cName ≠ "") (hwfc : CellWF cell) :
    (∀ x, x ∈ pySetOfCell (if mk then
        participantCohortDim cName "add" cell else (cell, false)).1 ↔
      (x ∈ pySetOfCell cell ∨ (mk = true ∧ x = cName))) ∧
    CellWF (if mk then participantCohortDim cName "add" cell
      else (cell, false)).1 := by
  cases mk with
  | false =>
    constructor
    · intro x
      constructor
      · intro hx; exact Or.inl hx
      · rintro (hx | ⟨h1, _⟩)
        · exact hx
        · cases h1
    · exact hwfc
  | true =>
    have hone : (if (true : Bool) then participantCohortDim cName "add"
        cell else (cell, false)).1 =
        (participantCohortDim cName "add" cell).1 := rfl
    rw [hone]
    by_cases hin : cName ∈ pySetOfCell cell
    · have h1 : ¬ (("add" : String) = "add" ∧
          cName ∉ pySetOfCell cell) := fun hc => hc.2 hin
      have h2 : ¬ (("add" : String) = "remove" ∧
          cName ∈ pySetOfCell cell) := fun hc => absurd hc.1 (by decide)
      have hcelleq : (participantCohortDim cName "add" cell).1 = cell := by
        simp only [participantCohortDim]
        rw [if_neg (show ¬ (True ∧ cName ∉ pySetOfCell cell) from
          fun hc => hc.2 hin), if_neg h2]
      rw [hcelleq]
      constructor
      · intro x
        constructor
        · intro hx; exact Or.inl hx
        · rintro (hx | ⟨_, h2x⟩)
          · exact hx
          · rw [h2x]; exact hin
      · exact hwfc
    · have h1 : ("add" : String) = "add" ∧ cName ∉ pySetOfCell cell :=
        ⟨rfl, hin⟩
      have hcelleq : (participantCohortDim cName "add" cell).1 =
          cellOfSet (pyAdd (pySetOfCell cell) cName) := by
        simp only [participantCohortDim]
        rw [if_pos (show True ∧ cName ∉ pySetOfCell cell from
          ⟨trivial, hin⟩)]
      rw [hcelleq]
      have hfr : ∀ y ∈ pyAdd (pySetOfCell cell) cName, commaFree y := by
        intro y hy
        rcases mem_pyAdd.mp hy with h | h
        · exact commaFree_of_mem_pySetOfCell h
        · rw [h]; exact hfc
      constructor
      · intro x
        rw [mem_pySetOfCell_cellOfSet hfr, mem_pyAdd]
        constructor
        · rintro ⟨h1x | h1x, h2x⟩
          · exact Or.inl h1x
          · exact Or.inr ⟨rfl, h1x⟩
        · rintro (hx | ⟨_, h2x⟩)
          · exact ⟨Or.inl hx, mem_pySetOfCell_ne_empty hwfc hx⟩
          · exact ⟨Or.inr h2x, by rw [h2x]; exact hcn⟩
      · exact cellWF_cellOfSet hfr

theorem coNew_dim_mem (cName : String) (mk : Bool) (hfc : commaFree cName)
    (hcn : cName ≠ "") :
    (∀ x, x ∈ pySetOfCell (cellOfSet (if mk then pyAdd [] cName else []))
      ↔ (x ∈ ([] : List String) ∨ (mk = true ∧ x = cName))) ∧
    CellWF (cellOfSet (if mk then pyAdd [] cName else [])) := by
  cases mk with
  | false =>
    constructor
    · intro x
      constructor
      · intro hx
        exact absurd (show x ∈ ([] : List String) from hx)
          (List.not_mem_nil x)
      · rintro (hx | ⟨h1, _⟩)
        · cases hx
        · cases h1
    · exact cellWF_cellOfSet (fun y hy =>
        absurd (show y ∈ ([] : List String) from hy) (List.not_mem_nil y))
  | true =>
    have hone : (if (true : Bool) then pyAdd ([] : List String) cName
        else []) = pyAdd [] cName := rfl
    rw [hone]
    have hfr : ∀ y ∈ pyAdd ([] : List String) cName, commaFree y := by
      intro y hy
      rcases mem_pyAdd.mp hy with h | h
      · cases h
      · rw [h]; exact hfc
    constructor
    · intro x
      rw [mem_pySetOfCell_cellOfSet hfr, mem_pyAdd]
      constructor
      · rintro ⟨h1 | h1, h2⟩
        · cases h1
        · exact Or.inr ⟨rfl, h1⟩
      · rintro (hx | ⟨_, h2⟩)
        · cases hx
        · exact ⟨Or.inr h2, by rw [h2]; exact hcn⟩
    · exact cellWF_cellOfSet hfr

theorem coRowGood_apply (k cName : String) (mn mi mj : Bool)
    (nb nd now : String) (o : Option ParticipantRow) (q : ParticipantRow)
    (hfc : commaFree cName) (hcn : cName ≠ "")
    (hg : CoRowGood k cName mn mi mj o q) :
    CoRowGood k cName mn mi mj o
      ((participantCohortApply cName mn mi mj "add" nb nd now q).1) := by
  obtain ⟨hsk, hm1, hm2, hm3, hw1, hw2, hw3, he1, he2, he3⟩ := hg
  have d1 := coDim_add cName q.cohortsNominated mn hfc hcn hw1
  have d2 := coDim_add cName q.cohortsInvited mi hfc hcn hw2
  have d3 := coDim_add cName q.cohortsJoined mj hfc hcn hw3
  unfold CoRowGood
  refine ⟨hsk, ?_, ?_, ?_, d1.2, d2.2, d3.2, he1, he2, he3⟩
  · intro x
    rw [coPostMem_def]
    have hdx := d1.1 x
    have hmx := hm1 x
    rw [coPostMem_def] at hmx
    constructor
    · intro hx
      rcases hdx.mp hx with h1 | h1
      · exact hmx.mp h1
      · exact Or.inr h1
    · intro hx
      refine hdx.mpr ?_
      rcases hx with h1 | h1
      · exact Or.inl (hmx.mpr (Or.inl h1))
      · exact Or.inr h1
  · intro x
    rw [coPostMem_def]
    have hdx := d2.1 x
    have hmx := hm2 x
    rw [coPostMem_def] at hmx
    constructor
    · intro hx
      rcases hdx.mp hx with h1 | h1
      · exact hmx.mp h1
      · exact Or.inr h1
    · intro hx
      refine hdx.mpr ?_
      rcases hx with h1 | h1
      · exact Or.inl (hmx.mpr (Or.inl h1))
      · exact Or.inr h1
  · intro x
    rw [coPostMem_def]
    have hdx := d3.1 x
    have hmx := hm3 x
    rw [coPostMem_def] at hmx
    constructor
    · intro hx
      rcases hdx.mp hx with h1 | h1
      · exact hmx.mp h1
      · exact Or.inr h1
    · intro hx
      refine hdx.mpr ?_
      rcases hx with h1 | h1
      · exact Or.inl (hmx.mpr (Or.inl h1))
      · exact Or.inr h1

theorem coRowGood_apply_some (k cName : String) (mn mi mj : Bool)
    (nb nd now : String) (p : ParticipantRow)
    (hfc : commaFree cName) (hcn : cName ≠ "") (hpk : p.standardID = k)
    (hw : CellWF p.cohortsNominated ∧ CellWF p.cohortsInvited ∧
      CellWF p.cohortsJoined) :
    CoRowGood k cName mn mi mj (some p)
      ((participantCohortApply cName mn mi mj "add" nb nd now p).1) := by
  have d1 := coDim_add cName p.cohortsNominated mn hfc hcn hw.1
  have d2 := coDim_add cName p.cohortsInvited mi hfc hcn hw.2.1
  have d3 := coDim_add cName p.cohortsJoined mj hfc hcn hw.2.2
  unfold CoRowGood
  refine ⟨hpk, ?_, ?_, ?_, d1.2, d2.2, d3.2, rfl, rfl, rfl⟩
  · intro x
    rw [coPostMem_def, basePaSet_some]
    exact d1.1 x
  · intro x
    rw [coPostMem_def, basePaSet_some]
    exact d2.1 x
  · intro x
    rw [coPostMem_def, basePaSet_some]
    exact d3.1 x

theorem coRowGood_new (employees : List EmployeeRow) (k cName : String)
    (mn mi mj : Bool) (nb nd now : String)
    (hfc : commaFree cName) (hcn : cName ≠ "") :
    CoRowGood k cName mn mi mj none
      (newCohortParticipantRow employees cName mn mi mj nb nd now k) := by
  unfold CoRowGood
  refine ⟨rfl, ?_, ?_, ?_, (coNew_dim_mem cName mn hfc hcn).2,
    (coNew_dim_mem cName mi hfc hcn).2, (coNew_dim_mem cName mj hfc
      hcn).2, rfl, rfl, rfl⟩
  · intro x
    rw [coPostMem_def, basePaSet_none]
    exact (coNew_dim_mem cName mn hfc hcn).1 x
  · intro x
    rw [coPostMem_def, basePaSet_none]
    exact (coNew_dim_mem cName mi hfc hcn).1 x
  · intro x
    rw [coPostMem_def, basePaSet_none]
    exact (coNew_dim_mem cName mj hfc hcn).1 x

theorem cohortStep_find_other (employees : List EmployeeRow)
    (absentIds : List String) (cName : String) (mn mi mj : Bool)
    (actionType nb nd now : String)
    (acc : List ParticipantRow × List (String × String) × Bool)
    (a E : String) (hne : E ≠ a) :
    ((cohortParticipantStep employees absentIds cName mn mi mj actionType
        nb nd now acc a).1).find? (fun p => decide (p.standardID = E)) =
      acc.1.find? (fun p => decide (p.standardID = E)) := by
  unfold cohortParticipantStep
  cases hfind : acc.1.find? (fun p => decide (p.standardID = a)) with
  | some p0 =>
    dsimp only
    refine find?_updateFirst_ne_of (fun x hx => ?_) acc.1
    have hxa : x.standardID = a := by simpa using hx
    constructor
    · exact decide_eq_false (by rw [hxa]; exact Ne.symm hne)
    · exact decide_eq_false (by
        rw [show ((participantCohortApply cName mn mi mj actionType nb nd
          now x).1).standardID = x.standardID from rfl, hxa]
        exact Ne.symm hne)
  | none =>
    dsimp only
    by_cases hact : actionType = "add"
    · rw [if_pos hact]
      dsimp only
      rw [List.find?_append]
      have hnil : List.find? (fun p => decide (p.standardID = E))
          [newCohortParticipantRow employees cName mn mi mj nb nd now a] =
          none := by
        rw [List.find?_cons]
        rw [show decide ((newCohortParticipantRow employees cName mn mi mj
          nb nd now a).standardID = E) = false from decide_eq_false (by
            rw [show (newCohortParticipantRow employees cName mn mi mj nb
              nd now a).standardID = a from rfl]
            exact fun hc => hne hc.symm)]
        rfl
      rw [hnil, Option.or_none]
    · rw [if_neg hact]

theorem cohortStep_find_self_some (employees : List EmployeeRow)
    (absentIds : List String) (cName : String) (mn mi mj : Bool)
    (actionType nb nd now : String)
    (acc : List ParticipantRow × List (String × String) × Bool)
    (k : String) (p0 : ParticipantRow)
    (hfind : acc.1.find? (fun p => decide (p.standardID = k)) = some p0) :
    ((cohortParticipantStep employees absentIds cName mn mi mj actionType
        nb nd now acc k).1).find? (fun p => decide (p.standardID = k)) =
      some ((participantCohortApply cName mn mi mj actionType nb nd now
        p0).1) := by
  unfold cohortParticipantStep
  rw [hfind]
  dsimp only
  refine find?_updateFirst_self hfind ?_
  have hpk : p0.standardID = k := by simpa using List.find?_some hfind
  show decide (((participantCohortApply cName mn mi mj actionType nb nd
    now p0).1).standardID = k) = true
  rw [show ((participantCohortApply cName mn mi mj actionType nb nd now
    p0).1).standardID = p0.standardID from rfl, hpk]
  simp

theorem cohortStep_find_self_none (employees : List EmployeeRow)
    (absentIds : List String) (cName : String) (mn mi mj : Bool)
    (nb nd now : String)
    (acc : List ParticipantRow × List (String × String) × Bool)
    (k : String)
    (hfind : acc.1.find? (fun p => decide (p.standardID = k)) = none) :
    ((cohortParticipantStep employees absentIds cName mn mi mj "add" nb nd
        now acc k).1).find? (fun p => decide (p.standardID = k)) =
      some (newCohortParticipantRow employees cName mn mi mj nb nd now
        k) := by
  unfold cohortParticipantStep
  rw [hfind]
  dsimp only
  rw [if_pos rfl]
  dsimp only
  rw [List.find?_append, hfind, Option.none_or, List.find?_cons]
  rw [show decide ((newCohortParticipantRow employees cName mn mi mj nb nd
    now k).standardID = k) = true from by
      rw [show (newCohortParticipantRow employees cName mn mi mj nb nd now
        k).standardID = k from rfl]
      simp]

theorem cohortFold_find_frame (employees : List EmployeeRow)
    (absentIds : List String) (cName : String) (mn mi mj : Bool)
    (actionType nb nd now : String) (E : String) :
    ∀ (l : List String)
      (acc : List ParticipantRow × List (String × String) × Bool),
      E ∉ l →
      ((l.foldl (cohortParticipantStep employees absentIds cName mn mi mj
          actionType nb nd now) acc).1).find?
        (fun p => decide (p.standardID = E)) =
        acc.1.find? (fun p => decide (p.standardID = E))
  | [], _, _ => rfl
  | a :: l, acc, hE => by
    rw [List.foldl_cons]
    rw [cohortFold_find_frame employees absentIds cName mn mi mj
      actionType nb nd now E l _
      (fun hc => hE (List.mem_cons_of_mem _ hc))]
    exact cohortStep_find_other employees absentIds cName mn mi mj
      actionType nb nd now acc a E
      (fun hc => hE (by rw [hc]; exact List.mem_cons_self _ _))

theorem cohortFold_some_good (employees : List EmployeeRow)
    (absentIds : List String) (cName : String) (mn mi mj : Bool)
    (nb nd now : String) (k : String) (o : Option ParticipantRow)
    (hfc : commaFree cName) (hcn : cName ≠ "") :
    ∀ (l : List String)
      (acc : List ParticipantRow × List (String × String) × Bool),
      (∃ q0, acc.1.find? (fun p => decide (p.standardID = k)) = some q0 ∧
        CoRowGood k cName mn mi mj o q0) →
      ∃ q, ((l.foldl (cohortParticipantStep employees absentIds cName mn
          mi mj "add" nb nd now) acc).1).find?
        (fun p => decide (p.standardID = k)) = some q ∧
        CoRowGood k cName mn mi mj o q
  | [], _, h => h
  | a :: l, acc, h => by
    rw [List.foldl_cons]
    refine cohortFold_some_good employees absentIds cName mn mi mj nb nd
      now k o hfc hcn l _ ?_
    obtain ⟨q0, hq0, hg⟩ := h
    by_cases ha : a = k
    · rw [ha]
      rw [cohortStep_find_self_some employees absentIds cName mn mi mj
        "add" nb nd now acc k q0 hq0]
      exact ⟨_, rfl, coRowGood_apply k cName mn mi mj nb nd now o q0 hfc
        hcn hg⟩
    · rw [cohortStep_find_other employees absentIds cName mn mi mj "add"
        nb nd now acc a k (fun hc => ha hc.symm)]
      exact ⟨q0, hq0, hg⟩

theorem cohortFold_mem_good (employees : List EmployeeRow)
    (absentIds : List String) (cName : String) (mn mi mj : Bool)
    (nb nd now : String) (k : String) (o : Option ParticipantRow)
    (hfc : commaFree cName) (hcn : cName ≠ "")
    (hk : ∀ p, o = some p → p.standardID = k)
    (how : ∀ p, o = some p → CellWF p.cohortsNominated ∧
      CellWF p.cohortsInvited ∧ CellWF p.cohortsJoined) :
    ∀ (l : List String)
      (acc : List ParticipantRow × List (String × String) × Bool), k ∈ l →
      acc.1.find? (fun p => decide (p.standardID = k)) = o →
      ∃ q, ((l.foldl (cohortParticipantStep employees absentIds cName mn
          mi mj "add" nb nd now) acc).1).find?
        (fun p => decide (p.standardID = k)) = some q ∧
        CoRowGood k cName mn mi mj o q
  | [], _, hkl, _ => absurd hkl (List.not_mem_nil k)
  | a :: l, acc, hkl, ho => by
    rw [List.foldl_cons]
    by_cases ha : a = k
    · rw [ha]
      refine cohortFold_some_good employees absentIds cName mn mi mj nb nd
        now k o hfc hcn l _ ?_
      cases o with
      | some p =>
        rw [cohortStep_find_self_some employees absentIds cName mn mi mj
          "add" nb nd now acc k p ho]
        exact ⟨_, rfl, coRowGood_apply_some k cName mn mi mj nb nd now p
          hfc hcn (hk p rfl) (how p rfl)⟩
      | none =>
        rw [cohortStep_find_self_none employees absentIds cName mn mi mj
          nb nd now acc k ho]
        exact ⟨_, rfl, coRowGood_new employees k cName mn mi mj nb nd now
          hfc hcn⟩
    · have hkl' : k ∈ l := by
        rcases List.mem_cons.mp hkl with h | h
        · exact absurd h.symm ha
        · exact h
      refine cohortFold_mem_good employees absentIds cName mn mi mj nb nd
        now k o hfc hcn hk how l _ hkl' ?_
      rw [cohortStep_find_other employees absentIds cName mn mi mj "add"
        nb nd now acc a k (fun hc => ha hc.symm)]
      exact ho

theorem cohortStep_rows (Q : ParticipantRow → Prop)
    (employees : List EmployeeRow) (absentIds : List String)
    (cName : String) (mn mi mj : Bool) (actionType nb nd now : String)
    (hQa : ∀ p, Q p →
      Q ((participantCohortApply cName mn mi mj actionType nb nd now
        p).1))
    (hQn : ∀ k, Q (newCohortParticipantRow employees cName mn mi mj nb nd
      now k))
    (acc : List ParticipantRow × List (String × String) × Bool)
    (a : String) (hacc : ∀ p ∈ acc.1, Q p) :
    ∀ p ∈ (cohortParticipantStep employees absentIds cName mn mi mj
      actionType nb nd now acc a).1, Q p := by
  intro p hp
  unfold cohortParticipantStep at hp
  rcases hfind : acc.1.find? (fun q => decide (q.standardID = a)) with
    _ | p0
  · rw [hfind] at hp
    dsimp only at hp
    by_cases hact : actionType = "add"
    · rw [if_pos hact] at hp
      dsimp only at hp
      rcases List.mem_append.mp hp with h | h
      · exact hacc p h
      · rw [List.mem_singleton.mp h]
        exact hQn a
    · rw [if_neg hact] at hp
      exact hacc p hp
  · rw [hfind] at hp
    dsimp only at hp
    rcases mem_updateFirst hp with h | ⟨b, hb, _, hpb⟩
    · exact hacc p h
    · rw [hpb]
      exact hQa b (hacc b hb)

theorem cohortFold_rows (Q : ParticipantRow → Prop)
    (employees : List EmployeeRow) (absentIds : List String)
    (cName : String) (mn mi mj : Bool) (actionType nb nd now : String)
    (hQa : ∀ p, Q p →
      Q ((participantCohortApply cName mn mi mj actionType nb nd now
        p).1))
    (hQn : ∀ k, Q (newCohortParticipantRow employees cName mn mi mj nb nd
      now k)) :
    ∀ (l : List String)
      (acc : List ParticipantRow × List (String × String) × Bool),
      (∀ p ∈ acc.1, Q p) →
      ∀ p ∈ (l.foldl (cohortParticipantStep employees absentIds cName mn
        mi mj actionType nb nd now) acc).1, Q p
  | [], _, hacc => hacc
  | a :: l, acc, hacc => by
    rw [List.foldl_cons]
    exact cohortFold_rows Q employees absentIds cName mn mi mj actionType
      nb nd now hQa hQn l _ (cohortStep_rows Q employees absentIds cName
        mn mi mj actionType nb nd now hQa hQn acc a hacc)

theorem participantCohortDim_not_assigned {cName actionType cell : String}
    (h : (participantCohortDim cName actionType cell).2 = false) :
    (participantCohortDim cName actionType cell).1 = cell := by
  simp only [participantCohortDim] at h ⊢
  by_cases h1 : actionType = "add" ∧ cName ∉ pySetOfCell cell
  · rw [if_pos h1] at h
    cases h
  · rw [if_neg h1] at h ⊢
    by_cases h2 : actionType = "remove" ∧ cName ∈ pySetOfCell cell
    · rw [if_pos h2] at h
      cases h
    · rw [if_neg h2]

theorem nested_guard_fst {α : Type} (c : Prop) [Decidable c] (c2 : Prop)
    [Decidable c2] (y x : α)
    (h : (if c then (if c2 then (y, true) else (x, false))
      else (x, false)).2 = false) :
    (if c then (if c2 then (y, true) else (x, false))
      else (x, false)).1 = x := by
  by_cases hc : c
  · rw [if_pos hc] at h ⊢
    by_cases hc2 : c2
    · rw [if_pos hc2] at h
      cases h
    · rw [if_neg hc2]
  · rw [if_neg hc]

theorem flag_dim_fst (mk : Bool) (cName actionType cell : String)
    (h : (if mk then participantCohortDim cName actionType cell
      else (cell, false)).2 = false) :
    (if mk then participantCohortDim cName actionType cell
      else (cell, false)).1 = cell := by
  cases mk with
  | true =>
    have hone : (if (true : Bool) then participantCohortDim cName
        actionType cell else (cell, false)) =
        participantCohortDim cName actionType cell := rfl
    rw [hone] at h ⊢
    exact participantCohortDim_not_assigned h
  | false => rfl

theorem participantCohortApply_not_changed (cName : String)
    (mn mi mj : Bool) (actionType nb nd now : String) (p : ParticipantRow)
    (h : (participantCohortApply cName mn mi mj actionType nb nd now
      p).2 = false) :
    (participantCohortApply cName mn mi mj actionType nb nd now p).1 =
      p := by
  have h' := h
  simp only [participantCohortApply, Bool.or_eq_false_iff] at h'
  obtain ⟨⟨⟨⟨h1, h2⟩, h3⟩, h4⟩, h5⟩ := h'
  simp only [participantCohortApply]
  rw [flag_dim_fst mn cName actionType p.cohortsNominated h1,
    flag_dim_fst mi cName actionType p.cohortsInvited h2,
    flag_dim_fst mj cName actionType p.cohortsJoined h3,
    nested_guard_fst _ _ _ _ h4, nested_guard_fst _ _ _ _ h5,
    h1, h2, h3, h4, h5]
  rfl

theorem cohortStep_flag_mono (employees : List EmployeeRow)
    (absentIds : List String) (cName : String) (mn mi mj : Bool)
    (actionType nb nd now : String)
    (acc : List ParticipantRow × List (String × String) × Bool)
    (a : String) (h : acc.2.2 = true) :
    (cohortParticipantStep employees absentIds cName mn mi mj actionType
      nb nd now acc a).2.2 = true := by
  unfold cohortParticipantStep
  cases hfind : acc.1.find? (fun p => decide (p.standardID = a)) with
  | some p0 =>
    dsimp only
    rw [h]
    rfl
  | none =>
    dsimp only
    by_cases hact : actionType = "add"
    · rw [if_pos hact]
    · rw [if_neg hact]
      exact h

theorem cohortFold_flag_mono (employees : List EmployeeRow)
    (absentIds : List String) (cName : String) (mn mi mj : Bool)
    (actionType nb nd now : String) :
    ∀ (l : List String)
      (acc : List ParticipantRow × List (String × String) × Bool),
      acc.2.2 = true →
      ((l.foldl (cohortParticipantStep employees absentIds cName mn mi mj
        actionType nb nd now) acc).2.2) = true
  | [], _, h => h
  | a :: l, acc, h => by
    rw [List.foldl_cons]
    exact cohortFold_flag_mono employees absentIds cName mn mi mj
      actionType nb nd now l _ (cohortStep_flag_mono employees absentIds
        cName mn mi mj actionType nb nd now acc a h)

theorem cohortFold_false_id (employees : List EmployeeRow)
    (absentIds : List String) (cName : String) (mn mi mj : Bool)
    (actionType nb nd now : String) :
    ∀ (l : List String)
      (acc : List ParticipantRow × List (String × String) × Bool),
      ((l.foldl (cohortParticipantStep employees absentIds cName mn mi mj
        actionType nb nd now) acc).2.2) = false →
      ((l.foldl (cohortParticipantStep employees absentIds cName mn mi mj
        actionType nb nd now) acc).1) = acc.1
  | [], _, _ => rfl
  | a :: l, acc, h => by
    rw [List.foldl_cons] at h ⊢
    have hsf : (cohortParticipantStep employees absentIds cName mn mi mj
        actionType nb nd now acc a).2.2 = false := by
      by_cases hs : (cohortParticipantStep employees absentIds cName mn mi
          mj actionType nb nd now acc a).2.2 = true
      · rw [cohortFold_flag_mono employees absentIds cName mn mi mj
          actionType nb nd now l _ hs] at h
        cases h
      · simpa using hs
    rw [cohortFold_false_id employees absentIds cName mn mi mj actionType
      nb nd now l _ h]
    unfold cohortParticipantStep at hsf ⊢
    cases hfind : acc.1.find? (fun p => decide (p.standardID = a)) with
    | some p0 =>
      rw [hfind] at hsf
      dsimp only at hsf
      dsimp only
      have hpr : (participantCohortApply cName mn mi mj actionType nb nd
          now p0).2 = false := (Bool.or_eq_false_iff.mp hsf).2
      refine updateFirst_eq_self fun b hb => ?_
      rw [hfind] at hb
      injection hb with hb
      rw [← hb]
      exact participantCohortApply_not_changed cName mn mi mj actionType
        nb nd now p0 hpr
    | none =>
      rw [hfind] at hsf
      dsimp only at hsf ⊢
      by_cases hact : actionType = "add"
      · rw [if_pos hact] at hsf
        dsimp only at hsf
        cases hsf
      · rw [if_neg hact]

theorem cohortRowApply_dim_mem (empIds : List String) (mk : Bool)
    (cell : String) (hids : ∀ k ∈ empIds, k ≠ "" ∧ commaFree k)
    (hwfc : CellWF cell) :
    (∀ e, e ∈ pySetOfCell (if mk then cohortDimApply empIds "add" cell
        else (cell, (0 : Int))).1 ↔
      (e ∈ pySetOfCell cell ∨ (mk = true ∧ e ∈ empIds))) ∧
    CellWF (if mk then cohortDimApply empIds "add" cell
      else (cell, (0 : Int))).1 := by
  cases mk with
  | false =>
    constructor
    · intro e
      constructor
      · intro hx; exact Or.inl hx
      · rintro (hx | ⟨h1, _⟩)
        · exact hx
        · cases h1
    · exact hwfc
  | true =>
    have hone : (if (true : Bool) then cohortDimApply empIds "add" cell
        else (cell, (0 : Int))).1 = (cohortDimApply empIds "add" cell).1 :=
      rfl
    rw [hone]
    have hcd : (cohortDimApply empIds "add" cell).1 =
        cellOfSet (pyUnion (pySetOfCell cell) empIds) := by
      simp only [cohortDimApply]
      rw [if_pos trivial]
    rw [hcd]
    have hfr : ∀ y ∈ pyUnion (pySetOfCell cell) empIds, commaFree y :=
      commaFree_union_cell (fun k hk => (hids k hk).2)
    constructor
    · intro e
      rw [mem_pySetOfCell_cellOfSet hfr, mem_pyUnion]
      constructor
      · rintro ⟨h1 | h1, _⟩
        · exact Or.inl h1
        · exact Or.inr ⟨rfl, h1⟩
      · rintro (hx | ⟨_, h2⟩)
        · exact ⟨Or.inl hx, mem_pySetOfCell_ne_empty hwfc hx⟩
        · exact ⟨Or.inr h2, (hids e h2).1⟩
    · exact cellWF_cellOfSet hfr

theorem cohortOp_preserves (s : AppState) (cohortName : String)
    (empIds absentIds : List String) (mn mi mj : Bool) (nb nd now : String)
    (hids : ∀ k ∈ empIds, k ≠ "" ∧ commaFree k)
    (hfc : commaFree cohortName)
    (hcons : Consistent s) (hcells : StateCellsWF s) :
    Consistent (updateCohortMembership s cohortName empIds absentIds mn mi
      mj nb nd "add" now).1 ∧
    StateCellsWF (updateCohortMembership s cohortName empIds absentIds mn
      mi mj nb nd "add" now).1 := by
  by_cases hdeg : cohortName = "" ∨ empIds = [] ∨
      (mn = false ∧ mi = false ∧ mj = false)
  · have hz : updateCohortMembership s cohortName empIds absentIds mn mi
        mj nb nd "add" now = (s, 0, 0, 0) := by
      simp only [updateCohortMembership]
      rw [if_pos hdeg]
    rw [hz]
    exact ⟨hcons, hcells⟩
  push_neg at hdeg
  obtain ⟨hcn, hne, hflag'⟩ := hdeg
  have hflag : ¬ (mn = false ∧ mi = false ∧ mj = false) := by
    intro hc
    exact absurd hc.2.2 (hflag' hc.1 hc.2.1)
  cases hco : findCohort s cohortName with
  | none =>
    have hcond : ¬ (cohortName = "" ∨ empIds = [] ∨
        (mn = false ∧ mi = false ∧ mj = false)) := by
      rintro (h | h | h)
      exacts [hcn h, hne h, hflag h]
    have hz : updateCohortMembership s cohortName empIds absentIds mn mi
        mj nb nd "add" now = (s, 0, 0, 0) := by
      simp only [updateCohortMembership]
      rw [if_neg hcond, hco]
    rw [hz]
    exact ⟨hcons, hcells⟩
  | some c =>
    have hcons' := hcons
    unfold Consistent at hcons'
    obtain ⟨hq1, hq2, hq3, hq4, hq5, hq6⟩ := hcons'
    have hcells' := hcells
    unfold StateCellsWF at hcells'
    obtain ⟨hcE, hcP, hcC⟩ := hcells'
    have hfindc : s.cohorts.find? (fun r => decide (r.name = cohortName))
        = some c := hco
    have hkeyb := List.find?_some hfindc
    have hkey : c.name = cohortName := by simpa using hkeyb
    have hcomem := List.mem_of_find?_eq_some hfindc
    have hwell := hcC c hcomem
    have hparts : (updateCohortMembership s cohortName empIds absentIds mn
        mi mj nb nd "add" now).1.participants =
        (empIds.foldl (cohortParticipantStep s.employees absentIds
          cohortName mn mi mj "add" nb nd now)
          (s.participants, s.couldNotFind, false)).1 := by
      rw [updateCohortMembership_found hco hcn hne hflag]
      by_cases hf : (empIds.foldl (cohortParticipantStep s.employees
          absentIds cohortName mn mi mj "add" nb nd now)
          (s.participants, s.couldNotFind, false)).2.2 = true
      · rw [if_pos hf]
      · have hf2 : (empIds.foldl (cohortParticipantStep s.employees
            absentIds cohortName mn mi mj "add" nb nd now)
            (s.participants, s.couldNotFind, false)).2.2 = false := by
          simpa using hf
        rw [if_neg hf]
        exact (cohortFold_false_id s.employees absentIds cohortName mn mi
          mj "add" nb nd now empIds
          (s.participants, s.couldNotFind, false) hf2).symm
    have hcosome : findCohort (updateCohortMembership s cohortName empIds
        absentIds mn mi mj nb nd "add" now).1 cohortName =
        some (cohortRowApply empIds mn mi mj "add" c).1 := by
      rw [updateCohortMembership_found hco hcn hne hflag]
      refine find?_updateFirst_self hfindc ?_
      show decide ((cohortRowApply empIds mn mi mj "add" c).1.name =
        cohortName) = true
      rw [cohortRowApply_name]
      exact hkeyb
    have hcoframe : ∀ cn, cn ≠ cohortName →
        findCohort (updateCohortMembership s cohortName empIds absentIds
          mn mi mj nb nd "add" now).1 cn = findCohort s cn := by
      intro cn hcn2
      rw [updateCohortMembership_found hco hcn hne hflag]
      refine find?_updateFirst_ne_of (fun x hx => ?_) s.cohorts
      have hxn : x.name = cohortName := by simpa using hx
      constructor
      · exact decide_eq_false (by rw [hxn]; exact Ne.symm hcn2)
      · exact decide_eq_false (by
          rw [show ((fun _ => (cohortRowApply empIds mn mi mj "add" c).1)
            x).name = c.name from rfl, hkey]
          exact Ne.symm hcn2)
    have heveq : ∀ v, findEvent (updateCohortMembership s cohortName
        empIds absentIds mn mi mj nb nd "add" now).1 v = findEvent s v := by
      intro v
      rw [updateCohortMembership_found hco hcn hne hflag]
      exact rfl
    have hpaframe : ∀ e, e ∉ empIds →
        findParticipant (updateCohortMembership s cohortName empIds
          absentIds mn mi mj nb nd "add" now).1 e =
        findParticipant s e := by
      intro e he
      unfold findParticipant
      rw [hparts]
      exact cohortFold_find_frame s.employees absentIds cohortName mn mi
        mj "add" nb nd now e empIds
        (s.participants, s.couldNotFind, false) he
    have hpagood : ∀ e ∈ empIds, ∃ q,
        findParticipant (updateCohortMembership s cohortName empIds
          absentIds mn mi mj nb nd "add" now).1 e = some q ∧
        CoRowGood e cohortName mn mi mj (findParticipant s e) q := by
      intro e he
      unfold findParticipant
      rw [hparts]
      refine cohortFold_mem_good s.employees absentIds cohortName mn mi mj
        nb nd now e _ hfc hcn (fun p hp => ?_) (fun p hp => ?_) empIds
        (s.participants, s.couldNotFind, false) he rfl
      · have := List.find?_some hp
        simpa using this
      · have hmem := List.mem_of_find?_eq_some (show s.participants.find?
          (fun q => decide (q.standardID = e)) = some p from hp)
        exact ⟨(hcP p hmem).2.2.2.1, (hcP p hmem).2.2.2.2.1,
          (hcP p hmem).2.2.2.2.2⟩
    have hcom1 : ∀ e, e ∈ pySetOfCell (cohortRowApply empIds mn mi mj
        "add" c).1.nominated ↔ (e ∈ pySetOfCell c.nominated ∨
        (mn = true ∧ e ∈ empIds)) :=
      (cohortRowApply_dim_mem empIds mn c.nominated hids hwell.1).1
    have hcom2 : ∀ e, e ∈ pySetOfCell (cohortRowApply empIds mn mi mj
        "add" c).1.invited ↔ (e ∈ pySetOfCell c.invited ∨
        (mi = true ∧ e ∈ empIds)) :=
      (cohortRowApply_dim_mem empIds mi c.invited hids hwell.2.1).1
    have hcom3 : ∀ e, e ∈ pySetOfCell (cohortRowApply empIds mn mi mj
        "add" c).1.joined ↔ (e ∈ pySetOfCell c.joined ∨
        (mj = true ∧ e ∈ empIds)) :=
      (cohortRowApply_dim_mem empIds mj c.joined hids hwell.2.2).1
    constructor
    · unfold Consistent
      refine ⟨fun v e => ?_, fun v e => ?_, fun v e => ?_,
        fun cn e => ?_, fun cn e => ?_, fun cn e => ?_⟩
      · -- Registered
        have hevv : evRegB (updateCohortMembership s cohortName empIds
            absentIds mn mi mj nb nd "add" now).1 v e = evRegB s v e := by
          unfold evRegB
          rw [heveq v]
        rw [hevv]
        by_cases he : e ∈ empIds
        · obtain ⟨q, hfq, hg⟩ := hpagood e he
          rw [paRegB_eq_some hfq v]
          have hcell := hg.2.2.2.2.2.2.2.1
          cases hop : findParticipant s e with
          | some p0 =>
            rw [hop, basePaCell_some] at hcell
            rw [hcell, ← paRegB_eq_some hop v]
            exact hq1 v e
          | none =>
            rw [hop, basePaCell_none] at hcell
            rw [hcell, mem_empty_cell_false v]
            have hpre := hq1 v e
            rw [paRegB_eq_none hop v] at hpre
            exact hpre
        · have hppp : paRegB (updateCohortMembership s cohortName empIds
              absentIds mn mi mj nb nd "add" now).1 e v =
              paRegB s e v := by
            unfold paRegB
            rw [hpaframe e he]
          rw [hppp]
          exact hq1 v e
      · -- Participated
        have hevv : evPartB (updateCohortMembership s cohortName empIds
            absentIds mn mi mj nb nd "add" now).1 v e = evPartB s v e := by
          unfold evPartB
          rw [heveq v]
        rw [hevv]
        by_cases he : e ∈ empIds
        · obtain ⟨q, hfq, hg⟩ := hpagood e he
          rw [paPartB_eq_some hfq v]
          have hcell := hg.2.2.2.2.2.2.2.2.1
          cases hop : findParticipant s e with
          | some p0 =>
            rw [hop, basePaCell_some] at hcell
            rw [hcell, ← paPartB_eq_some hop v]
            exact hq2 v e
          | none =>
            rw [hop, basePaCell_none] at hcell
            rw [hcell, mem_empty_cell_false v]
            have hpre := hq2 v e
            rw [paPartB_eq_none hop v] at hpre
            exact hpre
        · have hppp : paPartB (updateCohortMembership s cohortName empIds
              absentIds mn mi mj nb nd "add" now).1 e v =
              paPartB s e v := by
            unfold paPartB
            rw [hpaframe e he]
          rw [hppp]
          exact hq2 v e
      · -- Hosted
        have hevv : evHostB (updateCohortMembership s cohortName empIds
            absentIds mn mi mj nb nd "add" now).1 v e = evHostB s v e := by
          unfold evHostB
          rw [heveq v]
        rw [hevv]
        by_cases he : e ∈ empIds
        · obtain ⟨q, hfq, hg⟩ := hpagood e he
          rw [paHostB_eq_some hfq v]
          have hcell := hg.2.2.2.2.2.2.2.2.2
          cases hop : findParticipant s e with
          | some p0 =>
            rw [hop, basePaCell_some] at hcell
            rw [hcell, ← paHostB_eq_some hop v]
            exact hq3 v e
          | none =>
            rw [hop, basePaCell_none] at hcell
            rw [hcell, mem_empty_cell_false v]
            have hpre := hq3 v e
            rw [paHostB_eq_none hop v] at hpre
            exact hpre
        · have hppp : paHostB (updateCohortMembership s cohortName empIds
              absentIds mn mi mj nb nd "add" now).1 e v =
              paHostB s e v := by
            unfold paHostB
            rw [hpaframe e he]
          rw [hppp]
          exact hq3 v e
      · -- Cohorts Nominated
        by_cases hcn2 : cn = cohortName
        · rw [hcn2, coNomB_eq_some hcosome e]
          by_cases he : e ∈ empIds
          · obtain ⟨q, hfq, hg⟩ := hpagood e he
            rw [paNomB_eq_some hfq cohortName]
            refine decide_eq_decide.mpr ?_
            have hm := hg.2.1 cohortName
            rw [coPostMem_def] at hm
            have hcom := hcom1 e
            cases hop : findParticipant s e with
            | some p0 =>
              rw [hop, basePaSet_some] at hm
              have hpre := hq4 cohortName e
              rw [coNomB_eq_some hco e, paNomB_eq_some hop cohortName]
                at hpre
              have hpre2 := decide_eq_decide.mp hpre
              constructor
              · intro hx
                rcases hcom.mp hx with h1 | ⟨h1, _⟩
                · exact hm.mpr (Or.inl (hpre2.mp h1))
                · exact hm.mpr (Or.inr ⟨h1, rfl⟩)
              · intro hx
                rcases hm.mp hx with h1 | ⟨h1, _⟩
                · exact hcom.mpr (Or.inl (hpre2.mpr h1))
                · exact hcom.mpr (Or.inr ⟨h1, he⟩)
            | none =>
              rw [hop, basePaSet_none] at hm
              have hpre := hq4 cohortName e
              rw [coNomB_eq_some hco e, paNomB_eq_none hop cohortName]
                at hpre
              have hnotin : e ∉ pySetOfCell c.nominated := by
                simpa using hpre
              constructor
              · intro hx
                rcases hcom.mp hx with h1 | ⟨h1, _⟩
                · exact absurd h1 hnotin
                · exact hm.mpr (Or.inr ⟨h1, rfl⟩)
              · intro hx
                rcases hm.mp hx with h1 | ⟨h1, _⟩
                · exact absurd h1 (List.not_mem_nil cohortName)
                · exact hcom.mpr (Or.inr ⟨h1, he⟩)
          · have hppp : paNomB (updateCohortMembership s cohortName empIds
                absentIds mn mi mj nb nd "add" now).1 e cohortName =
                paNomB s e cohortName := by
              unfold paNomB
              rw [hpaframe e he]
            rw [hppp]
            have hpre := hq4 cohortName e
            rw [coNomB_eq_some hco e] at hpre
            rw [← hpre]
            refine decide_eq_decide.mpr ?_
            have hcom := hcom1 e
            constructor
            · intro hx
              rcases hcom.mp hx with h1 | ⟨_, h2⟩
              · exact h1
              · exact absurd h2 he
            · intro hx
              exact hcom.mpr (Or.inl hx)
        · have hcoB : coNomB (updateCohortMembership s cohortName empIds
              absentIds mn mi mj nb nd "add" now).1 cn e =
              coNomB s cn e := by
            unfold coNomB
            rw [hcoframe cn hcn2]
          rw [hcoB]
          by_cases he : e ∈ empIds
          · obtain ⟨q, hfq, hg⟩ := hpagood e he
            rw [paNomB_eq_some hfq cn]
            have hm := hg.2.1 cn
            rw [coPostMem_def] at hm
            cases hop : findParticipant s e with
            | some p0 =>
              rw [hop, basePaSet_some] at hm
              have hpre := hq4 cn e
              rw [paNomB_eq_some hop cn] at hpre
              rw [hpre]
              refine decide_eq_decide.mpr ?_
              constructor
              · intro hx
                exact hm.mpr (Or.inl hx)
              · intro hx
                rcases hm.mp hx with h1 | ⟨_, h2⟩
                · exact h1
                · exact absurd h2 hcn2
            | none =>
              rw [hop, basePaSet_none] at hm
              have hpre := hq4 cn e
              rw [paNomB_eq_none hop cn] at hpre
              rw [hpre]
              symm
              refine decide_eq_false ?_
              intro hx
              rcases hm.mp hx with h1 | ⟨_, h2⟩
              · exact List.not_mem_nil cn h1
              · exact hcn2 h2
          · have hppp : paNomB (updateCohortMembership s cohortName empIds
                absentIds mn mi mj nb nd "add" now).1 e cn =
                paNomB s e cn := by
              unfold paNomB
              rw [hpaframe e he]
            rw [hppp]
            exact hq4 cn e
      · -- Cohorts Invited
        by_cases hcn2 : cn = cohortName
        · rw [hcn2, coInvB_eq_some hcosome e]
          by_cases he : e ∈ empIds
          · obtain ⟨q, hfq, hg⟩ := hpagood e he
            rw [paInvB_eq_some hfq cohortName]
            refine decide_eq_decide.mpr ?_
            have hm := hg.2.2.1 cohortName
            rw [coPostMem_def] at hm
            have hcom := hcom2 e
            cases hop : findParticipant s e with
            | some p0 =>
              rw [hop, basePaSet_some] at hm
              have hpre := hq5 cohortName e
              rw [coInvB_eq_some hco e, paInvB_eq_some hop cohortName]
                at hpre
              have hpre2 := decide_eq_decide.mp hpre
              constructor
              · intro hx
                rcases hcom.mp hx with h1 | ⟨h1, _⟩
                · exact hm.mpr (Or.inl (hpre2.mp h1))
                · exact hm.mpr (Or.inr ⟨h1, rfl⟩)
              · intro hx
                rcases hm.mp hx with h1 | ⟨h1, _⟩
                · exact hcom.mpr (Or.inl (hpre2.mpr h1))
                · exact hcom.mpr (Or.inr ⟨h1, he⟩)
            | none =>
              rw [hop, basePaSet_none] at hm
              have hpre := hq5 cohortName e
              rw [coInvB_eq_some hco e, paInvB_eq_none hop cohortName]
                at hpre
              have hnotin : e ∉ pySetOfCell c.invited := by
                simpa using hpre
              constructor
              · intro hx
                rcases hcom.mp hx with h1 | ⟨h1, _⟩
                · exact absurd h1 hnotin
                · exact hm.mpr (Or.inr ⟨h1, rfl⟩)
              · intro hx
                rcases hm.mp hx with h1 | ⟨h1, _⟩
                · exact absurd h1 (List.not_mem_nil cohortName)
                · exact hcom.mpr (Or.inr ⟨h1, he⟩)
          · have hppp : paInvB (updateCohortMembership s cohortName empIds
                absentIds mn mi mj nb nd "add" now).1 e cohortName =
                paInvB s e cohortName := by
              unfold paInvB
              rw [hpaframe e he]
            rw [hppp]
            have hpre := hq5 cohortName e
            rw [coInvB_eq_some hco e] at hpre
            rw [← hpre]
            refine decide_eq_decide.mpr ?_
            have hcom := hcom2 e
            constructor
            · intro hx
              rcases hcom.mp hx with h1 | ⟨_, h2⟩
              · exact h1
              · exact absurd h2 he
            · intro hx
              exact hcom.mpr (Or.inl hx)
        · have hcoB : coInvB (updateCohortMembership s cohortName empIds
              absentIds mn mi mj nb nd "add" now).1 cn e =
              coInvB s cn e := by
            unfold coInvB
            rw [hcoframe cn hcn2]
          rw [hcoB]
          by_cases he : e ∈ empIds
          · obtain ⟨q, hfq, hg⟩ := hpagood e he
            rw [paInvB_eq_some hfq cn]
            have hm := hg.2.2.1 cn
            rw [coPostMem_def] at hm
            cases hop : findParticipant s e with
            | some p0 =>
              rw [hop, basePaSet_some] at hm
              have hpre := hq5 cn e
              rw [paInvB_eq_some hop cn] at hpre
              rw [hpre]
              refine decide_eq_decide.mpr ?_
              constructor
              · intro hx
                exact hm.mpr (Or.inl hx)
              · intro hx
                rcases hm.mp hx with h1 | ⟨_, h2⟩
                · exact h1
                · exact absurd h2 hcn2
            | none =>
              rw [hop, basePaSet_none] at hm
              have hpre := hq5 cn e
              rw [paInvB_eq_none hop cn] at hpre
              rw [hpre]
              symm
              refine decide_eq_false ?_
              intro hx
              rcases hm.mp hx with h1 | ⟨_, h2⟩
              · exact List.not_mem_nil cn h1
              · exact hcn2 h2
          · have hppp : paInvB (updateCohortMembership s cohortName empIds
                absentIds mn mi mj nb nd "add" now).1 e cn =
                paInvB s e cn := by
              unfold paInvB
              rw [hpaframe e he]
            rw [hppp]
            exact hq5 cn e
      · -- Cohorts Joined
        by_cases hcn2 : cn = cohortName
        · rw [hcn2, coJoinB_eq_some hcosome e]
          by_cases he : e ∈ empIds
          · obtain ⟨q, hfq, hg⟩ := hpagood e he
            rw [paJoinB_eq_some hfq cohortName]
            refine decide_eq_decide.mpr ?_
            have hm := hg.2.2.2.1 cohortName
            rw [coPostMem_def] at hm
            have hcom := hcom3 e
            cases hop : findParticipant s e with
            | some p0 =>
              rw [hop, basePaSet_some] at hm
              have hpre := hq6 cohortName e
              rw [coJoinB_eq_some hco e, paJoinB_eq_some hop cohortName]
                at hpre
              have hpre2 := decide_eq_decide.mp hpre
              constructor
              · intro hx
                rcases hcom.mp hx with h1 | ⟨h1, _⟩
                · exact hm.mpr (Or.inl (hpre2.mp h1))
                · exact hm.mpr (Or.inr ⟨h1, rfl⟩)
              · intro hx
                rcases hm.mp hx with h1 | ⟨h1, _⟩
                · exact hcom.mpr (Or.inl (hpre2.mpr h1))
                · exact hcom.mpr (Or.inr ⟨h1, he⟩)
            | none =>
              rw [hop, basePaSet_none] at hm
              have hpre := hq6 cohortName e
              rw [coJoinB_eq_some hco e, paJoinB_eq_none hop cohortName]
                at hpre
              have hnotin : e ∉ pySetOfCell c.joined := by
                simpa using hpre
              constructor
              · intro hx
                rcases hcom.mp hx with h1 | ⟨h1, _⟩
                · exact absurd h1 hnotin
                · exact hm.mpr (Or.inr ⟨h1, rfl⟩)
              · intro hx
                rcases hm.mp hx with h1 | ⟨h1, _⟩
                · exact absurd h1 (List.not_mem_nil cohortName)
                · exact hcom.mpr (Or.inr ⟨h1, he⟩)
          · have hppp : paJoinB (updateCohortMembership s cohortName empIds
                absentIds mn mi mj nb nd "add" now).1 e cohortName =
                paJoinB s e cohortName := by
              unfold paJoinB
              rw [hpaframe e he]
            rw [hppp]
            have hpre := hq6 cohortName e
            rw [coJoinB_eq_some hco e] at hpre
            rw [← hpre]
            refine decide_eq_decide.mpr ?_
            have hcom := hcom3 e
            constructor
            · intro hx
              rcases hcom.mp hx with h1 | ⟨_, h2⟩
              · exact h1
              · exact absurd h2 he
            · intro hx
              exact hcom.mpr (Or.inl hx)
        · have hcoB : coJoinB (updateCohortMembership s cohortName empIds
              absentIds mn mi mj nb nd "add" now).1 cn e =
              coJoinB s cn e := by
            unfold coJoinB
            rw [hcoframe cn hcn2]
          rw [hcoB]
          by_cases he : e ∈ empIds
          · obtain ⟨q, hfq, hg⟩ := hpagood e he
            rw [paJoinB_eq_some hfq cn]
            have hm := hg.2.2.2.1 cn
            rw [coPostMem_def] at hm
            cases hop : findParticipant s e with
            | some p0 =>
              rw [hop, basePaSet_some] at hm
              have hpre := hq6 cn e
              rw [paJoinB_eq_some hop cn] at hpre
              rw [hpre]
              refine decide_eq_decide.mpr ?_
              constructor
              · intro hx
                exact hm.mpr (Or.inl hx)
              · intro hx
                rcases hm.mp hx with h1 | ⟨_, h2⟩
                · exact h1
                · exact absurd h2 hcn2
            | none =>
              rw [hop, basePaSet_none] at hm
              have hpre := hq6 cn e
              rw [paJoinB_eq_none hop cn] at hpre
              rw [hpre]
              symm
              refine decide_eq_false ?_
              intro hx
              rcases hm.mp hx with h1 | ⟨_, h2⟩
              · exact List.not_mem_nil cn h1
              · exact hcn2 h2
          · have hppp : paJoinB (updateCohortMembership s cohortName empIds
                absentIds mn mi mj nb nd "add" now).1 e cn =
                paJoinB s e cn := by
              unfold paJoinB
              rw [hpaframe e he]
            rw [hppp]
            exact hq6 cn e
    · unfold StateCellsWF
      refine ⟨?_, ?_, ?_⟩
      · intro r hr
        rw [updateCohortMembership_found hco hcn hne hflag] at hr
        exact hcE r hr
      · intro p hp
        rw [hparts] at hp
        refine cohortFold_rows (fun p => CellWF p.eventsRegistered ∧
            CellWF p.eventsParticipated ∧ CellWF p.eventsHosted ∧
            CellWF p.cohortsNominated ∧ CellWF p.cohortsInvited ∧
            CellWF p.cohortsJoined) s.employees absentIds cohortName mn mi
          mj "add" nb nd now ?_ ?_ empIds
          (s.participants, s.couldNotFind, false) hcP p hp
        · intro b hQ
          exact ⟨hQ.1, hQ.2.1, hQ.2.2.1,
            (coDim_add cohortName b.cohortsNominated mn hfc hcn
              hQ.2.2.2.1).2,
            (coDim_add cohortName b.cohortsInvited mi hfc hcn
              hQ.2.2.2.2.1).2,
            (coDim_add cohortName b.cohortsJoined mj hfc hcn
              hQ.2.2.2.2.2).2⟩
        · intro k
          exact ⟨cellWF_empty, cellWF_empty, cellWF_empty,
            (coNew_dim_mem cohortName mn hfc hcn).2,
            (coNew_dim_mem cohortName mi hfc hcn).2,
            (coNew_dim_mem cohortName mj hfc hcn).2⟩
      · intro r hr
        rw [updateCohortMembership_found hco hcn hne hflag] at hr
        rcases mem_updateFirst hr with h | ⟨b, hb, _, hpb⟩
        · exact hcC r h
        · rw [hpb]
          exact ⟨(cohortRowApply_dim_mem empIds mn c.nominated hids
              hwell.1).2,
            (cohortRowApply_dim_mem empIds mi c.invited hids
              hwell.2.1).2,
            (cohortRowApply_dim_mem empIds mj c.joined hids
              hwell.2.2).2⟩

theorem addOp_preserves (s : AppState) (op : AddOp) (hwf : AddOpWF op)
    (hcons : Consistent s) (hcells : StateCellsWF s) :
    Consistent (applyAddOp s op) ∧ StateCellsWF (applyAddOp s op) := by
  cases op with
  | eventUpd empIds absentIds eventId mr mp mh now =>
    exact eventOp_preserves s empIds absentIds eventId now mr mp mh hwf.1
      hwf.2 hcons hcells
  | cohortAdd cohortName empIds absentIds mn mi mj nb nd now =>
    exact cohortOp_preserves s cohortName empIds absentIds mn mi mj nb nd
      now hwf.1 hwf.2 hcons hcells

theorem addOps_preserve : ∀ (ops : List AddOp) (s : AppState),
    (∀ op ∈ ops, AddOpWF op) → Consistent s → StateCellsWF s →
    Consistent (applyAddOps s ops) ∧ StateCellsWF (applyAddOps s ops)
  | [], _, _, hc, hw => ⟨hc, hw⟩
  | op :: ops, s, h, hc, hw => by
    have h1 := addOp_preserves s op (h op (List.mem_cons_self _ _)) hc hw
    exact addOps_preserve ops _
      (fun o ho => h o (List.mem_cons_of_mem _ ho)) h1.1 h1.2

/-- C1 (corrected): starting from a consistent state whose list cells have
no empty entries, after any sequence of add-mode update operations — event
status updates and `"add"`-mode cohort membership updates, no concurrent
interleaving — whose employee keys are nonempty and comma-free and whose
event key / cohort name is comma-free (`AddOpWF`), every employee key
appears in an event's Registrations list exactly when the event appears in
that employee's Participant row's Events Registered list, and the same
biconditional holds for the Participated/Hosted dimensions and for the
cohort Nominated/Invited/Joined dimensions (`Consistent`).  Without the
key provisos the original claim fails (`c1_counterexample`): a
comma-containing employee key is stored verbatim as the new Participant
row's key but splits into fragments inside the event's list cell. -/
theorem c1_cross_table_consistency (s : AppState) (ops : List AddOp)
    (hwf : ∀ op ∈ ops, AddOpWF op) (hcons : Consistent s)
    (hcells : StateCellsWF s) :
    Consistent (applyAddOps s ops) :=
  (addOps_preserve ops s hwf hcons hcells).1

theorem consistent_exEventState : Consistent exEventState := by
  refine consistent_of_empty_cells exEventState ?_ ?_ ?_
  · intro r hr
    rcases List.mem_singleton.mp hr with rfl
    exact ⟨rfl, rfl, rfl⟩
  · intro p hp
    cases hp
  · intro c hc
    cases hc

theorem c1_witness :
    Consistent (applyAddOps exEventState
      [AddOp.eventUpd ["E1"] [] "D20240101-01" (some true) none none "t",
       AddOp.cohortAdd "Cohort9" ["E1"] [] true false false "" "" "t2"]) :=
  c1_cross_table_consistency exEventState
    [AddOp.eventUpd ["E1"] [] "D20240101-01" (some true) none none "t",
     AddOp.cohortAdd "Cohort9" ["E1"] [] true false false "" "" "t2"]
    (by decide) consistent_exEventState (by decide)

/-- C1 counterexample for the original claim: `exMixedState` is consistent
(every list cell is empty), but one add-mode event update whose employee
key `"A,B"` contains a comma breaks the invariant — the event's
Registrations cell re-splits into `"A"` and `"B"` while the new Participant
row is keyed by the verbatim string `"A,B"`, so `"A"` is registered on the
event side with no matching participant row. -/
theorem c1_counterexample :
    Consistent exMixedState ∧
    ¬ Consistent (applyAddOps exMixedState
      [AddOp.eventUpd ["A,B"] [] "D1" (some true) none none "t"]) := by
  constructor
  · refine consistent_of_empty_cells exMixedState ?_ ?_ ?_
    · intro r hr
      rcases List.mem_cons.mp hr with rfl | hr
      · exact ⟨rfl, rfl, rfl⟩
      · rcases List.mem_singleton.mp hr with rfl
        exact ⟨rfl, rfl, rfl⟩
    · intro p hp
      cases hp
    · intro c hc
      rcases List.mem_singleton.mp hc with rfl
      exact ⟨rfl, rfl, rfl⟩
  · intro h
    exact absurd (h.1 "D1" "A") (by decide)
